import Mathlib

/-!
# Service discovery: reconciliation engine and AWS polling driver

A shallow embedding of `discovery/service_discovery_instance.go` and
`discovery/aws_service_discovery_instance.go`.

* Go maps are association lists with string keys.  Go leaves the iteration order of a
  map unspecified; the embedding iterates in list order.  The statements on the engine
  are quantified over all tracked maps, hence over all orders in which the deletion
  step can visit the flagged entries; the driver visits its services in the order in
  which it first saw them.
* The configuration client, the service handles it returns and the reload agent are
  external collaborators.  They are a record of answer functions (`Client`) that see
  the whole history of calls made so far (`trace`), so every behaviour of the store
  that is a function of the calls it received is covered.
* A Go `error` is `Option String` (`none` is `nil`); a pair `(value, error)` is
  `Except String value`.  A nil-pointer dereference is the outcome `nilDereference`.
-/

set_option autoImplicit false
set_option linter.dupNamespace false

deriving instance DecidableEq for Except

namespace Discovery

/-! ## Go maps -/

/-- Map read `m[k]` with the comma-ok flag: `none` when the key is missing. -/
def mapGet {β : Type} : List (String × β) → String → Option β
  | [], _ => none
  | (k, v) :: rest, key => if k = key then some v else mapGet rest key

/-- In-place change of the value stored under `key` (through the pointer the map holds). -/
def mapModify {β : Type} (m : List (String × β)) (key : String) (f : β → β) :
    List (String × β) :=
  m.map (fun e => if e.1 = key then (e.1, f e.2) else e)

/-- Map write `m[k] = v`: overwrite when the key is there, add the entry otherwise. -/
def mapSet {β : Type} : List (String × β) → String → β → List (String × β)
  | [], key, v => [(key, v)]
  | (k, w) :: rest, key, v =>
    if k = key then (k, v) :: rest else (k, w) :: mapSet rest key v

/-- Builtin `delete(m, k)`. -/
def mapDelete {β : Type} (m : List (String × β)) (key : String) : List (String × β) :=
  m.filter (fun e => decide (e.1 ≠ key))

/-- The keys of a map. -/
def mapKeys {β : Type} (m : List (String × β)) : List String :=
  m.map Prod.fst

/-! ## Data model of the reconciliation engine -/

/-- The scaling policy `configuration.ScalingParams`. -/
structure ScalingParams where
  BaseSlots : Int
  SlotsGrowthType : String
  SlotsIncrement : Int
deriving DecidableEq, Repr

/-- A member server `configuration.ServiceServer`. -/
structure ServiceServer where
  Address : String
  Port : Int
deriving DecidableEq, Repr

/-- The interface `ServiceInstance`: the values its four getters return. -/
structure ServiceInstance where
  GetName : String
  GetBackendName : String
  Changed : Bool
  GetServers : List ServiceServer
deriving DecidableEq, Repr

/-- The handle `*configuration.Service`: the backend name and scaling policy it was
created with and the transaction id bound to it. -/
structure Service where
  name : String
  scaling : ScalingParams
  transactionID : String
deriving DecidableEq, Repr

/-- A tracked service: the handle and the pending-deletion flag. -/
structure confService where
  confService : Service
  deleted : Bool
deriving DecidableEq, Repr

/-- The engine parameters `discoveryInstanceParams`. -/
structure discoveryInstanceParams where
  Whitelist : List String
  Blacklist : List String
  ServerSlotsBase : Int
  SlotsGrowthType : String
  SlotsIncrement : Int
deriving DecidableEq, Repr

/-- One call on the configuration client, on a service handle or on the reload agent,
with the answer it got.  `service` is the engine's key of the tracked service the call
is made for, `backend` the name the handle was created with, `tx` the transaction id
bound to the handle at the time of the call. -/
inductive Event where
  | getVersion (r : Except String Int)
  | startTransaction (version : Int) (r : Except String String)
  | newService (service backend : String) (scaling : ScalingParams) (r : Option String)
  | init (service backend tx : String) (r : Except String Bool)
  | setTransactionID (service backend tx : String)
  | update (service backend tx : String) (servers : List ServiceServer)
      (r : Except String Bool)
  | delete (service backend tx : String) (r : Option String)
  | updateScalingParams (service backend : String) (scaling : ScalingParams)
      (r : Option String)
  | deleteTransaction (tx : String)
  | commitTransaction (tx : String) (r : Option String)
  | reload
deriving DecidableEq, Repr

/-- The behaviour of the configuration store: the answer to each call, given the calls
made so far.  `DeleteTransaction` and `Reload` return nothing the engine reads. -/
structure Client where
  GetVersion : List Event → Except String Int
  StartTransaction : List Event → Int → Except String String
  NewService : List Event → String → ScalingParams → Option String
  Init : List Event → Service → String → Except String Bool
  Update : List Event → Service → List ServiceServer → Except String Bool
  Delete : List Event → Service → Option String
  UpdateScalingParams : List Event → Service → ScalingParams → Option String
  CommitTransaction : List Event → String → Option String

/-- The engine `ServiceDiscoveryInstance`.  The fields `client` and `reloadAgent` of the
source are the `Client` argument of each operation together with `trace`, the calls made
on them so far, oldest first. -/
structure ServiceDiscoveryInstance where
  services : List (String × confService)
  params : discoveryInstanceParams
  transactionID : String
  trace : List Event

/-- How a call of `UpdateServices` ends: it returns its `error` value, or the goroutine
panics on a nil-pointer dereference. -/
inductive Outcome where
  | returned (err : Option String)
  | nilDereference
deriving DecidableEq, Repr

/-- How the loop over the snapshots ends: it runs to the end with the reload flag, it
leaves the function with an error, or it panics. -/
inductive LoopResult where
  | done (reload : Bool)
  | failed (e : String)
  | nilDereference
deriving DecidableEq, Repr

/-! ## The reconciliation engine -/

/-- `NewServiceDiscoveryInstance`: no tracked service, no transaction. -/
def NewServiceDiscoveryInstance (params : discoveryInstanceParams)
    (trace : List Event) : ServiceDiscoveryInstance :=
  { services := [], params := params, transactionID := "", trace := trace }

/-- Record a call. -/
def ServiceDiscoveryInstance.log (s : ServiceDiscoveryInstance) (e : Event) :
    ServiceDiscoveryInstance :=
  { s with trace := s.trace ++ [e] }

/-- The scaling policy built from the engine parameters at each `NewService` call. -/
def discoveryInstanceParams.scaling (p : discoveryInstanceParams) : ScalingParams :=
  { BaseSlots := p.ServerSlotsBase, SlotsGrowthType := p.SlotsGrowthType,
    SlotsIncrement := p.SlotsIncrement }

/-- `startTransaction`: read the version, open a transaction on it, keep its id. -/
def startTransaction (client : Client) (s : ServiceDiscoveryInstance) :
    Option String × ServiceDiscoveryInstance :=
  match client.GetVersion s.trace with
  | .error e => (some e, s.log (.getVersion (.error e)))
  | .ok version =>
    match client.StartTransaction (s.trace ++ [.getVersion (.ok version)]) version with
    | .error e =>
      (some e, (s.log (.getVersion (.ok version))).log (.startTransaction version (.error e)))
    | .ok id =>
      (none, { (s.log (.getVersion (.ok version))).log
                  (.startTransaction version (.ok id)) with transactionID := id })

/-- `markForDeletion`: flag every tracked service. -/
def markForDeletion (s : ServiceDiscoveryInstance) : ServiceDiscoveryInstance :=
  { s with services := s.services.map (fun e => (e.1, { e.2 with deleted := true })) }

/-- The whitelist loop of `serviceNotTracked`: `false` at the first match, `true` after
the last entry. -/
def whitelistLoop : List String → String → Bool
  | [], _ => true
  | se :: rest, service => if se = service then false else whitelistLoop rest service

/-- The blacklist loop of `serviceNotTracked`: `true` at the first match, `false` after
the last entry. -/
def blacklistLoop : List String → String → Bool
  | [], _ => false
  | se :: rest, service => if se = service then true else blacklistLoop rest service

/-- `serviceNotTracked`: is the service excluded by the whitelist/blacklist policy? -/
def serviceNotTracked (s : ServiceDiscoveryInstance) (service : String) : Bool :=
  if s.params.Whitelist.length > 0 then whitelistLoop s.params.Whitelist service
  else blacklistLoop s.params.Blacklist service

/-- `initService`: bind the transaction to the tracked handle, or create the handle,
`Init` it and track it.  `Init` binds the transaction id it is given to the handle. -/
def initService (client : Client) (s : ServiceDiscoveryInstance) (service : ServiceInstance) :
    Except String Bool × ServiceDiscoveryInstance :=
  match mapGet s.services service.GetName with
  | some se =>
    (.ok false,
      { s with
        services := mapModify s.services service.GetName (fun c =>
          { confService := { c.confService with transactionID := s.transactionID },
            deleted := false })
        trace := s.trace ++
          [.setTransactionID service.GetName se.confService.name s.transactionID] })
  | none =>
    match client.NewService s.trace service.GetBackendName s.params.scaling with
    | some e =>
      (.error e, s.log (.newService service.GetName service.GetBackendName
        s.params.scaling (some e)))
    | none =>
      let s1 := s.log (.newService service.GetName service.GetBackendName
        s.params.scaling none)
      let se : Service :=
        { name := service.GetBackendName, scaling := s.params.scaling, transactionID := "" }
      match client.Init s1.trace se s.transactionID with
      | .error e =>
        (.error e, s1.log (.init service.GetName se.name s.transactionID (.error e)))
      | .ok reload =>
        (.ok reload,
          { s1 with
            services := s1.services ++
              [(service.GetName,
                { confService := { se with transactionID := s.transactionID },
                  deleted := false })]
            trace := s1.trace ++
              [.init service.GetName se.name s.transactionID (.ok reload)] })

/-- `deleteTransaction`: discard the transaction, forget its id. -/
def deleteTransaction (s : ServiceDiscoveryInstance) : ServiceDiscoveryInstance :=
  { s with trace := s.trace ++ [.deleteTransaction s.transactionID], transactionID := "" }

/-- `commitTransaction`: commit the transaction, forget its id, hand back the error. -/
def commitTransaction (client : Client) (s : ServiceDiscoveryInstance) :
    Option String × ServiceDiscoveryInstance :=
  (client.CommitTransaction s.trace s.transactionID,
    { s with
      trace := s.trace ++
        [.commitTransaction s.transactionID (client.CommitTransaction s.trace s.transactionID)]
      transactionID := "" })

/-- The loop of `UpdateServices` over the snapshots, with the running reload flag. -/
def updateLoop (client : Client) :
    List ServiceInstance → Bool → ServiceDiscoveryInstance →
      LoopResult × ServiceDiscoveryInstance
  | [], reload, s => (.done reload, s)
  | service :: rest, reload, s =>
    if serviceNotTracked s service.GetName then updateLoop client rest reload s
    else if !service.Changed then
      match mapGet s.services service.GetName with
      | none => (.nilDereference, s)
      | some _ =>
        updateLoop client rest reload
          { s with services := mapModify s.services service.GetName
                    (fun c => { c with deleted := false }) }
    else
      match initService client s service with
      | (.error e, s1) => (.failed e, deleteTransaction s1)
      | (.ok r, s1) =>
        match mapGet s1.services service.GetName with
        | none => (.nilDereference, s1)
        | some se =>
          match client.Update s1.trace se.confService service.GetServers with
          | .error e =>
            (.failed e, deleteTransaction (s1.log (.update service.GetName
              se.confService.name se.confService.transactionID service.GetServers
              (.error e))))
          | .ok r2 =>
            updateLoop client rest ((reload || r) || r2)
              (s1.log (.update service.GetName se.confService.name
                se.confService.transactionID service.GetServers (.ok r2)))

/-- The loop of `removeDeleted` over the tracked services: the reload flag, the entries
that stay tracked and the calls made.  A flagged entry gets the transaction bound and
`Delete` called; it leaves the map when `Delete` returns no error. -/
def removeDeletedLoop (client : Client) (tx : String) :
    List (String × confService) → Bool → List Event →
      Bool × List (String × confService) × List Event
  | [], reload, tr => (reload, [], tr)
  | (name, se) :: rest, reload, tr =>
    if se.deleted then
      match client.Delete (tr ++ [.setTransactionID name se.confService.name tx])
          { se.confService with transactionID := tx } with
      | none =>
        removeDeletedLoop client tx rest true
          (tr ++ [.setTransactionID name se.confService.name tx,
                  .delete name se.confService.name tx none])
      | some e =>
        let r := removeDeletedLoop client tx rest reload
          (tr ++ [.setTransactionID name se.confService.name tx,
                  .delete name se.confService.name tx (some e)])
        (r.1, (name, { se with confService :=
                        { se.confService with transactionID := tx } }) :: r.2.1, r.2.2)
    else
      let r := removeDeletedLoop client tx rest reload tr
      (r.1, (name, se) :: r.2.1, r.2.2)

/-- `removeDeleted`: delete every tracked service still flagged. -/
def removeDeleted (client : Client) (s : ServiceDiscoveryInstance) :
    Bool × ServiceDiscoveryInstance :=
  let r := removeDeletedLoop client s.transactionID s.services false s.trace
  (r.1, { s with services := r.2.1, trace := r.2.2 })

/-- `UpdateServices`: one reconcile pass. -/
def UpdateServices (client : Client) (s : ServiceDiscoveryInstance)
    (services : List ServiceInstance) : Outcome × ServiceDiscoveryInstance :=
  match startTransaction client s with
  | (some err, s1) => (.returned (some err), s1)
  | (none, s1) =>
    match updateLoop client services false (markForDeletion s1) with
    | (.failed e, s2) => (.returned (some e), s2)
    | (.nilDereference, s2) => (.nilDereference, s2)
    | (.done reload, s2) =>
      if reload || (removeDeleted client s2).1 then
        match commitTransaction client (removeDeleted client s2).2 with
        | (some err, s3) => (.returned (some err), s3)
        | (none, s3) => (.returned none, s3.log .reload)
      else (.returned none, deleteTransaction (removeDeleted client s2).2)

/-! ## The AWS driver -/

/-- Tag key that carries the service name. -/
def HAProxyServiceNameTag : String := "HAProxy:Service:Name"

/-- Tag key that carries the service-level port. -/
def HAProxyServicePortTag : String := "HAProxy:Service:Port"

/-- Tag key that carries the instance-level port. -/
def HAProxyInstancePortTag : String := "HAProxy:Instance:Port"

/-- Modelled from the spec: the constant `models.AwsRegionIPV4AddressPrivate` of the
client library, the private address-family preference. -/
def AwsRegionIPV4AddressPrivate : String := "private"

/-- Modelled from the spec: the constant `models.AwsRegionIPV4AddressPublic` of the
client library, the public address-family preference. -/
def AwsRegionIPV4AddressPublic : String := "public"

/-- A `time.Time` value.  The source compares two of them with `!=`; the embedding
takes a time as one comparable number. -/
abbrev Time := Int

/-- An EC2 tag.  The inventory API fills in key and value of every tag it returns. -/
structure Tag where
  Key : String
  Value : String
deriving DecidableEq, Repr

/-- An EC2 instance `types.Instance`, the fields the driver reads.  The inventory API
fills in the id and the launch time of every instance it returns; an address may be
absent (a nil pointer). -/
structure Instance where
  InstanceId : String
  LaunchTime : Time
  Tags : List Tag
  PrivateIpAddress : Option String
  PublicIpAddress : Option String
deriving DecidableEq, Repr

/-- A reservation of the inventory answer. -/
structure Reservation where
  Instances : List Instance
deriving DecidableEq, Repr

/-- The inventory answer `ec2.DescribeInstancesOutput`. -/
structure DescribeInstancesOutput where
  Reservations : List Reservation
deriving DecidableEq, Repr

/-- An inventory query filter `types.Filter`. -/
structure Filter where
  Name : Option String
  Values : List String
deriving DecidableEq, Repr

/-- A configured filter `models.AwsFilters`. -/
structure AwsFilters where
  Key : Option String
  Value : Option String
deriving DecidableEq, Repr

/-- The driver parameters `models.AwsRegion`, the fields the driver reads in a poll
cycle. -/
structure AwsRegion where
  Region : String
  Name : String
  IPV4Address : String
  Allowlist : List AwsFilters
  Denylist : List AwsFilters
  ServerSlotsBase : Int
  ServerSlotsGrowthType : String
  ServerSlotsGrowthIncrement : Int
deriving DecidableEq, Repr

/-- A discovered service `awsService`; `instances` is keyed by instance id. -/
structure awsService where
  name : String
  region : String
  instanceName : String
  ipv4 : String
  instances : List (String × Instance)
  changed : Bool
deriving DecidableEq, Repr

/-- The driver `awsInstance`: parameters, fingerprint state (service name to instance id
to launch time) and the engine.  Timer, channels and context are not part of the
embedding. -/
structure awsInstance where
  params : AwsRegion
  state : List (String × List (String × Time))
  discoveryConfig : ServiceDiscoveryInstance

/-- The inventory API of one poll cycle: the answer to the `n`-th `DescribeInstances`
call of the cycle (0 is the allow query, 1 the deny query) with the given filters. -/
abbrev InventoryAPI := Nat → List Filter → Except String DescribeInstancesOutput

/-- `aws.ToString`: the empty string for a nil pointer. -/
def ToString (p : Option String) : String := p.getD ""

/-- `awsService.GetName`. -/
def awsService.GetName (a : awsService) : String := a.name

/-- `awsService.GetBackendName`: the format `aws-%s-%s-%s`. -/
def awsService.GetBackendName (a : awsService) : String :=
  "aws-" ++ a.region ++ "-" ++ a.instanceName ++ "-" ++ a.GetName

/-- `awsService.Changed`. -/
def awsService.Changed (a : awsService) : Bool := a.changed

/-- The digit loop of `strconv.ParseUint` for base 10 and 64 bits, with the variable `n`:
a character that is no decimal digit ends the loop with a syntax error, a digit that
would take `n` over `maxUint64` ends it with the value `maxUint64` and a range error.
The loop reads bytes; a character outside ASCII is made of bytes that are no digits.  The
error is given by the text of the `Err` field of the `*NumError`. -/
def parseUintLoop : List Char → Nat → Nat × Option String
  | [], n => (n, none)
  | c :: rest, n =>
    if '0' ≤ c ∧ c ≤ '9' then
      if n ≥ (2 ^ 64 - 1) / 10 + 1 then (2 ^ 64 - 1, some "value out of range")
      else if n * 10 + (c.toNat - 48) > 2 ^ 64 - 1 then
        (2 ^ 64 - 1, some "value out of range")
      else parseUintLoop rest (n * 10 + (c.toNat - 48))
    else (0, some "invalid syntax")

/-- `strconv.ParseUint(s, 10, 0)` on a 64-bit platform. -/
def ParseUint (s : List Char) : Nat × Option String :=
  if s = [] then (0, some "invalid syntax") else parseUintLoop s 0

/-- The second half of `strconv.ParseInt(s, 10, 0)` on a 64-bit platform, after the
sign is picked off (`neg`) and the rest went through `ParseUint` (`r`): a syntax error
gives 0, a value beyond the bounds of `int64` the nearest bound and a range error. -/
def parseIntRange (neg : Bool) (r : Nat × Option String) : Int × Option String :=
  if r.2 = some "invalid syntax" then (0, some "invalid syntax")
  else if neg = false ∧ r.1 ≥ 2 ^ 63 then ((2 ^ 63 : Int) - 1, some "value out of range")
  else if neg = true ∧ r.1 > 2 ^ 63 then (-(2 ^ 63 : Int), some "value out of range")
  else if neg = true then (-(r.1 : Int), none)
  else ((r.1 : Int), none)

/-- `strconv.ParseInt(s, 10, 0)` on a 64-bit platform. -/
def ParseInt (s : List Char) : Int × Option String :=
  if s = [] then (0, some "invalid syntax")
  else
    parseIntRange (decide (s.head? = some '-'))
      (ParseUint (if s.head? = some '+' ∨ s.head? = some '-' then s.tail else s))

/-- The digit loop of the fast path of `strconv.Atoi` with the variable `n`; `none` at a
byte that is no decimal digit. -/
def atoiLoop : List Char → Nat → Option Nat
  | [], n => some n
  | c :: rest, n =>
    if '0' ≤ c ∧ c ≤ '9' then atoiLoop rest (n * 10 + (c.toNat - 48)) else none

/-- `strconv.Atoi` on a 64-bit platform.  A string of 1 to 18 bytes takes the fast path
(sign, then digits, which cannot overflow); every other string goes through
`ParseInt(s, 10, 0)`. -/
def Atoi (s : String) : Int × Option String :=
  if 0 < s.utf8ByteSize ∧ s.utf8ByteSize < 19 then
    if (s.data.head? = some '-' ∨ s.data.head? = some '+') ∧ s.data.tail = [] then
      (0, some "invalid syntax")
    else
      match atoiLoop
          (if s.data.head? = some '-' ∨ s.data.head? = some '+' then s.data.tail
            else s.data) 0 with
      | none => (0, some "invalid syntax")
      | some n => if s.data.head? = some '-' then (-(n : Int), none) else ((n : Int), none)
  else ParseInt s.data

/-- The tag loop of `instancePortFromEC2` with the named results `port` and `err`. -/
def instancePortLoop : List Tag → Int × Option String → Int × Option String
  | [], acc => acc
  | t :: rest, acc =>
    if t.Key = HAProxyServicePortTag then instancePortLoop rest (Atoi t.Value)
    else if t.Key = HAProxyInstancePortTag then Atoi t.Value
    else instancePortLoop rest acc

/-- `instancePortFromEC2`. -/
def instancePortFromEC2 (inst : Instance) : Int × Option String :=
  instancePortLoop inst.Tags (0, none)

/-- The loop of `GetServers` over the member instances. -/
def getServersLoop (ipv4 : String) :
    List (String × Instance) → List ServiceServer → List ServiceServer
  | [], servers => servers
  | (_, inst) :: rest, servers =>
    if ipv4 = AwsRegionIPV4AddressPrivate then
      if (ToString inst.PrivateIpAddress).length = 0 then
        getServersLoop ipv4 rest servers
      else
        getServersLoop ipv4 rest (servers ++
          [{ Address := ToString inst.PrivateIpAddress,
             Port := (instancePortFromEC2 inst).1 }])
    else if ipv4 = AwsRegionIPV4AddressPublic then
      if (ToString inst.PublicIpAddress).length = 0 then
        getServersLoop ipv4 rest servers
      else
        getServersLoop ipv4 rest (servers ++
          [{ Address := ToString inst.PublicIpAddress,
             Port := (instancePortFromEC2 inst).1 }])
    else getServersLoop ipv4 rest servers

/-- `awsService.GetServers`. -/
def awsService.GetServers (a : awsService) : List ServiceServer :=
  getServersLoop a.ipv4 a.instances []

/-- An `awsService` seen through the interface `ServiceInstance`. -/
def awsService.toServiceInstance (a : awsService) : ServiceInstance :=
  { GetName := a.GetName, GetBackendName := a.GetBackendName, Changed := a.Changed,
    GetServers := a.GetServers }

/-- `newAWSRegionInstance`: empty fingerprint state, an engine with empty whitelist and
blacklist and the scaling policy of the parameters. -/
def newAWSRegionInstance (params : AwsRegion) (trace : List Event) : awsInstance :=
  { params := params
    state := []
    discoveryConfig := NewServiceDiscoveryInstance
      { Whitelist := [], Blacklist := [], ServerSlotsBase := params.ServerSlotsBase,
        SlotsGrowthType := params.ServerSlotsGrowthType,
        SlotsIncrement := params.ServerSlotsGrowthIncrement } trace }

/-- `filterConverter`. -/
def filterConverter (l : List AwsFilters) : List Filter :=
  l.map (fun filter => { Name := filter.Key, Values := [ToString filter.Value] })

/-- The tag loop of `serviceNameFromEC2` with the variables `name` and `port`. -/
def serviceNameLoop : List Tag → String × String → String × String
  | [], acc => acc
  | t :: rest, acc =>
    if t.Key = HAProxyServiceNameTag then serviceNameLoop rest (t.Value, acc.2)
    else if t.Key = HAProxyServicePortTag then serviceNameLoop rest (acc.1, t.Value)
    else serviceNameLoop rest acc

/-- `serviceNameFromEC2`: the service key `name-port`, or an error when a tag is
missing or empty. -/
def serviceNameFromEC2 (inst : Instance) : Except String String :=
  if (serviceNameLoop inst.Tags ("", "")).1.length = 0 ∨
      (serviceNameLoop inst.Tags ("", "")).2.length = 0 then
    .error ("missing metadata for instance " ++ inst.InstanceId)
  else
    .ok ((serviceNameLoop inst.Tags ("", "")).1 ++ "-" ++
      (serviceNameLoop inst.Tags ("", "")).2)

/-- Body of the allow loop of `updateServices`: file the instance under its service,
creating the empty service when it is not there. -/
def addInstance (params : AwsRegion) (mapService : List (String × awsService))
    (i : Instance) : List (String × awsService) :=
  match serviceNameFromEC2 i with
  | .error _ => mapService
  | .ok sn =>
    mapModify
      (match mapGet mapService sn with
        | some _ => mapService
        | none => mapSet mapService sn
            { name := sn, region := params.Region, instanceName := params.Name,
              ipv4 := params.IPV4Address, instances := [], changed := false })
      sn (fun s => { s with instances := mapSet s.instances i.InstanceId i })

/-- Body of the deny loop of `updateServices`: take the instance out of its service. -/
def removeInstance (mapService : List (String × awsService)) (i : Instance) :
    List (String × awsService) :=
  match serviceNameFromEC2 i with
  | .error _ => mapService
  | .ok sn =>
    match mapGet mapService sn with
    | none => mapService
    | some _ =>
      mapModify mapService sn (fun s =>
        { s with instances := mapDelete s.instances i.InstanceId })

/-- The loop of the Change Detector over the current members: `true` at the first
member that is missing from the fingerprint or has another launch time. -/
def changedLoop (fingerprint : List (String × Time)) : List (String × Instance) → Bool
  | [] => false
  | (_, inst) :: rest =>
    match mapGet fingerprint inst.InstanceId with
    | none => true
    | some v => if v ≠ inst.LaunchTime then true else changedLoop fingerprint rest

/-- The Change Detector, the closure that sets `changed` in `updateServices`.  Reading
the state under a name that is not there gives the nil map, which has length 0 and no
key. -/
def serviceChanged (state : List (String × List (String × Time))) (s : awsService) : Bool :=
  if ((mapGet state s.name).getD []).length ≠ s.instances.length then true
  else changedLoop ((mapGet state s.name).getD []) s.instances

/-- The fingerprint of a member set, the closure that fills `a.state[s.name]`. -/
def launchTimes : List (String × Instance) → List (String × Time) → List (String × Time)
  | [], hash => hash
  | (_, inst) :: rest, hash =>
    launchTimes rest (mapSet hash inst.InstanceId inst.LaunchTime)

/-- The last loop of `updateServices`: set `changed` on every service, collect the
services and replace their fingerprints. -/
def changeDetectorLoop :
    List (String × awsService) → List (String × List (String × Time)) → List awsService →
      List awsService × List (String × List (String × Time))
  | [], state, services => (services, state)
  | (_, s) :: rest, state, services =>
    changeDetectorLoop rest (mapSet state s.name (launchTimes s.instances []))
      (services ++ [{ s with changed := serviceChanged state s }])

/-- The filters of the allow query. -/
def allowFilters (params : AwsRegion) : List Filter :=
  [{ Name := some "tag-key", Values := [HAProxyServiceNameTag, HAProxyServicePortTag] },
   { Name := some "instance-state-name", Values := ["running"] }] ++
    filterConverter params.Allowlist

/-- The services map of `updateServices` after the allow loop and the deny loop.  A
failed deny query leaves the allow result as it is. -/
def buildServices (api : InventoryAPI) (params : AwsRegion)
    (io : DescribeInstancesOutput) : List (String × awsService) :=
  if params.Denylist.length > 0 then
    match api 1 (filterConverter params.Denylist) with
    | .error _ =>
      io.Reservations.foldl (fun m r => r.Instances.foldl (addInstance params) m) []
    | .ok deny =>
      deny.Reservations.foldl (fun m r => r.Instances.foldl removeInstance m)
        (io.Reservations.foldl (fun m r => r.Instances.foldl (addInstance params) m) [])
  else io.Reservations.foldl (fun m r => r.Instances.foldl (addInstance params) m) []

/-- The snapshot list `services` that `updateServices` hands to the engine, `none` when
the allow query fails. -/
def discoveredServices (api : InventoryAPI) (a : awsInstance) : Option (List awsService) :=
  match api 0 (allowFilters a.params) with
  | .error _ => none
  | .ok io => some (changeDetectorLoop (buildServices api a.params io) a.state []).1

/-- `updateServices`: one poll cycle of the driver. -/
def updateServices (api : InventoryAPI) (client : Client) (a : awsInstance) :
    Outcome × awsInstance :=
  match api 0 (allowFilters a.params) with
  | .error e => (.returned (some e), a)
  | .ok io =>
    ((UpdateServices client a.discoveryConfig
        ((changeDetectorLoop (buildServices api a.params io) a.state []).1.map
          awsService.toServiceInstance)).1,
      { a with
        state := (changeDetectorLoop (buildServices api a.params io) a.state []).2
        discoveryConfig := (UpdateServices client a.discoveryConfig
          ((changeDetectorLoop (buildServices api a.params io) a.state []).1.map
            awsService.toServiceInstance)).2 })

/-! ## Reading a trace -/

/-- The calls one pass of `UpdateServices` makes, oldest first. -/
def passEvents (client : Client) (s : ServiceDiscoveryInstance)
    (services : List ServiceInstance) : List Event :=
  (UpdateServices client s services).2.trace.drop s.trace.length

/-- How one pass of `UpdateServices` ends. -/
def passOutcome (client : Client) (s : ServiceDiscoveryInstance)
    (services : List ServiceInstance) : Outcome :=
  (UpdateServices client s services).1

/-- The engine after one pass of `UpdateServices`. -/
def passState (client : Client) (s : ServiceDiscoveryInstance)
    (services : List ServiceInstance) : ServiceDiscoveryInstance :=
  (UpdateServices client s services).2

/-- The error of a failed create or update call (`NewService`, `Init`, `Update`). -/
def Event.failure : Event → Option String
  | .newService _ _ _ (some e) => some e
  | .init _ _ _ (.error e) => some e
  | .update _ _ _ _ (.error e) => some e
  | _ => none

/-- A create or update call: `NewService`, `Init` or `Update`. -/
def Event.isCreateUpdate : Event → Bool
  | .newService _ _ _ _ => true
  | .init _ _ _ _ => true
  | .update _ _ _ _ _ => true
  | _ => false

/-- A call the loop over the snapshots can make. -/
def Event.isLoopCall : Event → Bool
  | .newService _ _ _ _ => true
  | .init _ _ _ _ => true
  | .setTransactionID _ _ _ => true
  | .update _ _ _ _ _ => true
  | _ => false

/-- A call the deletion step can make. -/
def Event.isDeletionCall : Event → Bool
  | .setTransactionID _ _ _ => true
  | .delete _ _ _ _ => true
  | _ => false

/-- A call on a service handle or a `NewService` call: everything but the transaction
calls and the reload. -/
def Event.isBackendCall : Event → Bool
  | .newService _ _ _ _ => true
  | .init _ _ _ _ => true
  | .setTransactionID _ _ _ => true
  | .update _ _ _ _ _ => true
  | .delete _ _ _ _ => true
  | .updateScalingParams _ _ _ _ => true
  | _ => false

/-- The reload flag a call reports: `Init` or `Update` returning `true`, or a `Delete`
that succeeds. -/
def Event.reloadFlag : Event → Bool
  | .init _ _ _ (.ok true) => true
  | .update _ _ _ _ (.ok true) => true
  | .delete _ _ _ none => true
  | _ => false

/-- The pass-level flag `needsReload`: the OR of the reload flags of the calls. -/
def needsReload (evs : List Event) : Bool := evs.any Event.reloadFlag

/-- The id of the transaction a successful `StartTransaction` opens. -/
def Event.opened : Event → Option String
  | .startTransaction _ (.ok id) => some id
  | _ => none

/-- A `CommitTransaction` call. -/
def Event.isCommit : Event → Bool
  | .commitTransaction _ _ => true
  | _ => false

/-- A `DeleteTransaction` call. -/
def Event.isDiscard : Event → Bool
  | .deleteTransaction _ => true
  | _ => false

/-- A `Reload` call. -/
def Event.isReload : Event → Bool
  | .reload => true
  | _ => false

/-- The tracked service a handle call or `NewService` call is made for. -/
def Event.service : Event → Option String
  | .newService n _ _ _ => some n
  | .init n _ _ _ => some n
  | .setTransactionID n _ _ => some n
  | .update n _ _ _ _ => some n
  | .delete n _ _ _ => some n
  | .updateScalingParams n _ _ _ => some n
  | _ => none

/-- The service a `Delete` call is made for. -/
def Event.deleteCall : Event → Option String
  | .delete n _ _ _ => some n
  | _ => none

/-- The service a `Delete` call that succeeds is made for. -/
def Event.deleted : Event → Option String
  | .delete n _ _ none => some n
  | _ => none

/-- The service a successful `Init` call creates. -/
def Event.created : Event → Option String
  | .init n _ _ (.ok _) => some n
  | _ => none

/-- The names of the snapshots the whitelist/blacklist policy includes. -/
def includedNames (s : ServiceDiscoveryInstance) (services : List ServiceInstance) :
    List String :=
  (services.filter (fun x => !serviceNotTracked s x.GetName)).map ServiceInstance.GetName

/-- A pass reaches its deletion step: the transaction opened, no create or update call
failed and the loop over the snapshots did not panic. -/
def reachesDeletion (client : Client) (s : ServiceDiscoveryInstance)
    (services : List ServiceInstance) : Prop :=
  (∃ x ∈ passEvents client s services, x.opened.isSome) ∧
  (∀ x ∈ passEvents client s services, x.failure = none) ∧
  passOutcome client s services ≠ .nilDereference

/-- What a loop over the snapshots leaves in the trace. -/
def LoopTrace (res : LoopResult) (reload : Bool) (tx : String) (L T : List Event) : Prop :=
  match res with
  | .done rl => T = L ∧ (∀ x ∈ L, x.failure = none) ∧ rl = (reload || needsReload L)
  | .failed e => ∃ L0 f, L = L0 ++ [f] ∧ (∀ x ∈ L0, x.failure = none) ∧ f.failure = some e ∧
      T = L ++ [.deleteTransaction tx]
  | .nilDereference => T = L ∧ (∀ x ∈ L, x.failure = none)

/-- The id of the transaction a `CommitTransaction` or `DeleteTransaction` call closes. -/
def Event.closes : Event → Option String
  | .commitTransaction tx _ => some tx
  | .deleteTransaction tx => some tx
  | _ => none

/-- The calls of one pass, by the way the pass ends. -/
def PassShape (out : Outcome) (evs : List Event) : Prop :=
  (∃ e, evs = [.getVersion (.error e)] ∧ out = .returned (some e)) ∨
  (∃ v e, evs = [.getVersion (.ok v), .startTransaction v (.error e)] ∧
    out = .returned (some e)) ∨
  (∃ v id L, (∀ x ∈ L, x.isLoopCall = true) ∧
    ((∃ L0 f e, L = L0 ++ [f] ∧ (∀ x ∈ L0, x.failure = none) ∧ f.failure = some e ∧
        evs = [.getVersion (.ok v), .startTransaction v (.ok id)] ++ L ++
          [.deleteTransaction id] ∧ out = .returned (some e)) ∨
     ((∀ x ∈ L, x.failure = none) ∧
        evs = [.getVersion (.ok v), .startTransaction v (.ok id)] ++ L ∧
        out = .nilDereference) ∨
     (∃ D, (∀ x ∈ L, x.failure = none) ∧ (∀ x ∈ D, x.isDeletionCall = true) ∧
        ((needsReload (L ++ D) = true ∧ ∃ r,
            evs = [.getVersion (.ok v), .startTransaction v (.ok id)] ++ L ++ D ++
              [.commitTransaction id r] ++ (if r = none then [.reload] else []) ∧
            out = .returned r) ∨
         (needsReload (L ++ D) = false ∧
            evs = [.getVersion (.ok v), .startTransaction v (.ok id)] ++ L ++ D ++
              [.deleteTransaction id] ∧ out = .returned none)))))

/-- The calls the deletion step `removeDeleted` makes on the engine `s`. -/
def deletionEvents (client : Client) (s : ServiceDiscoveryInstance) : List Event :=
  (removeDeleted client s).2.trace.drop s.trace.length

/-- The loop of `UpdateParams` over the tracked services: the error of the first
`UpdateScalingParams` call that fails, if any, the tracked services and the calls made.
A call that succeeds leaves the handle with the new policy; what a call that fails
leaves in the handle is not part of the embedding. -/
def updateParamsLoop (client : Client) (scaling : ScalingParams) :
    List (String × confService) → List Event →
      Option String × List (String × confService) × List Event
  | [], tr => (none, [], tr)
  | (name, se) :: rest, tr =>
    match client.UpdateScalingParams tr se.confService scaling with
    | some e =>
      (some e, (name, se) :: rest,
        tr ++ [.updateScalingParams name se.confService.name scaling (some e)])
    | none =>
      let r := updateParamsLoop client scaling rest
        (tr ++ [.updateScalingParams name se.confService.name scaling none])
      (r.1, (name, { se with confService := { se.confService with scaling := scaling } })
        :: r.2.1, r.2.2)

/-- `UpdateParams`: keep the new parameters and push their scaling policy to every
tracked service, up to the first error. -/
def UpdateParams (client : Client) (s : ServiceDiscoveryInstance)
    (params : discoveryInstanceParams) : Option String × ServiceDiscoveryInstance :=
  let r := updateParamsLoop client params.scaling s.services s.trace
  (r.1, { s with params := params, services := r.2.1, trace := r.2.2 })

/-- The calls one `UpdateParams` makes, oldest first. -/
def paramsEvents (client : Client) (s : ServiceDiscoveryInstance)
    (params : discoveryInstanceParams) : List Event :=
  (UpdateParams client s params).2.trace.drop s.trace.length

/-- The services map of the driver is well formed: the service keys are distinct, each
service is named by its key, its members have distinct keys, and each member is filed
under its instance id and resolves to the service key. -/
def ServicesWF (m : List (String × awsService)) : Prop :=
  (mapKeys m).Nodup ∧
  ∀ e ∈ m, e.2.name = e.1 ∧ (mapKeys e.2.instances).Nodup ∧
    ∀ i ∈ e.2.instances, i.2.InstanceId = i.1 ∧ serviceNameFromEC2 i.2 = .ok e.1

/-- No service whose key the instance `d` resolves to has a member under the id of
`d`. -/
def Denied (d : Instance) (m : List (String × awsService)) : Prop :=
  ∀ e ∈ m, serviceNameFromEC2 d = .ok e.1 → ∀ i ∈ e.2.instances, i.1 ≠ d.InstanceId

/-- The service `sn` is there and has a member under the id `id`. -/
def Kept (sn id : String) (m : List (String × awsService)) : Prop :=
  ∃ s, (sn, s) ∈ m ∧ id ∈ mapKeys s.instances

/-- The instances of an inventory answer, in the order the loops of `updateServices`
visit them. -/
def DescribeInstancesOutput.instances (io : DescribeInstancesOutput) : List Instance :=
  (io.Reservations.map Reservation.Instances).flatten

/-- What identifies an instance for the driver: id, launch time and tags. -/
def Instance.identity (i : Instance) : String × Time × List Tag :=
  (i.InstanceId, i.LaunchTime, i.Tags)

/-- Two query results return identical instances: both fail, or both succeed with
instances of the same ids, launch times and tags, in the same order. -/
def sameInstances :
    Except String DescribeInstancesOutput → Except String DescribeInstancesOutput → Bool
  | .ok x, .ok y =>
    decide (x.instances.map Instance.identity = y.instances.map Instance.identity)
  | .error _, .error _ => true
  | _, _ => false

/-- An instance without its addresses. -/
def stripInstance (i : Instance) : Instance :=
  { i with PrivateIpAddress := none, PublicIpAddress := none }

/-- A service with the addresses of its members taken out. -/
def stripService (s : awsService) : awsService :=
  { s with instances := s.instances.map (fun e => (e.1, stripInstance e.2)) }

/-- A services map with the addresses of all members taken out. -/
def stripServices (m : List (String × awsService)) : List (String × awsService) :=
  m.map (fun e => (e.1, stripService e.2))

/-! ## Concrete stores and inputs -/

/-- A store on which every call succeeds; `Init` and `Update` report a change. -/
def okClient : Client :=
  { GetVersion := fun _ => .ok 1
    StartTransaction := fun _ _ => .ok "tx-1"
    NewService := fun _ _ _ => none
    Init := fun _ _ _ => .ok true
    Update := fun _ _ _ => .ok true
    Delete := fun _ _ => none
    UpdateScalingParams := fun _ _ _ => none
    CommitTransaction := fun _ _ => none }

/-- A store on which every `Update` fails. -/
def updateFailsClient : Client :=
  { okClient with Update := fun _ _ _ => .error "update failed" }

/-- A store on which the first `Delete` fails and the later ones succeed. -/
def deleteFailsOnceClient : Client :=
  { okClient with
    Delete := fun tr _ =>
      if tr.any (fun x => x.deleteCall.isSome) then none else some "delete failed" }

/-- Engine parameters with empty whitelist and blacklist. -/
def openParams : discoveryInstanceParams :=
  { Whitelist := [], Blacklist := [], ServerSlotsBase := 10, SlotsGrowthType := "linear",
    SlotsIncrement := 10 }

/-- Engine parameters with the whitelist `api-443`. -/
def whitelistParams : discoveryInstanceParams :=
  { openParams with Whitelist := ["api-443"] }

/-- The snapshot `web-80` with two servers, changed. -/
def web80 : ServiceInstance :=
  { GetName := "web-80", GetBackendName := "aws-eu-prod-web-80", Changed := true,
    GetServers := [{ Address := "10.0.0.1", Port := 80 }, { Address := "10.0.0.2", Port := 80 }] }

/-- The snapshot `web-80`, unchanged. -/
def web80Unchanged : ServiceInstance := { web80 with Changed := false }

/-- The snapshot `api-443` with one server, changed. -/
def api443 : ServiceInstance :=
  { GetName := "api-443", GetBackendName := "aws-eu-prod-api-443", Changed := true,
    GetServers := [{ Address := "10.0.1.1", Port := 443 }] }

/-- An engine that tracks nothing. -/
def emptyEngine : ServiceDiscoveryInstance := NewServiceDiscoveryInstance openParams []

/-- An engine that tracks `web-80`. -/
def trackedEngine : ServiceDiscoveryInstance :=
  { services := [("web-80",
      { confService := { name := "aws-eu-prod-web-80", scaling := openParams.scaling,
                         transactionID := "tx-0" },
        deleted := false })]
    params := openParams, transactionID := "", trace := [] }

/-- An engine that tracks `web-80` and has the whitelist `api-443`. -/
def whitelistEngine : ServiceDiscoveryInstance :=
  { trackedEngine with params := whitelistParams }

/-- An engine with the open transaction `tx-7` that tracks `web-80` and `api-443`, both
flagged pending-deletion. -/
def flaggedEngine : ServiceDiscoveryInstance :=
  { services :=
      [("web-80",
        { confService := { name := "aws-eu-prod-web-80", scaling := openParams.scaling,
                           transactionID := "tx-0" },
          deleted := true }),
       ("api-443",
        { confService := { name := "aws-eu-prod-api-443", scaling := openParams.scaling,
                           transactionID := "tx-0" },
          deleted := true })]
    params := openParams, transactionID := "tx-7", trace := [] }

/-- A running instance of the service `web-80`. -/
def instance1 : Instance :=
  { InstanceId := "i-1", LaunchTime := 100,
    Tags := [{ Key := HAProxyServiceNameTag, Value := "web" },
             { Key := HAProxyServicePortTag, Value := "80" }],
    PrivateIpAddress := some "10.0.0.1", PublicIpAddress := none }

/-- A second running instance of the service `web-80`. -/
def instance2 : Instance :=
  { instance1 with InstanceId := "i-2", LaunchTime := 200,
                   PrivateIpAddress := some "10.0.0.2" }

/-- The discovered service `web-80` with two members. -/
def web80Service : awsService :=
  { name := "web-80", region := "eu", instanceName := "prod",
    ipv4 := AwsRegionIPV4AddressPrivate,
    instances := [("i-1", instance1), ("i-2", instance2)], changed := false }

/-- Driver parameters with one deny filter. -/
def denyParams : AwsRegion :=
  { Region := "eu", Name := "prod", IPV4Address := AwsRegionIPV4AddressPrivate,
    Allowlist := [], Denylist := [{ Key := some "tag:env", Value := some "staging" }],
    ServerSlotsBase := 10, ServerSlotsGrowthType := "linear",
    ServerSlotsGrowthIncrement := 10 }

/-- An inventory whose allow query and deny query both return `instance1`. -/
def deniedInventory : InventoryAPI :=
  fun _ _ => .ok { Reservations := [{ Instances := [instance1] }] }

/-- Driver parameters without allow and deny filters. -/
def plainParams : AwsRegion := { denyParams with Denylist := [] }

/-- An inventory that returns `instance1` for every query. -/
def webInventory : InventoryAPI :=
  fun _ _ => .ok { Reservations := [{ Instances := [instance1] }] }

/-- An inventory that returns no instance. -/
def emptyInventory : InventoryAPI :=
  fun _ _ => .ok { Reservations := [] }

/-- An instance with a service-level and an instance-level port tag. -/
def portInstance : Instance :=
  { InstanceId := "i-3", LaunchTime := 300,
    Tags := [{ Key := HAProxyServiceNameTag, Value := "web" },
             { Key := HAProxyServicePortTag, Value := "80" },
             { Key := HAProxyInstancePortTag, Value := "8080" }],
    PrivateIpAddress := some "10.0.0.3", PublicIpAddress := some "203.0.113.3" }

/-- An instance whose service-level port tag is no number. -/
def namedPortInstance : Instance :=
  { InstanceId := "i-4", LaunchTime := 400,
    Tags := [{ Key := HAProxyServiceNameTag, Value := "web" },
             { Key := HAProxyServicePortTag, Value := "http" }],
    PrivateIpAddress := some "10.0.0.4", PublicIpAddress := none }

/-- The discovered service `web-http` with the one member `namedPortInstance`. -/
def webHttpService : awsService :=
  { name := "web-http", region := "eu", instanceName := "prod",
    ipv4 := AwsRegionIPV4AddressPrivate,
    instances := [("i-4", namedPortInstance)], changed := true }

/-- The service `web-80` asked for public addresses: `instance1` has none. -/
def web80PublicService : awsService :=
  { web80Service with ipv4 := AwsRegionIPV4AddressPublic,
                      instances := [("i-1", instance1), ("i-3", portInstance)] }

/-- An instance whose tag list names the service twice, the second time with an empty
value. -/
def repeatedTagInstance : Instance :=
  { InstanceId := "i-5", LaunchTime := 500,
    Tags := [{ Key := HAProxyServiceNameTag, Value := "web" },
             { Key := HAProxyServicePortTag, Value := "80" },
             { Key := HAProxyServiceNameTag, Value := "" }],
    PrivateIpAddress := some "10.0.0.5", PublicIpAddress := none }

/-- An instance without the service tags. -/
def untaggedInstance : Instance :=
  { InstanceId := "i-6", LaunchTime := 600, Tags := [],
    PrivateIpAddress := some "10.0.0.6", PublicIpAddress := none }

/-- A store on which `UpdateScalingParams` fails for the backend of `api-443`. -/
def scalingFailsClient : Client :=
  { okClient with
    UpdateScalingParams := fun _ se _ =>
      if se.name = "aws-eu-prod-api-443" then some "no free slot" else none }

/-- Engine parameters with another scaling policy. -/
def widerParams : discoveryInstanceParams :=
  { openParams with ServerSlotsBase := 20, SlotsIncrement := 5 }

/-- An inventory whose allow query returns `instance1` and `instance2` and whose deny
query returns `instance1`. -/
def partlyDeniedInventory : InventoryAPI :=
  fun n _ =>
    if n = 0 then .ok { Reservations := [{ Instances := [instance1, instance2] }] }
    else .ok { Reservations := [{ Instances := [instance1] }] }

/-- An inventory that always returns `instance1` under another private address. -/
def movedInventory : InventoryAPI :=
  fun _ _ => .ok { Reservations :=
    [{ Instances := [{ instance1 with PrivateIpAddress := some "10.0.0.9" }] }] }

/-! # Theorems -/

/-! ## Lemmas on the engine -/

theorem startTransaction_cases (client : Client) (s : ServiceDiscoveryInstance) :
    (∃ e, startTransaction client s =
      (some e, { s with trace := s.trace ++ [.getVersion (.error e)] })) ∨
    (∃ v e, startTransaction client s =
      (some e, { s with trace := s.trace ++
        [.getVersion (.ok v), .startTransaction v (.error e)] })) ∨
    (∃ v id, startTransaction client s =
      (none, { s with trace := s.trace ++
        [.getVersion (.ok v), .startTransaction v (.ok id)], transactionID := id })) := by
  unfold startTransaction
  cases h1 : client.GetVersion s.trace with
  | error e => left; exact ⟨e, by simp [ServiceDiscoveryInstance.log]⟩
  | ok v =>
    right
    cases h2 : client.StartTransaction (s.trace ++ [.getVersion (.ok v)]) v with
    | error e => left; exact ⟨v, e, by simp [h2, ServiceDiscoveryInstance.log]⟩
    | ok id => right; exact ⟨v, id, by simp [h2, ServiceDiscoveryInstance.log]⟩

theorem initService_trace (client : Client) (s : ServiceDiscoveryInstance)
    (service : ServiceInstance) :
    (initService client s service).2.transactionID = s.transactionID ∧
    (initService client s service).2.params = s.params ∧
    ∃ L, (initService client s service).2.trace = s.trace ++ L ∧
      (∀ x ∈ L, x.isLoopCall = true ∧ x.service = some service.GetName) ∧
      (∀ r, (initService client s service).1 = .ok r →
        (∀ x ∈ L, x.failure = none) ∧ needsReload L = r) ∧
      (∀ e, (initService client s service).1 = .error e →
        ∃ L0 f, L = L0 ++ [f] ∧ (∀ x ∈ L0, x.failure = none) ∧ f.failure = some e) := by
  unfold initService
  cases h1 : mapGet s.services service.GetName with
  | some se =>
    refine ⟨rfl, rfl, [.setTransactionID service.GetName se.confService.name s.transactionID],
      by simp, by simp [Event.isLoopCall, Event.service], ?_, by simp⟩
    intro r hr
    simp at hr
    simp [Event.failure, needsReload, Event.reloadFlag, hr]
  | none =>
    cases h2 : client.NewService s.trace service.GetBackendName s.params.scaling with
    | some e =>
      refine ⟨rfl, rfl, [.newService service.GetName service.GetBackendName
        s.params.scaling (some e)], by simp [ServiceDiscoveryInstance.log],
        by simp [Event.isLoopCall, Event.service], by simp, ?_⟩
      intro e' he'
      simp at he'
      exact ⟨[], .newService service.GetName service.GetBackendName
        s.params.scaling (some e), by simp, by simp, by simp [Event.failure, he']⟩
    | none =>
      simp only
      cases h3 : client.Init (s.log (.newService service.GetName service.GetBackendName
          s.params.scaling none)).trace
          { name := service.GetBackendName, scaling := s.params.scaling, transactionID := "" }
          s.transactionID with
      | error e =>
        refine ⟨rfl, rfl, [.newService service.GetName service.GetBackendName
          s.params.scaling none, .init service.GetName service.GetBackendName
          s.transactionID (.error e)], by simp [ServiceDiscoveryInstance.log],
          by simp [Event.isLoopCall, Event.service], by simp, ?_⟩
        intro e' he'
        simp at he'
        exact ⟨[.newService service.GetName service.GetBackendName s.params.scaling none],
          .init service.GetName service.GetBackendName s.transactionID (.error e),
          by simp, by simp [Event.failure], by simp [Event.failure, he']⟩
      | ok r =>
        refine ⟨rfl, rfl, [.newService service.GetName service.GetBackendName
          s.params.scaling none, .init service.GetName service.GetBackendName
          s.transactionID (.ok r)], by simp [ServiceDiscoveryInstance.log],
          by simp [Event.isLoopCall, Event.service], ?_, by simp⟩
        intro r' hr'
        simp at hr'
        subst hr'
        cases r <;> simp [Event.failure, needsReload, Event.reloadFlag]

theorem serviceNotTracked_congr {s t : ServiceDiscoveryInstance} (h : s.params = t.params)
    (n : String) : serviceNotTracked s n = serviceNotTracked t n := by
  simp [serviceNotTracked, h]

theorem includedNames_congr {s t : ServiceDiscoveryInstance} (h : s.params = t.params)
    (l : List ServiceInstance) : includedNames s l = includedNames t l := by
  simp [includedNames, serviceNotTracked_congr h]

theorem includedNames_cons_excluded {s : ServiceDiscoveryInstance} {x : ServiceInstance}
    (h : serviceNotTracked s x.GetName = true) (l : List ServiceInstance) :
    includedNames s (x :: l) = includedNames s l := by
  simp [includedNames, List.filter_cons, h]

theorem includedNames_cons_included {s : ServiceDiscoveryInstance} {x : ServiceInstance}
    (h : serviceNotTracked s x.GetName = false) (l : List ServiceInstance) :
    includedNames s (x :: l) = x.GetName :: includedNames s l := by
  simp [includedNames, List.filter_cons, h]

theorem needsReload_append (a b : List Event) :
    needsReload (a ++ b) = (needsReload a || needsReload b) := by
  simp [needsReload]

theorem updateLoop_trace (client : Client) :
    ∀ (services : List ServiceInstance) (reload : Bool) (s : ServiceDiscoveryInstance)
      (res : LoopResult) (s' : ServiceDiscoveryInstance),
      updateLoop client services reload s = (res, s') →
      s'.params = s.params ∧
      (res ≠ .nilDereference → (∀ e, res ≠ .failed e) → s'.transactionID = s.transactionID) ∧
      ∃ L T, s'.trace = s.trace ++ T ∧ LoopTrace res reload s.transactionID L T ∧
        ∀ x ∈ L, x.isLoopCall = true ∧ ∃ n ∈ includedNames s services, x.service = some n := by
  intro services
  induction services with
  | nil =>
    intro reload s res s' h
    simp only [updateLoop, Prod.mk.injEq] at h
    obtain ⟨rfl, rfl⟩ := h
    exact ⟨rfl, fun _ _ => rfl, [], [], by simp, by simp [LoopTrace, needsReload], by simp⟩
  | cons service rest ih =>
    intro reload s res s' h
    simp only [updateLoop] at h
    split at h
    · -- excluded by policy
      rename_i hx
      rw [includedNames_cons_excluded hx]
      exact ih reload s res s' h
    · rename_i hx
      have hx' : serviceNotTracked s service.GetName = false := by simpa using hx
      rw [includedNames_cons_included hx']
      split at h
      · -- unchanged
        split at h
        · simp only [Prod.mk.injEq] at h
          obtain ⟨rfl, rfl⟩ := h
          exact ⟨rfl, fun h => absurd rfl h, [], [], by simp, by simp [LoopTrace], by simp⟩
        · obtain ⟨hp, htx, L, T, hT, hL, hall⟩ := ih reload _ res s' h
          refine ⟨hp, htx, L, T, hT, hL, ?_⟩
          intro x hxL
          obtain ⟨h1, n, hn, h2⟩ := hall x hxL
          refine ⟨h1, n, ?_, h2⟩
          exact List.mem_cons_of_mem _ hn
      · -- changed
        obtain ⟨itx, ipar, Li, hLi, hLiall, hok, herr⟩ := initService_trace client s service
        split at h
        · rename_i e s1 hinit
          simp only [Prod.mk.injEq] at h
          obtain ⟨rfl, rfl⟩ := h
          rw [hinit] at itx ipar hLi hok herr
          obtain ⟨L0, f, hL0, hL0all, hf⟩ := herr e rfl
          refine ⟨by simpa [deleteTransaction] using ipar, fun _ h => absurd rfl (h e), Li,
            Li ++ [.deleteTransaction s.transactionID], ?_, ?_, ?_⟩
          · simp at hLi itx
            simp [deleteTransaction, hLi, itx]
          · exact ⟨L0, f, hL0, hL0all, hf, rfl⟩
          · intro x hxL
            exact ⟨(hLiall x hxL).1, service.GetName, by simp, (hLiall x hxL).2⟩
        · rename_i r s1 hinit
          rw [hinit] at itx ipar hLi hok herr
          simp only at itx ipar hLi
          obtain ⟨hLinf, hLir⟩ := hok r rfl
          split at h
          · simp only [Prod.mk.injEq] at h
            obtain ⟨rfl, rfl⟩ := h
            refine ⟨ipar, fun h => absurd rfl h, Li, Li, hLi, ⟨rfl, hLinf⟩, ?_⟩
            intro x hxL
            exact ⟨(hLiall x hxL).1, service.GetName, by simp, (hLiall x hxL).2⟩
          · rename_i se hse
            split at h
            · rename_i e hupd
              simp only [Prod.mk.injEq] at h
              obtain ⟨rfl, rfl⟩ := h
              refine ⟨by simpa [deleteTransaction, ServiceDiscoveryInstance.log] using ipar,
                fun _ h => absurd rfl (h e),
                Li ++ [.update service.GetName se.confService.name
                  se.confService.transactionID service.GetServers (.error e)],
                Li ++ [.update service.GetName se.confService.name
                  se.confService.transactionID service.GetServers (.error e)] ++
                  [.deleteTransaction s.transactionID], ?_, ?_, ?_⟩
              · simp [deleteTransaction, ServiceDiscoveryInstance.log, hLi, itx]
              · exact ⟨Li, _, rfl, hLinf, by simp [Event.failure], rfl⟩
              · intro x hxL
                rcases List.mem_append.1 hxL with hxL | hxL
                · exact ⟨(hLiall x hxL).1, service.GetName, by simp, (hLiall x hxL).2⟩
                · simp only [List.mem_singleton] at hxL
                  subst hxL
                  exact ⟨rfl, service.GetName, by simp, rfl⟩
            · rename_i r2 hupd
              obtain ⟨hp, htx, L, T, hT, hL, hall⟩ := ih _ _ res s' h
              simp only [ServiceDiscoveryInstance.log] at hp htx hT hL hall
              refine ⟨hp.trans ipar, fun h1 h2 => (htx h1 h2).trans itx,
                Li ++ [.update service.GetName se.confService.name
                  se.confService.transactionID service.GetServers (.ok r2)] ++ L,
                Li ++ [.update service.GetName se.confService.name
                  se.confService.transactionID service.GetServers (.ok r2)] ++ T, ?_, ?_, ?_⟩
              · simp [hT, hLi]
              · rw [itx] at hL
                cases res with
                | done rl =>
                  obtain ⟨h1, h2, h3⟩ := hL
                  refine ⟨by rw [h1], ?_, ?_⟩
                  · intro x hxL
                    simp only [List.mem_append, List.mem_singleton] at hxL
                    rcases hxL with (hxL | rfl) | hxL
                    · exact hLinf x hxL
                    · rfl
                    · exact h2 x hxL
                  · rw [h3, needsReload_append, needsReload_append, hLir]
                    cases r2 <;> simp [needsReload, Event.reloadFlag, Bool.or_assoc]
                | failed e =>
                  obtain ⟨L0, f, h1, h2, h3, h4⟩ := hL
                  refine ⟨Li ++ [.update service.GetName se.confService.name
                    se.confService.transactionID service.GetServers (.ok r2)] ++ L0, f,
                    by simp [h1], ?_, h3, by simp [h4]⟩
                  intro x hxL
                  simp only [List.mem_append, List.mem_singleton] at hxL
                  rcases hxL with (hxL | rfl) | hxL
                  · exact hLinf x hxL
                  · rfl
                  · exact h2 x hxL
                | nilDereference =>
                  obtain ⟨h1, h2⟩ := hL
                  refine ⟨by rw [h1], ?_⟩
                  intro x hxL
                  simp only [List.mem_append, List.mem_singleton] at hxL
                  rcases hxL with (hxL | rfl) | hxL
                  · exact hLinf x hxL
                  · rfl
                  · exact h2 x hxL
              · intro x hxL
                simp only [List.mem_append, List.mem_singleton] at hxL
                rcases hxL with (hxL | rfl) | hxL
                · exact ⟨(hLiall x hxL).1, service.GetName, by simp, (hLiall x hxL).2⟩
                · exact ⟨rfl, service.GetName, by simp, rfl⟩
                · obtain ⟨h1, n, hn, h2⟩ := hall x hxL
                  refine ⟨h1, n, ?_, h2⟩
                  have hn1 : n ∈ includedNames s1 rest := hn
                  rw [includedNames_congr ipar rest] at hn1
                  exact List.mem_cons_of_mem _ hn1

/-- What the deletion loop does to the tracked entries and the trace. -/
theorem removeDeletedLoop_spec (client : Client) (tx : String) :
    ∀ (entries : List (String × confService)) (reload : Bool) (tr : List Event),
      ∃ D, (removeDeletedLoop client tx entries reload tr).2.2 = tr ++ D ∧
        (∀ x ∈ D, x.isDeletionCall = true) ∧
        (removeDeletedLoop client tx entries reload tr).1 = (reload || needsReload D) ∧
        D.filterMap Event.deleteCall = (entries.filter (fun e => e.2.deleted)).map Prod.fst ∧
        (∀ n ∈ D.filterMap Event.deleted, n ∈ mapKeys entries ∧
          ((mapKeys entries).Nodup →
            n ∉ mapKeys (removeDeletedLoop client tx entries reload tr).2.1)) ∧
        (∀ n ∈ mapKeys entries,
          n ∉ mapKeys (removeDeletedLoop client tx entries reload tr).2.1 →
            n ∈ D.filterMap Event.deleted) ∧
        (∀ n b t e, Event.delete n b t (some e) ∈ D →
          ∃ c, (n, c) ∈ (removeDeletedLoop client tx entries reload tr).2.1 ∧
            c.deleted = true) ∧
        ((∀ x ∈ D, x.deleteCall.isSome → x.deleted.isSome) →
          (removeDeletedLoop client tx entries reload tr).2.1 =
            entries.filter (fun e => !e.2.deleted)) ∧
        (mapKeys (removeDeletedLoop client tx entries reload tr).2.1).Sublist
          (mapKeys entries) ∧
        (∀ e ∈ entries, e.2.deleted = false →
          e ∈ (removeDeletedLoop client tx entries reload tr).2.1) := by
  intro entries
  induction entries with
  | nil =>
    intro reload tr
    exact ⟨[], by simp [removeDeletedLoop, needsReload, mapKeys]⟩
  | cons hd rest ih =>
    obtain ⟨name, se⟩ := hd
    intro reload tr
    simp only [removeDeletedLoop]
    by_cases hdel : se.deleted = true
    · simp only [hdel, if_true]
      cases hcall : client.Delete (tr ++ [.setTransactionID name se.confService.name tx])
          { se.confService with transactionID := tx } with
      | none =>
        simp only
        obtain ⟨D, h1, h2, h3, h4, h5, h6, h7, h8, h9, h10⟩ := ih true
          (tr ++ [.setTransactionID name se.confService.name tx,
                  .delete name se.confService.name tx none])
        refine ⟨[.setTransactionID name se.confService.name tx,
                  .delete name se.confService.name tx none] ++ D, ?_, ?_, ?_, ?_, ?_, ?_,
                  ?_, ?_, ?_, ?_⟩
        · simp [h1]
        · intro x hx
          simp only [List.mem_append, List.mem_cons, List.mem_singleton, List.not_mem_nil,
            or_false] at hx
          rcases hx with (rfl | rfl) | hx
          · rfl
          · rfl
          · exact h2 x hx
        · rw [h3, needsReload_append]
          simp [needsReload, Event.reloadFlag]
        · simp [List.filterMap_append, List.filterMap_cons, Event.deleteCall, h4, hdel]
        · intro n hn
          simp only [List.filterMap_append, List.filterMap_cons, Event.deleted,
            List.filterMap_nil, List.mem_append, List.mem_singleton, List.cons_append,
            List.nil_append, List.mem_cons] at hn
          rcases hn with rfl | hn
          · refine ⟨by simp [mapKeys], fun hnd hmem => ?_⟩
            have := h9.subset hmem
            simp [mapKeys] at hnd
            simp [mapKeys] at this
            obtain ⟨c, hc⟩ := this
            exact hnd.1 c hc
          · refine ⟨by simp [mapKeys]; exact Or.inr (by simpa [mapKeys] using (h5 n hn).1),
              fun hnd => (h5 n hn).2 ?_⟩
            simp [mapKeys] at hnd ⊢
            exact hnd.2
        · intro n hn hnot
          simp only [mapKeys, List.map_cons, List.mem_cons] at hn
          rcases hn with rfl | hn
          · simp [List.filterMap_append, List.filterMap_cons, Event.deleted]
          · have := h6 n hn hnot
            simp [List.filterMap_append, List.filterMap_cons, Event.deleted]
            exact Or.inr (by simpa using this)
        · intro n b t e hmem
          simp only [List.mem_append, List.mem_cons, List.mem_singleton, List.not_mem_nil,
            or_false] at hmem
          rcases hmem with (h | h) | h
          · cases h
          · cases h
          · exact h7 n b t e h
        · intro hall
          rw [h8 (fun x hx => hall x (by simp [hx]))]
          simp [List.filter_cons, hdel]
        · exact h9.trans (by simp [mapKeys])
        · intro e he hfalse
          simp only [List.mem_cons] at he
          rcases he with rfl | he
          · simp [hdel] at hfalse
          · exact h10 e he hfalse
      | some err =>
        simp only
        obtain ⟨D, h1, h2, h3, h4, h5, h6, h7, h8, h9, h10⟩ := ih reload
          (tr ++ [.setTransactionID name se.confService.name tx,
                  .delete name se.confService.name tx (some err)])
        refine ⟨[.setTransactionID name se.confService.name tx,
                  .delete name se.confService.name tx (some err)] ++ D, ?_, ?_, ?_, ?_, ?_,
                  ?_, ?_, ?_, ?_, ?_⟩
        · simp [h1]
        · intro x hx
          simp only [List.mem_append, List.mem_cons, List.mem_singleton, List.not_mem_nil,
            or_false] at hx
          rcases hx with (rfl | rfl) | hx
          · rfl
          · rfl
          · exact h2 x hx
        · rw [h3, needsReload_append]
          simp [needsReload, Event.reloadFlag]
        · simp [List.filterMap_append, List.filterMap_cons, Event.deleteCall, h4, hdel]
        · intro n hn
          simp only [List.filterMap_append, List.filterMap_cons, Event.deleted,
            List.filterMap_nil, List.mem_append, List.mem_singleton, List.cons_append,
            List.nil_append, List.mem_cons] at hn
          refine ⟨by simp [mapKeys]; exact Or.inr (by simpa [mapKeys] using (h5 n hn).1),
            fun hnd hmem => ?_⟩
          simp only [mapKeys, List.map_cons, List.nodup_cons, List.mem_cons] at hnd hmem
          rcases hmem with rfl | hmem
          · exact hnd.1 (h5 _ hn).1
          · exact (h5 n hn).2 hnd.2 hmem
        · intro n hn hnot
          simp only [mapKeys, List.map_cons, List.mem_cons, not_or] at hn hnot
          rcases hn with rfl | hn
          · exact absurd rfl hnot.1
          · have := h6 n hn hnot.2
            simp [List.filterMap_append, List.filterMap_cons, Event.deleted]
            simpa using this
        · intro n b t e hmem
          simp only [List.mem_append, List.mem_cons, List.mem_singleton, List.not_mem_nil,
            or_false] at hmem
          rcases hmem with (h | h) | h
          · cases h
          · cases h
            exact ⟨_, List.mem_cons_self _ _, rfl⟩
          · obtain ⟨c, hc, hcd⟩ := h7 n b t e h
            exact ⟨c, List.mem_cons_of_mem _ hc, hcd⟩
        · intro hall
          have := hall (.delete name se.confService.name tx (some err)) (by simp)
          simp [Event.deleteCall, Event.deleted] at this
        · simpa [mapKeys] using h9
        · intro e he hfalse
          simp only [List.mem_cons] at he
          rcases he with rfl | he
          · simp [hdel] at hfalse
          · exact List.mem_cons_of_mem _ (h10 e he hfalse)
    · have hdel' : se.deleted = false := by simpa using hdel
      simp only [hdel', Bool.false_eq_true, if_false]
      obtain ⟨D, h1, h2, h3, h4, h5, h6, h7, h8, h9, h10⟩ := ih reload tr
      refine ⟨D, by simpa using h1, h2, by simpa using h3, ?_, ?_, ?_, ?_, ?_, ?_, ?_⟩
      · simp [List.filter_cons, hdel', h4]
      · intro n hn
        refine ⟨by simp [mapKeys]; exact Or.inr (by simpa [mapKeys] using (h5 n hn).1),
          fun hnd hmem => ?_⟩
        simp only [mapKeys, List.map_cons, List.nodup_cons, List.mem_cons] at hnd hmem
        rcases hmem with rfl | hmem
        · exact hnd.1 (h5 _ hn).1
        · exact (h5 n hn).2 hnd.2 hmem
      · intro n hn hnot
        simp only [mapKeys, List.map_cons, List.mem_cons, not_or] at hn hnot
        rcases hn with rfl | hn
        · exact absurd rfl hnot.1
        · exact h6 n hn hnot.2
      · intro n b t e hmem
        obtain ⟨c, hc, hcd⟩ := h7 n b t e hmem
        exact ⟨c, List.mem_cons_of_mem _ hc, hcd⟩
      · intro hall
        simp [List.filter_cons, hdel', h8 hall]
      · simpa [mapKeys] using h9
      · intro e he hfalse
        simp only [List.mem_cons] at he
        rcases he with rfl | he
        · exact List.mem_cons_self _ _
        · exact List.mem_cons_of_mem _ (h10 e he hfalse)

theorem mapKeys_mapModify {β : Type} (m : List (String × β)) (k : String) (f : β → β) :
    mapKeys (mapModify m k f) = mapKeys m := by
  induction m with
  | nil => rfl
  | cons hd tl ih =>
    simp only [mapKeys, mapModify, List.map_cons] at ih ⊢
    rw [ih]
    by_cases h : hd.1 = k <;> simp [h]

theorem mapGet_eq_none {β : Type} (m : List (String × β)) (k : String) :
    mapGet m k = none ↔ k ∉ mapKeys m := by
  induction m with
  | nil => simp [mapGet, mapKeys]
  | cons hd tl ih =>
    obtain ⟨a, b⟩ := hd
    by_cases h : a = k
    · simp [mapGet, mapKeys, h]
    · simp only [mapGet, h, if_false, ih, mapKeys, List.map_cons, List.mem_cons, not_or]
      exact ⟨fun h2 => ⟨fun h3 => h h3.symm, h2⟩, fun h2 => h2.2⟩

theorem mapGet_isSome {β : Type} (m : List (String × β)) (k : String) :
    (mapGet m k).isSome ↔ k ∈ mapKeys m := by
  rw [← not_iff_not, ← mapGet_eq_none]
  cases mapGet m k <;> simp

theorem filter_deleted_mapModify (m : List (String × confService)) (k : String)
    (g : confService → confService) (hg : ∀ c, (g c).deleted = false) :
    (mapModify m k g).filter (fun e => e.2.deleted) =
      m.filter (fun e => e.2.deleted && decide (e.1 ≠ k)) := by
  induction m with
  | nil => rfl
  | cons hd tl ih =>
    simp only [mapModify, List.map_cons] at ih ⊢
    by_cases h : hd.1 = k
    · simp [h, hg, List.filter_cons, ih]
    · simp [h, List.filter_cons, ih]

theorem filter_and_then {α : Type} (p q : α → Bool) (l : List α) :
    l.filter (fun e => p e && q e) = (l.filter p).filter q := by
  rw [List.filter_filter]
  apply List.filter_congr
  intro e _
  exact Bool.and_comm _ _

theorem filter_ne_of_not_mem (m : List (String × confService)) (k : String)
    (p : String × confService → Bool) (hk : k ∉ mapKeys m) :
    m.filter (fun e => p e && decide (e.1 ≠ k)) = m.filter p := by
  apply List.filter_congr
  intro e he
  have : e.1 ≠ k := fun h => hk (h ▸ List.mem_map_of_mem Prod.fst he)
  simp [this]

theorem mem_mapModify {β : Type} (m : List (String × β)) (k : String) (f : β → β)
    (e : String × β) (he : e ∈ mapModify m k f) : e.1 = k ∨ e ∈ m := by
  simp only [mapModify, List.mem_map] at he
  obtain ⟨a, ha, rfl⟩ := he
  by_cases h : a.1 = k
  · left; simp [h]
  · right; simpa [h] using ha

/-- The tracked services after `initService`. -/
theorem initService_services (client : Client) (s : ServiceDiscoveryInstance)
    (service : ServiceInstance) :
    (∃ T, (initService client s service).2.trace = s.trace ++ T ∧
      mapKeys (initService client s service).2.services =
        mapKeys s.services ++ T.filterMap Event.created) ∧
    (∀ r, (initService client s service).1 = .ok r →
      service.GetName ∈ mapKeys (initService client s service).2.services ∧
      (initService client s service).2.services.filter (fun e => e.2.deleted) =
        s.services.filter (fun e => e.2.deleted && decide (e.1 ≠ service.GetName)) ∧
      ∀ e ∈ (initService client s service).2.services,
        e.1 = service.GetName ∨ e ∈ s.services) := by
  unfold initService
  cases h1 : mapGet s.services service.GetName with
  | some se =>
    have hk : service.GetName ∈ mapKeys s.services := by
      rw [← mapGet_isSome, h1]; rfl
    dsimp only
    refine ⟨⟨[.setTransactionID service.GetName se.confService.name s.transactionID],
      by simp, by simp [mapKeys_mapModify, Event.created]⟩, fun r _ => ⟨?_, ?_, ?_⟩⟩
    · simpa [mapKeys_mapModify] using hk
    · refine filter_deleted_mapModify _ _ _ ?_
      intro c
      rfl
    · intro e he
      exact mem_mapModify _ _ _ e he
  | none =>
    have hk : service.GetName ∉ mapKeys s.services := (mapGet_eq_none _ _).1 h1
    cases h2 : client.NewService s.trace service.GetBackendName s.params.scaling with
    | some e =>
      exact ⟨⟨[.newService service.GetName service.GetBackendName s.params.scaling (some e)],
        by simp [ServiceDiscoveryInstance.log],
        by simp [ServiceDiscoveryInstance.log, Event.created]⟩, by simp⟩
    | none =>
      simp only
      cases h3 : client.Init (s.log (.newService service.GetName service.GetBackendName
          s.params.scaling none)).trace
          { name := service.GetBackendName, scaling := s.params.scaling, transactionID := "" }
          s.transactionID with
      | error e =>
        exact ⟨⟨[.newService service.GetName service.GetBackendName s.params.scaling none,
          .init service.GetName service.GetBackendName s.transactionID (.error e)],
          by simp [ServiceDiscoveryInstance.log],
          by simp [ServiceDiscoveryInstance.log, Event.created]⟩, by simp⟩
      | ok r =>
        refine ⟨⟨[.newService service.GetName service.GetBackendName s.params.scaling none,
          .init service.GetName service.GetBackendName s.transactionID (.ok r)],
          by simp [ServiceDiscoveryInstance.log],
          by simp [ServiceDiscoveryInstance.log, Event.created, mapKeys]⟩,
          fun r' _ => ⟨?_, ?_, ?_⟩⟩
        · simp [ServiceDiscoveryInstance.log, mapKeys]
        · simp only [ServiceDiscoveryInstance.log, List.filter_append]
          rw [filter_ne_of_not_mem _ _ (fun e => e.2.deleted) hk]
          simp [List.filter_cons]
        · intro e he
          simp only [ServiceDiscoveryInstance.log, List.mem_append, List.mem_singleton] at he
          rcases he with he | rfl
          · exact Or.inr he
          · exact Or.inl rfl

/-- The tracked services after the loop over the snapshots. -/
theorem updateLoop_services (client : Client) :
    ∀ (services : List ServiceInstance) (reload : Bool) (s : ServiceDiscoveryInstance)
      (res : LoopResult) (s' : ServiceDiscoveryInstance),
      updateLoop client services reload s = (res, s') →
      (∃ T, s'.trace = s.trace ++ T ∧
        mapKeys s'.services = mapKeys s.services ++ T.filterMap Event.created) ∧
      (∀ rl, res = .done rl →
        s'.services.filter (fun e => e.2.deleted) =
          s.services.filter (fun e => e.2.deleted &&
            decide (e.1 ∉ includedNames s services)) ∧
        (∀ n ∈ includedNames s services, n ∈ mapKeys s'.services) ∧
        (∀ e ∈ s'.services, e.2.deleted = false →
          e.1 ∈ includedNames s services ∨ e ∈ s.services)) := by
  intro services
  induction services with
  | nil =>
    intro reload s res s' h
    simp only [updateLoop, Prod.mk.injEq] at h
    obtain ⟨rfl, rfl⟩ := h
    refine ⟨⟨[], by simp, by simp⟩, fun rl _ => ⟨?_, ?_, ?_⟩⟩
    · simp [includedNames]
    · simp [includedNames]
    · intro e he _; exact Or.inr he
  | cons service rest ih =>
    intro reload s res s' h
    simp only [updateLoop] at h
    split at h
    · rename_i hx
      rw [includedNames_cons_excluded hx]
      exact ih reload s res s' h
    · rename_i hx
      have hx' : serviceNotTracked s service.GetName = false := by simpa using hx
      rw [includedNames_cons_included hx']
      split at h
      · split at h
        · simp only [Prod.mk.injEq] at h
          obtain ⟨rfl, rfl⟩ := h
          exact ⟨⟨[], by simp, by simp⟩, fun rl hrl => by cases hrl⟩
        · rename_i c hc
          have hk : service.GetName ∈ mapKeys s.services := by
            rw [← mapGet_isSome, hc]; rfl
          obtain ⟨⟨T, hT, hkeys⟩, hdone⟩ := ih reload _ res s' h
          refine ⟨⟨T, hT, by simpa [mapKeys_mapModify] using hkeys⟩, fun rl hrl => ?_⟩
          obtain ⟨d1, d2, d3⟩ := hdone rl hrl
          have hN : includedNames
              (⟨mapModify s.services service.GetName (fun c => ⟨c.confService, false⟩),
                s.params, s.transactionID, s.trace⟩ : ServiceDiscoveryInstance) rest =
                includedNames s rest :=
            includedNames_congr rfl rest
          rw [hN] at d1 d2 d3
          dsimp only at d1 d3 hkeys
          refine ⟨?_, ?_, ?_⟩
          · rw [d1]
            rw [filter_and_then (fun e : String × confService => e.2.deleted)
                (fun e : String × confService => decide (e.1 ∉ includedNames s rest)),
              filter_deleted_mapModify s.services service.GetName
                (fun c => ⟨c.confService, false⟩) (fun _ => rfl),
              List.filter_filter]
            apply List.filter_congr
            intro e _
            by_cases h1 : e.1 = service.GetName <;> by_cases h2 : e.1 ∈ includedNames s rest <;>
              cases e.2.deleted <;> simp [h1, h2]
          · intro n hn
            simp only [List.mem_cons] at hn
            rcases hn with rfl | hn
            · rw [hkeys]
              simp only [mapKeys_mapModify]
              exact List.mem_append_left _ hk
            · exact d2 n hn
          · intro e he hfalse
            rcases d3 e he hfalse with h1 | h1
            · exact Or.inl (List.mem_cons_of_mem _ h1)
            · rcases mem_mapModify _ _ _ e h1 with h2 | h2
              · exact Or.inl (by simp [h2])
              · exact Or.inr h2
      · obtain ⟨⟨Ti, hTi, hkeysi⟩, hoki⟩ := initService_services client s service
        obtain ⟨itx, ipar, -⟩ := initService_trace client s service
        split at h
        · rename_i e s1 hinit
          simp only [Prod.mk.injEq] at h
          obtain ⟨rfl, rfl⟩ := h
          rw [hinit] at hTi hkeysi
          simp only at hTi hkeysi
          exact ⟨⟨Ti ++ [.deleteTransaction s1.transactionID],
            by simp [deleteTransaction, hTi],
            by simpa [deleteTransaction, List.filterMap_append, Event.created] using hkeysi⟩,
            fun rl hrl => by cases hrl⟩
        · rename_i r s1 hinit
          rw [hinit] at hTi hkeysi hoki itx ipar
          simp only at hTi hkeysi itx ipar
          obtain ⟨o1, o2, o3⟩ := hoki r rfl
          simp only at o1 o2 o3
          split at h
          · simp only [Prod.mk.injEq] at h
            obtain ⟨rfl, rfl⟩ := h
            exact ⟨⟨Ti, hTi, hkeysi⟩, fun rl hrl => by cases hrl⟩
          · rename_i se hse
            split at h
            · rename_i e hupd
              simp only [Prod.mk.injEq] at h
              obtain ⟨rfl, rfl⟩ := h
              exact ⟨⟨Ti ++ [.update service.GetName se.confService.name
                  se.confService.transactionID service.GetServers (.error e),
                  .deleteTransaction s1.transactionID],
                by simp [deleteTransaction, ServiceDiscoveryInstance.log, hTi],
                by simpa [deleteTransaction, ServiceDiscoveryInstance.log,
                  List.filterMap_append, Event.created] using hkeysi⟩,
                fun rl hrl => by cases hrl⟩
            · rename_i r2 hupd
              obtain ⟨⟨T, hT, hkeys⟩, hdone⟩ := ih _ _ res s' h
              simp only [ServiceDiscoveryInstance.log] at hT hkeys hdone
              refine ⟨⟨Ti ++ [.update service.GetName se.confService.name
                  se.confService.transactionID service.GetServers (.ok r2)] ++ T,
                by simp [hT, hTi],
                by simp [hkeys, hkeysi, List.filterMap_append, Event.created]⟩,
                fun rl hrl => ?_⟩
              obtain ⟨d1, d2, d3⟩ := hdone rl hrl
              have hN : includedNames
                  (⟨s1.services, s1.params, s1.transactionID,
                    s1.trace ++ [.update service.GetName se.confService.name
                      se.confService.transactionID service.GetServers (.ok r2)]⟩ :
                    ServiceDiscoveryInstance) rest = includedNames s rest :=
                includedNames_congr ipar rest
              simp only [hN] at d1 d2 d3
              refine ⟨?_, ?_, ?_⟩
              · rw [d1]
                rw [filter_and_then (fun e : String × confService => e.2.deleted)
                  (fun e : String × confService => decide (e.1 ∉ includedNames s rest)), o2,
                  List.filter_filter]
                apply List.filter_congr
                intro e _
                by_cases h1 : e.1 = service.GetName <;>
                  by_cases h2 : e.1 ∈ includedNames s rest <;>
                  cases e.2.deleted <;> simp [h1, h2]
              · intro n hn
                simp only [List.mem_cons] at hn
                rcases hn with rfl | hn
                · rw [hkeys]
                  exact List.mem_append_left _ o1
                · exact d2 n hn
              · intro e he hfalse
                rcases d3 e he hfalse with h1 | h1
                · exact Or.inl (List.mem_cons_of_mem _ h1)
                · rcases o3 e h1 with h2 | h2
                  · exact Or.inl (by simp [h2])
                  · exact Or.inr h2

theorem removeDeleted_trace (client : Client) (s : ServiceDiscoveryInstance) :
    ∃ D, (removeDeleted client s).2.trace = s.trace ++ D ∧
      (∀ x ∈ D, x.isDeletionCall = true) ∧
      (removeDeleted client s).1 = needsReload D ∧
      (removeDeleted client s).2.transactionID = s.transactionID := by
  obtain ⟨D, h1, h2, h3, -⟩ := removeDeletedLoop_spec client s.transactionID s.services
    false s.trace
  exact ⟨D, by simpa [removeDeleted] using h1, h2, by simpa [removeDeleted] using h3, rfl⟩

theorem passEvents_of_trace {client : Client} {s : ServiceDiscoveryInstance}
    {services : List ServiceInstance} {evs : List Event}
    (h : (UpdateServices client s services).2.trace = s.trace ++ evs) :
    passEvents client s services = evs := by
  simp [passEvents, h]

theorem UpdateServices_shape (client : Client) (s : ServiceDiscoveryInstance)
    (services : List ServiceInstance) :
    PassShape (passOutcome client s services) (passEvents client s services) := by
  rcases startTransaction_cases client s with ⟨e, h⟩ | ⟨v, e, h⟩ | ⟨v, id, h⟩
  · left
    refine ⟨e, ?_, ?_⟩
    · apply passEvents_of_trace
      simp [UpdateServices, h]
    · simp [passOutcome, UpdateServices, h]
  · right; left
    refine ⟨v, e, ?_, ?_⟩
    · apply passEvents_of_trace
      simp [UpdateServices, h]
    · simp [passOutcome, UpdateServices, h]
  · right; right
    rcases hloop : updateLoop client services false (markForDeletion
        { s with trace := s.trace ++ [.getVersion (.ok v), .startTransaction v (.ok id)],
                 transactionID := id }) with ⟨res, s2⟩
    obtain ⟨-, htx, L, T, hT, hL, hall⟩ := updateLoop_trace client _ _ _ _ _ hloop
    simp only [markForDeletion] at hT hL htx
    refine ⟨v, id, L, fun x hx => (hall x hx).1, ?_⟩
    cases res with
    | failed e =>
      left
      obtain ⟨L0, f, h1, h2, h3, h4⟩ := hL
      refine ⟨L0, f, e, h1, h2, h3, ?_, ?_⟩
      · apply passEvents_of_trace
        simp [UpdateServices, h, hloop, hT, h4]
      · simp [passOutcome, UpdateServices, h, hloop]
    | nilDereference =>
      right; left
      obtain ⟨h1, h2⟩ := hL
      refine ⟨h2, ?_, ?_⟩
      · apply passEvents_of_trace
        simp [UpdateServices, h, hloop, hT, h1]
      · simp [passOutcome, UpdateServices, h, hloop]
    | done rl =>
      right; right
      obtain ⟨h1, h2, h3⟩ := hL
      obtain ⟨D, d1, d2, d3, d4⟩ := removeDeleted_trace client s2
      have htx2 : s2.transactionID = id := htx (by simp) (by simp)
      refine ⟨D, h2, d2, ?_⟩
      have hnr : needsReload (L ++ D) = (rl || (removeDeleted client s2).1) := by
        rw [needsReload_append, h3, d3]; simp
      by_cases hr : (rl || (removeDeleted client s2).1) = true
      · left
        refine ⟨by rw [hnr, hr], client.CommitTransaction (removeDeleted client s2).2.trace
          (removeDeleted client s2).2.transactionID, ?_, ?_⟩
        · apply passEvents_of_trace
          simp only [UpdateServices, h, hloop, hr, if_true, commitTransaction]
          cases hc : client.CommitTransaction (removeDeleted client s2).2.trace
            (removeDeleted client s2).2.transactionID with
          | none => simp [ServiceDiscoveryInstance.log, d1, d4, hT, h1, htx2]
          | some err => simp [d1, d4, hT, h1, htx2]
        · simp only [passOutcome, UpdateServices, h, hloop, hr, if_true, commitTransaction]
          cases hc : client.CommitTransaction (removeDeleted client s2).2.trace
            (removeDeleted client s2).2.transactionID with
          | none => rfl
          | some err => rfl
      · right
        have hr' : (rl || (removeDeleted client s2).1) = false := by simpa using hr
        refine ⟨by rw [hnr, hr'], ?_, ?_⟩
        · apply passEvents_of_trace
          simp [UpdateServices, h, hloop, hr', deleteTransaction, d1, d4, hT, h1, htx2]
        · simp [passOutcome, UpdateServices, h, hloop, hr']


theorem filterMap_none {α β : Type} (f : α → Option β) (l : List α)
    (h : ∀ x ∈ l, f x = none) : l.filterMap f = [] := by
  induction l with
  | nil => rfl
  | cons a t ih =>
    rw [List.filterMap_cons, h a (List.mem_cons_self _ _)]
    exact ih (fun x hx => h x (List.mem_cons_of_mem _ hx))

theorem loopCall_facts {x : Event} (h : x.isLoopCall = true) :
    x.opened = none ∧ x.closes = none ∧ x.isCommit = false ∧ x.isReload = false ∧
      x.isDiscard = false ∧ x.deleteCall = none ∧ x.deleted = none := by
  cases x <;> simp_all [Event.isLoopCall, Event.opened, Event.closes, Event.isCommit,
    Event.isReload, Event.isDiscard, Event.deleteCall, Event.deleted]

theorem deletionCall_facts {x : Event} (h : x.isDeletionCall = true) :
    x.opened = none ∧ x.closes = none ∧ x.isCommit = false ∧ x.isReload = false ∧
      x.isDiscard = false ∧ x.failure = none ∧ x.isCreateUpdate = false ∧
      x.created = none := by
  cases x <;> simp_all [Event.isDeletionCall, Event.opened, Event.closes, Event.isCommit,
    Event.isReload, Event.isDiscard, Event.failure, Event.isCreateUpdate, Event.created]

theorem mapKeys_markForDeletion (s : ServiceDiscoveryInstance) :
    mapKeys (markForDeletion s).services = mapKeys s.services := by
  simp [markForDeletion, mapKeys, Function.comp_def]

theorem not_backendCall_facts {x : Event} (h : x.isBackendCall = false) :
    x.failure = none ∧ x.isCreateUpdate = false ∧ x.created = none ∧ x.deleteCall = none ∧
      x.deleted = none ∧ x.service = none := by
  cases x <;> simp_all [Event.isBackendCall, Event.failure, Event.isCreateUpdate,
    Event.created, Event.deleteCall, Event.deleted, Event.service]

/-- The engine the transaction is opened on. -/
theorem startTransaction_events {client : Client} {s : ServiceDiscoveryInstance}
    {services : List ServiceInstance}
    (h : ∀ v id, startTransaction client s ≠
      (none, { s with trace := s.trace ++
        [.getVersion (.ok v), .startTransaction v (.ok id)], transactionID := id })) :
    (∀ x ∈ passEvents client s services, x.opened = none ∧ x.failure = none ∧
      x.isBackendCall = false ∧ x.isCommit = false ∧ x.isReload = false) ∧
    (passState client s services).services = s.services ∧
    passOutcome client s services ≠ .nilDereference := by
  rcases startTransaction_cases client s with ⟨e, h1⟩ | ⟨v, e, h1⟩ | ⟨v, id, h1⟩
  · have : passEvents client s services = [.getVersion (.error e)] := by
      apply passEvents_of_trace; simp [UpdateServices, h1]
    rw [this]
    refine ⟨?_, by simp [passState, UpdateServices, h1],
      by simp [passOutcome, UpdateServices, h1]⟩
    intro x hx
    simp at hx; subst hx
    simp [Event.opened, Event.failure, Event.isBackendCall, Event.isCommit, Event.isReload]
  · have : passEvents client s services =
        [.getVersion (.ok v), .startTransaction v (.error e)] := by
      apply passEvents_of_trace; simp [UpdateServices, h1]
    rw [this]
    refine ⟨?_, by simp [passState, UpdateServices, h1],
      by simp [passOutcome, UpdateServices, h1]⟩
    intro x hx
    simp at hx
    rcases hx with rfl | rfl <;>
      simp [Event.opened, Event.failure, Event.isBackendCall, Event.isCommit, Event.isReload]
  · exact absurd h1 (h v id)

/-- A pass whose loop runs to its end: the engine after the pass is the engine after
the deletion step with the transaction calls and the reload added to the trace. -/
theorem done_run {client : Client} {s : ServiceDiscoveryInstance}
    {services : List ServiceInstance} {v : Int} {id : String} {rl : Bool}
    {s2 : ServiceDiscoveryInstance}
    (h : startTransaction client s = (none, { s with trace := s.trace ++
        [.getVersion (.ok v), .startTransaction v (.ok id)], transactionID := id }))
    (hloop : updateLoop client services false (markForDeletion
        { s with trace := s.trace ++ [.getVersion (.ok v), .startTransaction v (.ok id)],
                 transactionID := id }) = (.done rl, s2)) :
    ∃ tail, (passState client s services).services = (removeDeleted client s2).2.services ∧
      (passState client s services).trace = (removeDeleted client s2).2.trace ++ tail ∧
      (∀ x ∈ tail, x.isBackendCall = false ∧ x.opened = none) ∧
      (∀ e, passOutcome client s services = .returned (some e) →
        Event.commitTransaction id (some e) ∈ tail) ∧
      passOutcome client s services ≠ .nilDereference := by
  obtain ⟨-, htx, -⟩ := updateLoop_trace client _ _ _ _ _ hloop
  simp only [markForDeletion] at htx
  have htx2 : (removeDeleted client s2).2.transactionID = id := htx (by simp) (by simp)
  by_cases hr : (rl || (removeDeleted client s2).1) = true
  · cases hc : client.CommitTransaction (removeDeleted client s2).2.trace
        (removeDeleted client s2).2.transactionID with
    | none =>
      have hc2 := hc
      rw [htx2] at hc2
      refine ⟨[.commitTransaction id none, .reload], ?_, ?_, ?_, ?_, ?_⟩
      · simp [passState, UpdateServices, h, hloop, hr, commitTransaction, hc,
          ServiceDiscoveryInstance.log]
      · simp [passState, UpdateServices, h, hloop, hr, commitTransaction, hc2,
          ServiceDiscoveryInstance.log, htx2]
      · simp [Event.isBackendCall, Event.opened]
      · intro e he
        simp [passOutcome, UpdateServices, h, hloop, hr, commitTransaction, hc] at he
      · simp [passOutcome, UpdateServices, h, hloop, hr, commitTransaction, hc]
    | some err =>
      have hc2 := hc
      rw [htx2] at hc2
      refine ⟨[.commitTransaction id (some err)], ?_, ?_, ?_, ?_, ?_⟩
      · simp [passState, UpdateServices, h, hloop, hr, commitTransaction, hc]
      · simp [passState, UpdateServices, h, hloop, hr, commitTransaction, hc2, htx2]
      · simp [Event.isBackendCall, Event.opened]
      · intro e he
        simp [passOutcome, UpdateServices, h, hloop, hr, commitTransaction, hc] at he
        simp [he]
      · simp [passOutcome, UpdateServices, h, hloop, hr, commitTransaction, hc]
  · have hr' : (rl || (removeDeleted client s2).1) = false := by simpa using hr
    refine ⟨[.deleteTransaction id], ?_, ?_, ?_, ?_, ?_⟩
    · simp [passState, UpdateServices, h, hloop, hr', deleteTransaction]
    · simp [passState, UpdateServices, h, hloop, hr', deleteTransaction, htx2]
    · simp [Event.isBackendCall, Event.opened]
    · intro e he
      simp [passOutcome, UpdateServices, h, hloop, hr'] at he
    · simp [passOutcome, UpdateServices, h, hloop, hr']

/-- The calls of a pass whose loop runs to its end: the two opening calls, the calls
of the loop, the calls of the deletion step, the closing calls. -/
theorem done_events {client : Client} {s : ServiceDiscoveryInstance}
    {services : List ServiceInstance} {v : Int} {id : String} {rl : Bool}
    {s2 : ServiceDiscoveryInstance}
    (h : startTransaction client s = (none, { s with trace := s.trace ++
        [.getVersion (.ok v), .startTransaction v (.ok id)], transactionID := id }))
    (hloop : updateLoop client services false (markForDeletion
        { s with trace := s.trace ++ [.getVersion (.ok v), .startTransaction v (.ok id)],
                 transactionID := id }) = (.done rl, s2)) :
    ∃ L D tail, passEvents client s services =
        [.getVersion (.ok v), .startTransaction v (.ok id)] ++ L ++ D ++ tail ∧
      s2.trace = s.trace ++ [.getVersion (.ok v), .startTransaction v (.ok id)] ++ L ∧
      (removeDeleted client s2).2.trace = s2.trace ++ D ∧
      (∀ x ∈ L, x.isLoopCall = true ∧ x.failure = none ∧
        ∃ n ∈ includedNames s services, x.service = some n) ∧
      (∀ x ∈ D, x.isDeletionCall = true) ∧
      (∀ x ∈ tail, x.isBackendCall = false ∧ x.opened = none) ∧
      (passState client s services).services = (removeDeleted client s2).2.services ∧
      (∀ e, passOutcome client s services = .returned (some e) →
        Event.commitTransaction id (some e) ∈ tail) ∧
      passOutcome client s services ≠ .nilDereference := by
  obtain ⟨tail, t1, t2, t3, t4, t5⟩ := done_run h hloop
  obtain ⟨-, -, L, T, hT, hL, hall⟩ := updateLoop_trace client _ _ _ _ _ hloop
  simp only [markForDeletion] at hT hL
  obtain ⟨h1, h2, -⟩ := hL
  subst h1
  obtain ⟨D, d1, d2, -, -⟩ := removeDeleted_trace client s2
  refine ⟨T, D, tail, ?_, hT, d1, ?_, d2, t3, t1, t4, t5⟩
  · apply passEvents_of_trace
    have : (UpdateServices client s services).2.trace =
        (removeDeleted client s2).2.trace ++ tail := t2
    rw [this, d1, hT]
    simp
  · intro x hx
    obtain ⟨a, n, hn, b⟩ := hall x hx
    exact ⟨a, h2 x hx, n, by simpa [includedNames, serviceNotTracked, markForDeletion] using hn, b⟩

theorem reachesDeletion_run {client : Client} {s : ServiceDiscoveryInstance}
    {services : List ServiceInstance} (h : reachesDeletion client s services) :
    ∃ v id rl s2,
      startTransaction client s = (none, { s with trace := s.trace ++
        [.getVersion (.ok v), .startTransaction v (.ok id)], transactionID := id }) ∧
      updateLoop client services false (markForDeletion
        { s with trace := s.trace ++ [.getVersion (.ok v), .startTransaction v (.ok id)],
                 transactionID := id }) = (.done rl, s2) := by
  obtain ⟨⟨x0, hx0, hopen⟩, hnf, hnp⟩ := h
  by_cases hst : ∀ v id, startTransaction client s ≠
      (none, { s with trace := s.trace ++
        [.getVersion (.ok v), .startTransaction v (.ok id)], transactionID := id })
  · exfalso
    have := ((startTransaction_events hst).1 x0 hx0).1
    rw [this] at hopen; cases hopen
  · push_neg at hst
    obtain ⟨v, id, h⟩ := hst
    rcases hloop : updateLoop client services false (markForDeletion
        { s with trace := s.trace ++ [.getVersion (.ok v), .startTransaction v (.ok id)],
                 transactionID := id }) with ⟨res, s2⟩
    obtain ⟨-, htx, L, T, hT, hL, -⟩ := updateLoop_trace client _ _ _ _ _ hloop
    simp only [markForDeletion] at hT hL htx
    cases res with
    | failed e =>
      exfalso
      obtain ⟨L0, f, h1, h2, h3, h4⟩ := hL
      have : passEvents client s services =
          [.getVersion (.ok v), .startTransaction v (.ok id)] ++ L ++
            [.deleteTransaction id] := by
        apply passEvents_of_trace
        simp [UpdateServices, h, hloop, hT, h4]
      have hf := hnf f (by rw [this, h1]; simp)
      rw [h3] at hf; cases hf
    | nilDereference =>
      exfalso
      exact hnp (by simp [passOutcome, UpdateServices, h, hloop])
    | done rl => exact ⟨v, id, rl, s2, h, hloop⟩

/-- A pass in which a create or update call fails: the loop stopped at that call, and
the pass returns its error with the engine the loop left. -/
theorem failure_run {client : Client} {s : ServiceDiscoveryInstance}
    {services : List ServiceInstance} {x : Event} {e : String}
    (hx : x ∈ passEvents client s services) (hf : x.failure = some e) :
    ∃ v id s2,
      updateLoop client services false (markForDeletion
        { s with trace := s.trace ++ [.getVersion (.ok v), .startTransaction v (.ok id)],
                 transactionID := id }) = (.failed e, s2) ∧
      UpdateServices client s services = (.returned (some e), s2) ∧
      passEvents client s services =
        [.getVersion (.ok v), .startTransaction v (.ok id)] ++
          s2.trace.drop (s.trace.length + 2) := by
  by_cases hst : ∀ v id, startTransaction client s ≠
      (none, { s with trace := s.trace ++
        [.getVersion (.ok v), .startTransaction v (.ok id)], transactionID := id })
  · exfalso
    have := ((startTransaction_events hst).1 x hx).2.1
    rw [this] at hf; cases hf
  · push_neg at hst
    obtain ⟨v, id, h⟩ := hst
    rcases hloop : updateLoop client services false (markForDeletion
        { s with trace := s.trace ++ [.getVersion (.ok v), .startTransaction v (.ok id)],
                 transactionID := id }) with ⟨res, s2⟩
    obtain ⟨-, htx, L, T, hT, hL, hLall⟩ := updateLoop_trace client _ _ _ _ _ hloop
    simp only [markForDeletion] at hT hL htx
    cases res with
    | failed e' =>
      obtain ⟨L0, f, h1, h2, h3, h4⟩ := hL
      have hev : passEvents client s services =
          [.getVersion (.ok v), .startTransaction v (.ok id)] ++ L ++
            [.deleteTransaction id] := by
        apply passEvents_of_trace
        simp [UpdateServices, h, hloop, hT, h4]
      have hee : e' = e := by
        rw [hev, h1] at hx
        simp only [List.mem_append, List.mem_cons, List.mem_singleton, List.not_mem_nil,
          or_false] at hx
        rcases hx with ((rfl | rfl) | hx | rfl) | rfl
        · simp [Event.failure] at hf
        · simp [Event.failure] at hf
        · rw [h2 x hx] at hf; cases hf
        · rw [h3] at hf; exact Option.some.inj hf
        · simp [Event.failure] at hf
      subst hee
      refine ⟨v, id, s2, hloop, by simp [UpdateServices, h, hloop], ?_⟩
      rw [hev, hT, h4]
      simp [List.drop_append]
    | nilDereference =>
      exfalso
      obtain ⟨h1, h2⟩ := hL
      have hev : passEvents client s services =
          [.getVersion (.ok v), .startTransaction v (.ok id)] ++ L := by
        apply passEvents_of_trace
        simp [UpdateServices, h, hloop, hT, h1]
      rw [hev] at hx
      simp only [List.mem_append, List.mem_cons, List.mem_singleton, List.not_mem_nil,
        or_false] at hx
      rcases hx with (rfl | rfl) | hx
      · simp [Event.failure] at hf
      · simp [Event.failure] at hf
      · rw [h2 x hx] at hf; cases hf
    | done rl =>
      exfalso
      obtain ⟨L', D, tail, hev, -, -, hL', hD, htail, -⟩ := done_events h hloop
      rw [hev] at hx
      simp only [List.mem_append, List.mem_cons, List.mem_singleton, List.not_mem_nil,
        or_false] at hx
      rcases hx with (((rfl | rfl) | hx) | hx) | hx
      · simp [Event.failure] at hf
      · simp [Event.failure] at hf
      · rw [(hL' x hx).2.1] at hf; cases hf
      · rw [(deletionCall_facts (hD x hx)).2.2.2.2.2.1] at hf; cases hf
      · rw [(not_backendCall_facts (htail x hx).1).1] at hf; cases hf

theorem whitelistLoop_eq (l : List String) (n : String) :
    whitelistLoop l n = true ↔ n ∉ l := by
  induction l with
  | nil => simp [whitelistLoop]
  | cons a t ih =>
    by_cases h : a = n
    · simp [whitelistLoop, h]
    · simp only [whitelistLoop, h, if_false, ih, List.mem_cons, not_or]
      exact ⟨fun h2 => ⟨fun h3 => h h3.symm, h2⟩, fun h2 => h2.2⟩

theorem blacklistLoop_eq (l : List String) (n : String) :
    blacklistLoop l n = true ↔ n ∈ l := by
  induction l with
  | nil => simp [blacklistLoop]
  | cons a t ih =>
    by_cases h : a = n
    · simp [blacklistLoop, h]
    · simp only [blacklistLoop, h, if_false, ih, List.mem_cons]
      exact ⟨fun h2 => Or.inr h2, fun h2 => h2.resolve_left (fun h3 => h h3.symm)⟩

theorem serviceNotTracked_iff (s : ServiceDiscoveryInstance) (service : String) :
    serviceNotTracked s service = true ↔
      (s.params.Whitelist ≠ [] ∧ service ∉ s.params.Whitelist) ∨
      (s.params.Whitelist = [] ∧ service ∈ s.params.Blacklist) := by
  unfold serviceNotTracked
  cases hw : s.params.Whitelist with
  | nil => simp [blacklistLoop_eq]
  | cons a t =>
    simp only [List.length_cons, gt_iff_lt, Nat.zero_lt_succ, if_true, whitelistLoop_eq]
    simp

/-- Every create or update call of a pass is made for a snapshot the policy includes. -/
theorem createUpdate_included (client : Client) (s : ServiceDiscoveryInstance)
    (services : List ServiceInstance) :
    ∀ x ∈ passEvents client s services, x.isCreateUpdate = true →
      ∃ n ∈ includedNames s services, x.service = some n := by
  intro x hx hcu
  by_cases hst : ∀ v id, startTransaction client s ≠
      (none, { s with trace := s.trace ++
        [.getVersion (.ok v), .startTransaction v (.ok id)], transactionID := id })
  · exfalso
    have := (not_backendCall_facts ((startTransaction_events hst).1 x hx).2.2.1).2.1
    rw [this] at hcu; cases hcu
  · push_neg at hst
    obtain ⟨v, id, h⟩ := hst
    rcases hloop : updateLoop client services false (markForDeletion
        { s with trace := s.trace ++ [.getVersion (.ok v), .startTransaction v (.ok id)],
                 transactionID := id }) with ⟨res, s2⟩
    obtain ⟨-, -, L, T, hT, hL, hLall⟩ := updateLoop_trace client _ _ _ _ _ hloop
    simp only [markForDeletion] at hT hL
    have hinc : ∀ y ∈ L, ∃ n ∈ includedNames s services, y.service = some n := by
      intro y hy
      obtain ⟨-, n, hn, b⟩ := hLall y hy
      exact ⟨n, by simpa [includedNames, serviceNotTracked, markForDeletion] using hn, b⟩
    cases res with
    | failed e' =>
      obtain ⟨L0, f, h1, h2, h3, h4⟩ := hL
      have hev : passEvents client s services =
          [.getVersion (.ok v), .startTransaction v (.ok id)] ++ L ++
            [.deleteTransaction id] := by
        apply passEvents_of_trace
        simp [UpdateServices, h, hloop, hT, h4]
      rw [hev] at hx
      simp only [List.mem_append, List.mem_cons, List.mem_singleton, List.not_mem_nil,
        or_false] at hx
      rcases hx with ((rfl | rfl) | hx) | rfl
      · cases hcu
      · cases hcu
      · exact hinc x hx
      · cases hcu
    | nilDereference =>
      obtain ⟨h1, h2⟩ := hL
      have hev : passEvents client s services =
          [.getVersion (.ok v), .startTransaction v (.ok id)] ++ L := by
        apply passEvents_of_trace
        simp [UpdateServices, h, hloop, hT, h1]
      rw [hev] at hx
      simp only [List.mem_append, List.mem_cons, List.mem_singleton, List.not_mem_nil,
        or_false] at hx
      rcases hx with (rfl | rfl) | hx
      · cases hcu
      · cases hcu
      · exact hinc x hx
    | done rl =>
      obtain ⟨L', D, tail, hev, -, -, hL', hD, htail, -⟩ := done_events h hloop
      rw [hev] at hx
      simp only [List.mem_append, List.mem_cons, List.mem_singleton, List.not_mem_nil,
        or_false] at hx
      rcases hx with (((rfl | rfl) | hx) | hx) | hx
      · cases hcu
      · cases hcu
      · exact (hL' x hx).2.2
      · rw [(deletionCall_facts (hD x hx)).2.2.2.2.2.2.1] at hcu; cases hcu
      · rw [(not_backendCall_facts (htail x hx).1).2.1] at hcu; cases hcu

theorem not_included_of_excluded {s : ServiceDiscoveryInstance}
    {services : List ServiceInstance} {n : String}
    (h : serviceNotTracked s n = true) : n ∉ includedNames s services := by
  intro hn
  simp only [includedNames, List.mem_map, List.mem_filter] at hn
  obtain ⟨x, ⟨-, hx⟩, rfl⟩ := hn
  simp [h] at hx

theorem marked_filter_keys (m : List (String × confService)) (p : String → Bool) :
    ((m.map (fun e => (e.1, ({ e.2 with deleted := true } : confService)))).filter
      (fun e => e.2.deleted && p e.1)).map Prod.fst =
      (m.filter (fun e => p e.1)).map Prod.fst := by
  induction m with
  | nil => rfl
  | cons a t ih =>
    cases h : p a.1
    · simpa [List.filter_cons, h] using ih
    · simpa [List.filter_cons, h] using ih

/-- The `Delete` calls of a pass that reaches its deletion step are made, in map order,
for the services tracked before the pass that no included snapshot names. -/
theorem deletion_calls {client : Client} {s : ServiceDiscoveryInstance}
    {services : List ServiceInstance} (h : reachesDeletion client s services) :
    (passEvents client s services).filterMap Event.deleteCall =
      (s.services.filter (fun e => decide (e.1 ∉ includedNames s services))).map Prod.fst := by
  obtain ⟨v, id, rl, s2, hst, hloop⟩ := reachesDeletion_run h
  obtain ⟨L, D, tail, hev, hs2, hD, hL, hDall, htail, -⟩ := done_events hst hloop
  obtain ⟨-, hdone⟩ := updateLoop_services client _ _ _ _ _ hloop
  obtain ⟨d1, -, -⟩ := hdone rl rfl
  obtain ⟨D', e1, -, -, e4, -⟩ := removeDeletedLoop_spec client s2.transactionID s2.services
    false s2.trace
  have hDD : D' = D := by
    have : s2.trace ++ D' = s2.trace ++ D := by rw [← e1, ← hD]; rfl
    exact List.append_cancel_left this
  subst hDD
  have hN : includedNames (markForDeletion
      { s with trace := s.trace ++ [.getVersion (.ok v), .startTransaction v (.ok id)],
               transactionID := id }) services = includedNames s services :=
    includedNames_congr rfl services
  simp only [hN] at d1
  rw [hev]
  simp only [List.filterMap_append]
  rw [filterMap_none Event.deleteCall L (fun x hx => (loopCall_facts (hL x hx).1).2.2.2.2.2.1),
    filterMap_none Event.deleteCall tail
      (fun x hx => (not_backendCall_facts (htail x hx).1).2.2.2.1), e4, d1]
  simp only [List.filterMap_cons, Event.deleteCall, List.filterMap_nil, List.nil_append,
    List.append_nil]
  exact marked_filter_keys s.services (fun n => decide (n ∉ includedNames s services))

theorem deletionCall_reloadFlag {x : Event} (h : x.isDeletionCall = true) :
    x.reloadFlag = x.deleted.isSome := by
  cases x <;> simp_all [Event.isDeletionCall, Event.reloadFlag, Event.deleted]
  rename_i r
  cases r <;> simp

theorem removeDeletedLoop_none_flagged (client : Client) (tx : String) :
    ∀ (entries : List (String × confService)) (reload : Bool) (tr : List Event),
      (∀ e ∈ entries, e.2.deleted = false) →
      removeDeletedLoop client tx entries reload tr = (reload, entries, tr) := by
  intro entries
  induction entries with
  | nil => intro reload tr _; rfl
  | cons a t ih =>
    obtain ⟨name, se⟩ := a
    intro reload tr h
    have ha : se.deleted = false := h (name, se) (List.mem_cons_self _ _)
    simp only [removeDeletedLoop, ha, Bool.false_eq_true, if_false]
    rw [ih reload tr (fun e he => h e (List.mem_cons_of_mem _ he))]

/-- Clearing the pending-deletion flag of the entries whose key is in `names`. -/
theorem clear_mapModify (m : List (String × confService)) (n : String) (names : List String) :
    (mapModify m n (fun c => { c with deleted := false })).map
        (fun e => if e.1 ∈ names then (e.1, ({ e.2 with deleted := false } : confService))
          else e) =
      m.map (fun e => if e.1 ∈ n :: names then
        (e.1, ({ e.2 with deleted := false } : confService)) else e) := by
  simp only [mapModify, List.map_map]
  apply List.map_congr_left
  intro e _
  by_cases h1 : e.1 = n <;> by_cases h2 : e.1 ∈ names <;> simp [h1, h2]

/-- A loop over snapshots that are all unchanged and all tracked makes no call: it only
clears the pending-deletion flag of the included services. -/
theorem updateLoop_unchanged (client : Client) :
    ∀ (services : List ServiceInstance) (reload : Bool) (s : ServiceDiscoveryInstance),
      (∀ x ∈ services, x.Changed = false) →
      (∀ n ∈ includedNames s services, n ∈ mapKeys s.services) →
      updateLoop client services reload s =
        (.done reload, { s with services := s.services.map (fun e =>
          if e.1 ∈ includedNames s services then
            (e.1, ({ e.2 with deleted := false } : confService)) else e) }) := by
  intro services
  induction services with
  | nil =>
    intro reload s _ _
    simp [updateLoop, includedNames]
  | cons service rest ih =>
    intro reload s hch hkeys
    have hc : service.Changed = false := hch service (List.mem_cons_self _ _)
    have hrest : ∀ x ∈ rest, x.Changed = false := fun x hx => hch x (List.mem_cons_of_mem _ hx)
    simp only [updateLoop]
    by_cases hx : serviceNotTracked s service.GetName = true
    · rw [includedNames_cons_excluded hx] at hkeys ⊢
      simp only [hx, if_true]
      exact ih reload s hrest hkeys
    · have hx' : serviceNotTracked s service.GetName = false := by simpa using hx
      rw [includedNames_cons_included hx'] at hkeys ⊢
      simp only [hx', Bool.false_eq_true, if_false, hc, Bool.not_false, if_true]
      have hk : service.GetName ∈ mapKeys s.services := hkeys _ (List.mem_cons_self _ _)
      cases hg : mapGet s.services service.GetName with
      | none => exact absurd hk ((mapGet_eq_none _ _).1 hg)
      | some c =>
        simp only
        have hN : includedNames
            (⟨mapModify s.services service.GetName (fun c => ⟨c.confService, false⟩),
              s.params, s.transactionID, s.trace⟩ : ServiceDiscoveryInstance) rest =
              includedNames s rest :=
          includedNames_congr rfl rest
        rw [ih reload _ hrest (by
          intro n hn
          rw [hN] at hn
          simpa [mapKeys_mapModify] using hkeys n (List.mem_cons_of_mem _ hn))]
        simp only [hN]
        rw [clear_mapModify]

theorem includedNames_unchanged (s t : ServiceDiscoveryInstance) (h : t.params = s.params)
    (services : List ServiceInstance) :
    includedNames t (services.map (fun x => { x with Changed := false })) =
      includedNames s services := by
  rw [includedNames_congr h]
  induction services with
  | nil => rfl
  | cons a r ih =>
    by_cases hx : serviceNotTracked s a.GetName = true
    · rw [includedNames_cons_excluded hx, List.map_cons, includedNames_cons_excluded (by exact hx)]
      exact ih
    · have hx' : serviceNotTracked s a.GetName = false := by simpa using hx
      rw [includedNames_cons_included hx', List.map_cons,
        includedNames_cons_included (by exact hx'), ih]

theorem passState_params (client : Client) (s : ServiceDiscoveryInstance)
    (services : List ServiceInstance) : (passState client s services).params = s.params := by
  unfold passState UpdateServices
  rcases startTransaction_cases client s with ⟨e, h⟩ | ⟨v, e, h⟩ | ⟨v, id, h⟩
  · simp [h]
  · simp [h]
  · simp only [h]
    rcases hloop : updateLoop client services false (markForDeletion
        { s with trace := s.trace ++ [.getVersion (.ok v), .startTransaction v (.ok id)],
                 transactionID := id }) with ⟨res, s2⟩
    obtain ⟨hp, -⟩ := updateLoop_trace client _ _ _ _ _ hloop
    simp only [markForDeletion] at hp
    cases res with
    | failed e => simpa using hp
    | nilDereference => simpa using hp
    | done rl =>
      simp only
      by_cases hr : (rl || (removeDeleted client s2).1) = true
      · simp only [hr, if_true, commitTransaction]
        cases hc : client.CommitTransaction (removeDeleted client s2).2.trace
            (removeDeleted client s2).2.transactionID with
        | none => simpa [ServiceDiscoveryInstance.log, removeDeleted] using hp
        | some err => simpa [removeDeleted] using hp
      · simp only [hr, if_false, deleteTransaction]
        simpa [removeDeleted] using hp

theorem returned_none_reaches {client : Client} {s : ServiceDiscoveryInstance}
    {services : List ServiceInstance}
    (h : passOutcome client s services = .returned none) :
    reachesDeletion client s services := by
  have hshape := UpdateServices_shape client s services
  unfold reachesDeletion
  rw [h] at hshape ⊢
  generalize passEvents client s services = evs at *
  rcases hshape with ⟨e, -, ho⟩ | ⟨v, e, -, ho⟩ | ⟨v, id, L, hL, hcase⟩
  · cases ho
  · cases ho
  · rcases hcase with ⟨L0, f, e, -, -, -, -, ho⟩ | ⟨-, -, ho⟩ |
      ⟨D, hLf, hD, ⟨hnr, r, rfl, ho⟩ | ⟨hnr, rfl, -⟩⟩
    · cases ho
    · cases ho
    · cases ho
      refine ⟨⟨.startTransaction v (.ok id), by simp, rfl⟩, ?_, by simp⟩
      intro x hx
      simp only [List.mem_append, List.mem_cons, List.mem_singleton, List.not_mem_nil,
        or_false, if_true] at hx
      rcases hx with ((((rfl | rfl) | hx) | hx) | rfl) | rfl
      · rfl
      · rfl
      · exact hLf x hx
      · exact (deletionCall_facts (hD x hx)).2.2.2.2.2.1
      · rfl
      · rfl
    · refine ⟨⟨.startTransaction v (.ok id), by simp, rfl⟩, ?_, by simp⟩
      intro x hx
      simp only [List.mem_append, List.mem_cons, List.mem_singleton, List.not_mem_nil,
        or_false] at hx
      rcases hx with (((rfl | rfl) | hx) | hx) | rfl
      · rfl
      · rfl
      · exact hLf x hx
      · exact (deletionCall_facts (hD x hx)).2.2.2.2.2.1
      · rfl

theorem clear_marked (m : List (String × confService)) (names : List String)
    (h : ∀ e ∈ m, e.2.deleted = false ∧ e.1 ∈ names) :
    (m.map (fun e => (e.1, ({ e.2 with deleted := true } : confService)))).map
        (fun e => if e.1 ∈ names then (e.1, ({ e.2 with deleted := false } : confService))
          else e) = m := by
  rw [List.map_map]
  conv_rhs => rw [← List.map_id m]
  apply List.map_congr_left
  intro e he
  obtain ⟨h1, h2⟩ := h e he
  obtain ⟨k, c⟩ := e
  obtain ⟨cs, d⟩ := c
  simp only at h1 h2
  simp [h1, h2]

/-- After a pass that returns no error and in which every `Delete` succeeded, the
tracked services are unflagged and are exactly the included snapshots. -/
theorem first_pass_tracked {client : Client} {s : ServiceDiscoveryInstance}
    {services : List ServiceInstance}
    (h1 : passOutcome client s services = .returned none)
    (h2 : ∀ x ∈ passEvents client s services,
      x.deleteCall.isSome = true → x.deleted.isSome = true) :
    (∀ e ∈ (passState client s services).services,
      e.2.deleted = false ∧ e.1 ∈ includedNames s services) ∧
    (∀ n ∈ includedNames s services, n ∈ mapKeys (passState client s services).services) := by
  have hr := returned_none_reaches h1
  obtain ⟨v, id, rl, s2, hst, hloop⟩ := reachesDeletion_run hr
  obtain ⟨L, D, tail, hev, hs2, hD, hL, hDall, htail, hserv, -, -⟩ := done_events hst hloop
  obtain ⟨-, hdone⟩ := updateLoop_services client _ _ _ _ _ hloop
  obtain ⟨d1, d2, d3⟩ := hdone rl rfl
  have hN : includedNames (markForDeletion
      { s with trace := s.trace ++ [.getVersion (.ok v), .startTransaction v (.ok id)],
               transactionID := id }) services = includedNames s services :=
    includedNames_congr rfl services
  simp only [hN] at d1 d2 d3
  obtain ⟨D', e1, -, -, -, -, -, -, e8, -⟩ := removeDeletedLoop_spec client
    s2.transactionID s2.services false s2.trace
  have hDD : D' = D := by
    have : s2.trace ++ D' = s2.trace ++ D := by rw [← e1, ← hD]; rfl
    exact List.append_cancel_left this
  subst hDD
  have hkept : (removeDeleted client s2).2.services =
      s2.services.filter (fun e => !e.2.deleted) :=
    e8 (fun x hx => h2 x (by rw [hev]; simp [hx]))
  rw [hserv, hkept]
  have hflag : ∀ e ∈ s2.services, e.2.deleted = true → e.1 ∉ includedNames s services := by
    intro e he hd
    have : e ∈ s2.services.filter (fun e => e.2.deleted) := List.mem_filter.2 ⟨he, hd⟩
    rw [d1] at this
    have h3 := (List.mem_filter.1 this).2
    simp only [Bool.and_eq_true, decide_eq_true_eq] at h3
    exact h3.2
  refine ⟨?_, ?_⟩
  · intro e he
    obtain ⟨hmem, hdel⟩ := List.mem_filter.1 he
    have hdel' : e.2.deleted = false := by simpa using hdel
    refine ⟨hdel', ?_⟩
    rcases d3 e hmem hdel' with h | h
    · exact h
    · exfalso
      simp only [markForDeletion, List.mem_map] at h
      obtain ⟨a, -, rfl⟩ := h
      simp at hdel'
  · intro n hn
    have := d2 n hn
    simp only [mapKeys, List.mem_map] at this ⊢
    obtain ⟨e, he, rfl⟩ := this
    refine ⟨e, List.mem_filter.2 ⟨he, ?_⟩, rfl⟩
    cases hd : e.2.deleted with
    | false => rfl
    | true => exact absurd hn (hflag e he hd)

/-- A pass over unchanged snapshots on an engine whose tracked services are unflagged
and are exactly the included snapshots: no call on a handle, no commit, no reload, and
the tracked map is left as it was. -/
theorem second_pass_quiet (client : Client) (s : ServiceDiscoveryInstance)
    (services : List ServiceInstance)
    (hch : ∀ x ∈ services, x.Changed = false)
    (hK : ∀ e ∈ s.services, e.2.deleted = false ∧ e.1 ∈ includedNames s services)
    (hN : ∀ n ∈ includedNames s services, n ∈ mapKeys s.services) :
    (∀ x ∈ passEvents client s services,
      x.isBackendCall = false ∧ x.isCommit = false ∧ x.isReload = false) ∧
    (passState client s services).services = s.services ∧
    passOutcome client s services ≠ .nilDereference := by
  by_cases hst : ∀ v id, startTransaction client s ≠
      (none, { s with trace := s.trace ++
        [.getVersion (.ok v), .startTransaction v (.ok id)], transactionID := id })
  · obtain ⟨a, b, c⟩ := @startTransaction_events client s services hst
    exact ⟨fun x hx => (a x hx).2.2, b, c⟩
  · push_neg at hst
    obtain ⟨v, id, h⟩ := hst
    have hinc : includedNames (markForDeletion
        { s with trace := s.trace ++ [.getVersion (.ok v), .startTransaction v (.ok id)],
                 transactionID := id }) services = includedNames s services :=
      includedNames_congr rfl services
    have hloop := updateLoop_unchanged client services false (markForDeletion
        { s with trace := s.trace ++ [.getVersion (.ok v), .startTransaction v (.ok id)],
                 transactionID := id }) hch (by
      intro n hn
      rw [hinc] at hn
      rw [mapKeys_markForDeletion]
      exact hN n hn)
    simp only [hinc] at hloop
    have hserv : (markForDeletion
        { s with trace := s.trace ++ [.getVersion (.ok v), .startTransaction v (.ok id)],
                 transactionID := id }).services.map (fun e =>
          if e.1 ∈ includedNames s services then
            (e.1, ({ e.2 with deleted := false } : confService)) else e) = s.services := by
      simp only [markForDeletion]
      exact clear_marked s.services _ hK
    rw [hserv] at hloop
    have hrd : removeDeletedLoop client id s.services false
        (s.trace ++ [.getVersion (.ok v), .startTransaction v (.ok id)]) =
        (false, s.services, s.trace ++ [.getVersion (.ok v), .startTransaction v (.ok id)]) :=
      removeDeletedLoop_none_flagged client id s.services false _ (fun e he => (hK e he).1)
    have hev : passEvents client s services =
        [.getVersion (.ok v), .startTransaction v (.ok id), .deleteTransaction id] := by
      apply passEvents_of_trace
      simp only [UpdateServices, h, hloop]
      simp [removeDeleted, markForDeletion, hrd, deleteTransaction]
    refine ⟨?_, ?_, ?_⟩
    · rw [hev]
      intro x hx
      simp only [List.mem_cons, List.mem_singleton, List.not_mem_nil, or_false] at hx
      rcases hx with rfl | rfl | rfl <;> exact ⟨rfl, rfl, rfl⟩
    · simp only [passState, UpdateServices, h, hloop]
      simp [removeDeleted, markForDeletion, hrd, deleteTransaction]
    · simp only [passOutcome, UpdateServices, h, hloop]
      simp [removeDeleted, markForDeletion, hrd]

theorem changedLoop_iff (fp : List (String × Time)) (insts : List (String × Instance)) :
    changedLoop fp insts = true ↔
      ∃ m ∈ insts, mapGet fp m.2.InstanceId = none ∨
        ∃ v, mapGet fp m.2.InstanceId = some v ∧ v ≠ m.2.LaunchTime := by
  induction insts with
  | nil => simp [changedLoop]
  | cons a t ih =>
    obtain ⟨k, inst⟩ := a
    simp only [changedLoop, List.mem_cons, exists_eq_or_imp]
    cases hg : mapGet fp inst.InstanceId with
    | none => simp
    | some v =>
      by_cases hv : v = inst.LaunchTime
      · simp [hv, ih]
      · simp [hv]

theorem mapGet_mapSet_self {β : Type} (m : List (String × β)) (k : String) (v : β) :
    mapGet (mapSet m k v) k = some v := by
  induction m with
  | nil => simp [mapSet, mapGet]
  | cons a t ih =>
    obtain ⟨x, w⟩ := a
    by_cases h : x = k
    · simp [mapSet, mapGet, h]
    · simp [mapSet, mapGet, h, ih]

theorem mapSet_of_not_mem {β : Type} (m : List (String × β)) (k : String) (v : β)
    (h : k ∉ mapKeys m) : mapSet m k v = m ++ [(k, v)] := by
  induction m with
  | nil => rfl
  | cons a t ih =>
    obtain ⟨x, w⟩ := a
    simp only [mapKeys, List.map_cons, List.mem_cons, not_or] at h
    have hx : ¬ x = k := fun e => h.1 e.symm
    simp only [mapSet, hx, if_false, List.cons_append]
    rw [ih (by simpa [mapKeys] using h.2)]

theorem launchTimes_eq :
    ∀ (insts : List (String × Instance)) (hash : List (String × Time)),
      (insts.map (fun m => m.2.InstanceId)).Nodup →
      (∀ m ∈ insts, m.2.InstanceId ∉ mapKeys hash) →
      launchTimes insts hash =
        hash ++ insts.map (fun m => (m.2.InstanceId, m.2.LaunchTime)) := by
  intro insts
  induction insts with
  | nil => intro hash _ _; simp [launchTimes]
  | cons a t ih =>
    obtain ⟨k, inst⟩ := a
    intro hash hnd hdis
    simp only [List.map_cons, List.nodup_cons, List.mem_map, not_exists, not_and] at hnd
    simp only [launchTimes]
    rw [mapSet_of_not_mem _ _ _ (hdis (k, inst) (List.mem_cons_self _ _)),
      ih _ hnd.2 (by
        intro m hm
        simp only [mapKeys, List.map_append, List.map_cons, List.map_nil, List.mem_append,
          List.mem_singleton, not_or]
        exact ⟨hdis m (List.mem_cons_of_mem _ hm), fun e => hnd.1 m hm e⟩)]
    simp

theorem mapGet_fingerprint :
    ∀ (insts : List (String × Instance)) (m : String × Instance),
      (insts.map (fun m => m.2.InstanceId)).Nodup → m ∈ insts →
      mapGet (insts.map (fun m => (m.2.InstanceId, m.2.LaunchTime))) m.2.InstanceId =
        some m.2.LaunchTime := by
  intro insts
  induction insts with
  | nil => intro m _ hm; cases hm
  | cons a t ih =>
    intro m hnd hm
    simp only [List.map_cons, List.nodup_cons, List.mem_map, not_exists, not_and] at hnd
    simp only [List.map_cons, mapGet]
    rcases List.mem_cons.1 hm with rfl | hm
    · simp
    · have hne : ¬ a.2.InstanceId = m.2.InstanceId := fun e => hnd.1 m hm e.symm
      simp only [hne, if_false]
      exact ih m hnd.2 hm

/-- What the loop of `UpdateParams` does: it calls `UpdateScalingParams` on a leading
part of the tracked services, in map order; every call but the last succeeded; the
services called with success carry the new policy, the others are as they were. -/
theorem updateParamsLoop_spec (client : Client) (scaling : ScalingParams) :
    ∀ (entries : List (String × confService)) (tr : List Event),
      ∃ k, k ≤ entries.length ∧
        (updateParamsLoop client scaling entries tr).2.1 =
          (entries.take k).map (fun e =>
            (e.1, { e.2 with confService := { e.2.confService with scaling := scaling } }))
            ++ entries.drop k ∧
        ((updateParamsLoop client scaling entries tr).1 = none →
          k = entries.length ∧
          (updateParamsLoop client scaling entries tr).2.2 = tr ++ entries.map (fun e =>
            Event.updateScalingParams e.1 e.2.confService.name scaling none)) ∧
        (∀ err, (updateParamsLoop client scaling entries tr).1 = some err →
          ∃ f, (entries.drop k).head? = some f ∧
            (updateParamsLoop client scaling entries tr).2.2 =
              tr ++ (entries.take k).map (fun e =>
                Event.updateScalingParams e.1 e.2.confService.name scaling none) ++
              [Event.updateScalingParams f.1 f.2.confService.name scaling (some err)]) := by
  intro entries
  induction entries with
  | nil =>
    intro tr
    exact ⟨0, by simp [updateParamsLoop]⟩
  | cons a rest ih =>
    obtain ⟨name, se⟩ := a
    intro tr
    simp only [updateParamsLoop]
    cases hc : client.UpdateScalingParams tr se.confService scaling with
    | some e =>
      refine ⟨0, by simp, by simp, by simp, ?_⟩
      intro err herr
      simp only [Option.some.injEq] at herr
      subst herr
      exact ⟨(name, se), by simp, by simp⟩
    | none =>
      simp only
      obtain ⟨k, hk, hserv, hnone, hsome⟩ := ih
        (tr ++ [.updateScalingParams name se.confService.name scaling none])
      refine ⟨k + 1, by simpa using hk, by simp [hserv], ?_, ?_⟩
      · intro h
        obtain ⟨h1, h2⟩ := hnone h
        exact ⟨by simp [h1], by simp [h2]⟩
      · intro err h
        obtain ⟨f, hf, h2⟩ := hsome err h
        exact ⟨f, by simpa using hf, by simp [h2]⟩

theorem portTags_ne : HAProxyServicePortTag ≠ HAProxyInstancePortTag := by decide

theorem instancePortLoop_no_port_tag :
    ∀ (tags : List Tag) (acc : Int × Option String),
      (∀ t ∈ tags, t.Key ≠ HAProxyServicePortTag ∧ t.Key ≠ HAProxyInstancePortTag) →
      instancePortLoop tags acc = acc := by
  intro tags
  induction tags with
  | nil => intro acc _; rfl
  | cons t rest ih =>
    intro acc h
    have ht := h t (List.mem_cons_self _ _)
    simp only [instancePortLoop, ht.1, ht.2, if_false]
    exact ih acc (fun x hx => h x (List.mem_cons_of_mem _ hx))

theorem instancePortLoop_instance_tag :
    ∀ (tags : List Tag) (acc : Int × Option String) (v : String),
      (tags.map Tag.Key).Nodup → { Key := HAProxyInstancePortTag, Value := v } ∈ tags →
      instancePortLoop tags acc = Atoi v := by
  intro tags
  induction tags with
  | nil => intro acc v _ h; cases h
  | cons t rest ih =>
    intro acc v hnd hmem
    simp only [List.map_cons, List.nodup_cons, List.mem_map, not_exists, not_and] at hnd
    rcases List.mem_cons.1 hmem with h | h
    · subst h
      simp [instancePortLoop, portTags_ne.symm]
    · have hk : t.Key ≠ HAProxyInstancePortTag := fun e => hnd.1 _ h (by rw [e])
      by_cases hs : t.Key = HAProxyServicePortTag
      · simp only [instancePortLoop, hs, if_true]
        exact ih _ v hnd.2 h
      · simp only [instancePortLoop, hs, hk, if_false]
        exact ih _ v hnd.2 h

theorem instancePortLoop_service_tag :
    ∀ (tags : List Tag) (acc : Int × Option String) (v : String),
      (tags.map Tag.Key).Nodup → (∀ t ∈ tags, t.Key ≠ HAProxyInstancePortTag) →
      { Key := HAProxyServicePortTag, Value := v } ∈ tags →
      instancePortLoop tags acc = Atoi v := by
  intro tags
  induction tags with
  | nil => intro acc v _ _ h; cases h
  | cons t rest ih =>
    intro acc v hnd hno hmem
    simp only [List.map_cons, List.nodup_cons, List.mem_map, not_exists, not_and] at hnd
    have hk : t.Key ≠ HAProxyInstancePortTag := hno t (List.mem_cons_self _ _)
    have hno' : ∀ x ∈ rest, x.Key ≠ HAProxyInstancePortTag :=
      fun x hx => hno x (List.mem_cons_of_mem _ hx)
    rcases List.mem_cons.1 hmem with h | h
    · subst h
      simp only [instancePortLoop, if_true]
      apply instancePortLoop_no_port_tag
      intro x hx
      exact ⟨fun e => hnd.1 x hx (by rw [e]), hno' x hx⟩
    · have hs : t.Key ≠ HAProxyServicePortTag := fun e => hnd.1 _ h (by rw [e])
      simp only [instancePortLoop, hs, hk, if_false]
      exact ih _ v hnd.2 hno' h

theorem string_length_eq_zero (s : String) : s.length = 0 ↔ s = "" := by
  constructor
  · intro h
    cases s with
    | mk d =>
      simp only [String.length, List.length_eq_zero] at h
      subst h
      rfl
  · rintro rfl
    rfl

theorem getServersLoop_private (insts : List (String × Instance)) :
    ∀ servers, getServersLoop AwsRegionIPV4AddressPrivate insts servers =
      servers ++ insts.filterMap (fun e =>
        if ToString e.2.PrivateIpAddress = "" then none
        else some { Address := ToString e.2.PrivateIpAddress,
                    Port := (instancePortFromEC2 e.2).1 }) := by
  induction insts with
  | nil => intro servers; simp [getServersLoop]
  | cons a rest ih =>
    obtain ⟨k, inst⟩ := a
    intro servers
    simp only [getServersLoop, if_true, List.filterMap_cons]
    by_cases h : ToString inst.PrivateIpAddress = ""
    · simp [h, ih]
    · have h' : ¬ (ToString inst.PrivateIpAddress).length = 0 := by
        rw [string_length_eq_zero]
        exact h
      simp [h, h', ih]

theorem private_ne_public : AwsRegionIPV4AddressPublic ≠ AwsRegionIPV4AddressPrivate := by
  decide

theorem getServersLoop_public (insts : List (String × Instance)) :
    ∀ servers, getServersLoop AwsRegionIPV4AddressPublic insts servers =
      servers ++ insts.filterMap (fun e =>
        if ToString e.2.PublicIpAddress = "" then none
        else some { Address := ToString e.2.PublicIpAddress,
                    Port := (instancePortFromEC2 e.2).1 }) := by
  induction insts with
  | nil => intro servers; simp [getServersLoop]
  | cons a rest ih =>
    obtain ⟨k, inst⟩ := a
    intro servers
    simp only [getServersLoop, private_ne_public, if_false, if_true, List.filterMap_cons]
    by_cases h : ToString inst.PublicIpAddress = ""
    · simp [h, ih]
    · have h' : ¬ (ToString inst.PublicIpAddress).length = 0 := by
        rw [string_length_eq_zero]
        exact h
      simp [h, h', ih]

theorem getServersLoop_other (ipv4 : String) (h1 : ipv4 ≠ AwsRegionIPV4AddressPrivate)
    (h2 : ipv4 ≠ AwsRegionIPV4AddressPublic) (insts : List (String × Instance)) :
    ∀ servers, getServersLoop ipv4 insts servers = servers := by
  induction insts with
  | nil => intro servers; simp [getServersLoop]
  | cons a rest ih =>
    obtain ⟨k, inst⟩ := a
    intro servers
    simp only [getServersLoop, h1, h2, if_false]
    exact ih servers

/-- Every server of `GetServers` comes from a member: it carries the port
`instancePortFromEC2` gives for that member and the member's private or public
address. -/
theorem GetServers_from_member (s : awsService) :
    ∀ srv ∈ s.GetServers, ∃ m ∈ s.instances,
      srv.Port = (instancePortFromEC2 m.2).1 ∧
      (srv.Address = ToString m.2.PrivateIpAddress ∨
        srv.Address = ToString m.2.PublicIpAddress) := by
  intro srv hsrv
  unfold awsService.GetServers at hsrv
  by_cases h1 : s.ipv4 = AwsRegionIPV4AddressPrivate
  · rw [h1, getServersLoop_private] at hsrv
    simp only [List.nil_append, List.mem_filterMap] at hsrv
    obtain ⟨m, hm, hx⟩ := hsrv
    by_cases h : ToString m.2.PrivateIpAddress = ""
    · simp [h] at hx
    · simp only [h, if_false, Option.some.injEq] at hx
      subst hx
      exact ⟨m, hm, rfl, Or.inl rfl⟩
  · by_cases h2 : s.ipv4 = AwsRegionIPV4AddressPublic
    · rw [h2, getServersLoop_public] at hsrv
      simp only [List.nil_append, List.mem_filterMap] at hsrv
      obtain ⟨m, hm, hx⟩ := hsrv
      by_cases h : ToString m.2.PublicIpAddress = ""
      · simp [h] at hx
      · simp only [h, if_false, Option.some.injEq] at hx
        subst hx
        exact ⟨m, hm, rfl, Or.inr rfl⟩
    · rw [getServersLoop_other _ h1 h2] at hsrv
      cases hsrv

theorem split_at_first {α : Type} (c : α) :
    ∀ (l1 l2 t1 t2 : List α), c ∉ l1 → c ∉ l2 → l1 ++ c :: t1 = l2 ++ c :: t2 →
      l1 = l2 ∧ t1 = t2 := by
  intro l1
  induction l1 with
  | nil =>
    intro l2 t1 t2 _ h2 h
    cases l2 with
    | nil => exact ⟨rfl, by simpa using h⟩
    | cons a r =>
      exfalso
      simp only [List.nil_append, List.cons_append, List.cons.injEq] at h
      exact h2 (by rw [h.1]; exact List.mem_cons_self _ _)
  | cons a r ih =>
    intro l2 t1 t2 h1 h2 h
    cases l2 with
    | nil =>
      exfalso
      simp only [List.nil_append, List.cons_append, List.cons.injEq] at h
      exact h1 (by rw [← h.1]; exact List.mem_cons_self _ _)
    | cons b r2 =>
      simp only [List.cons_append, List.cons.injEq] at h
      obtain ⟨e1, e2⟩ := ih r2 t1 t2 (fun hm => h1 (List.mem_cons_of_mem _ hm))
        (fun hm => h2 (List.mem_cons_of_mem _ hm)) h.2
      exact ⟨by rw [h.1, e1], e2⟩

theorem GetBackendName_data (a : awsService) :
    a.GetBackendName.data =
      "aws-".data ++ (a.region.data ++ '-' :: (a.instanceName.data ++ '-' :: a.name.data)) := by
  simp [awsService.GetBackendName, awsService.GetName, String.data_append]

theorem mapKeys_mapSet {β : Type} (m : List (String × β)) (k : String) (v : β) :
    mapKeys (mapSet m k v) = if k ∈ mapKeys m then mapKeys m else mapKeys m ++ [k] := by
  induction m with
  | nil => simp [mapSet, mapKeys]
  | cons a t ih =>
    obtain ⟨x, w⟩ := a
    by_cases h : x = k
    · simp [mapSet, mapKeys, h]
    · have h' : ¬ k = x := fun e => h e.symm
      simp only [mapKeys] at ih
      simp only [mapSet, h, if_false, mapKeys, List.map_cons, ih, List.mem_cons, h', false_or]
      split <;> simp

theorem nodup_mapSet {β : Type} (m : List (String × β)) (k : String) (v : β)
    (h : (mapKeys m).Nodup) : (mapKeys (mapSet m k v)).Nodup := by
  rw [mapKeys_mapSet]
  split
  · exact h
  · rename_i hk
    rw [List.nodup_append]
    exact ⟨h, by simp, by simpa using hk⟩

theorem mem_mapKeys_mapSet_self {β : Type} (m : List (String × β)) (k : String) (v : β) :
    k ∈ mapKeys (mapSet m k v) := by
  rw [mapKeys_mapSet]
  split
  · assumption
  · simp

theorem mem_mapKeys_mapSet_of_mem {β : Type} (m : List (String × β)) (k x : String) (v : β)
    (h : x ∈ mapKeys m) : x ∈ mapKeys (mapSet m k v) := by
  rw [mapKeys_mapSet]
  split
  · exact h
  · exact List.mem_append_left _ h

theorem mem_mapSet {β : Type} (m : List (String × β)) (k : String) (v : β)
    (e : String × β) (he : e ∈ mapSet m k v) : e = (k, v) ∨ e ∈ m := by
  induction m with
  | nil => simpa [mapSet] using he
  | cons a t ih =>
    obtain ⟨x, w⟩ := a
    by_cases h : x = k
    · simp only [mapSet, h, if_true, List.mem_cons] at he
      rcases he with he | he
      · exact Or.inl he
      · exact Or.inr (List.mem_cons_of_mem _ he)
    · simp only [mapSet, h, if_false, List.mem_cons] at he
      rcases he with he | he
      · exact Or.inr (by rw [he]; exact List.mem_cons_self _ _)
      · rcases ih he with h1 | h1
        · exact Or.inl h1
        · exact Or.inr (List.mem_cons_of_mem _ h1)

theorem mapGet_mapSet_ne {β : Type} (m : List (String × β)) (k x : String) (v : β)
    (h : x ≠ k) : mapGet (mapSet m k v) x = mapGet m x := by
  induction m with
  | nil =>
    have h' : ¬ k = x := fun e => h e.symm
    simp [mapSet, mapGet, h']
  | cons a t ih =>
    obtain ⟨y, w⟩ := a
    by_cases hy : y = k
    · have hyx : ¬ y = x := fun e => h (e ▸ hy)
      have hkx : ¬ k = x := fun e => h e.symm
      simp [mapSet, mapGet, hy, hkx]
    · by_cases hyx : y = x
      · subst hyx
        simp [mapSet, mapGet, hy]
      · simp [mapSet, mapGet, hy, hyx, ih]

theorem mem_mapDelete {β : Type} (m : List (String × β)) (k : String) (e : String × β) :
    e ∈ mapDelete m k ↔ e ∈ m ∧ e.1 ≠ k := by
  simp [mapDelete, List.mem_filter]

theorem nodup_mapDelete {β : Type} (m : List (String × β)) (k : String)
    (h : (mapKeys m).Nodup) : (mapKeys (mapDelete m k)).Nodup := by
  unfold mapKeys mapDelete
  exact h.sublist ((List.filter_sublist _).map _)

theorem mem_mapModify_iff {β : Type} (m : List (String × β)) (k : String) (f : β → β)
    (e : String × β) :
    e ∈ mapModify m k f ↔ ∃ a ∈ m, e = if a.1 = k then (a.1, f a.2) else a := by
  simp only [mapModify, List.mem_map]
  constructor
  · rintro ⟨a, ha, rfl⟩; exact ⟨a, ha, rfl⟩
  · rintro ⟨a, ha, rfl⟩; exact ⟨a, ha, rfl⟩

theorem serviceNameFromEC2_tags {a b : Instance} {n : String}
    (h : serviceNameFromEC2 a = .ok n) (ht : b.Tags = a.Tags) :
    serviceNameFromEC2 b = .ok n := by
  unfold serviceNameFromEC2 at h ⊢
  rw [ht]
  split at h
  · cases h
  · rename_i hc
    simp only [hc, if_false]
    exact h

theorem ServicesWF_nil : ServicesWF [] := by
  simp [ServicesWF, mapKeys]

theorem ServicesWF_file (m1 : List (String × awsService)) (i : Instance) (sn : String)
    (hn : serviceNameFromEC2 i = .ok sn) (h1 : ServicesWF m1) :
    ServicesWF (mapModify m1 sn
      (fun s => { s with instances := mapSet s.instances i.InstanceId i })) := by
  refine ⟨by rw [mapKeys_mapModify]; exact h1.1, ?_⟩
  intro e he
  obtain ⟨a, ha, rfl⟩ := (mem_mapModify_iff _ _ _ e).1 he
  obtain ⟨w1, w2, w3⟩ := h1.2 a ha
  by_cases hk : a.1 = sn
  · simp only [hk, if_true]
    refine ⟨by rw [← hk]; exact w1, nodup_mapSet _ _ _ w2, ?_⟩
    intro x hx
    rcases mem_mapSet _ _ _ x hx with rfl | hx
    · exact ⟨rfl, hn⟩
    · rw [← hk]; exact w3 x hx
  · simp only [hk, if_false]
    exact ⟨w1, w2, w3⟩

theorem ServicesWF_addInstance (params : AwsRegion) (m : List (String × awsService))
    (i : Instance) (h : ServicesWF m) : ServicesWF (addInstance params m i) := by
  unfold addInstance
  cases hn : serviceNameFromEC2 i with
  | error e => exact h
  | ok sn =>
    simp only
    cases hg : mapGet m sn with
    | some _ => exact ServicesWF_file m i sn hn h
    | none =>
      simp only
      apply ServicesWF_file _ i sn hn
      refine ⟨nodup_mapSet _ _ _ h.1, ?_⟩
      intro e he
      rcases mem_mapSet _ _ _ e he with rfl | he
      · exact ⟨rfl, by simp [mapKeys], by simp⟩
      · exact h.2 e he

theorem ServicesWF_removeInstance (m : List (String × awsService)) (i : Instance)
    (h : ServicesWF m) : ServicesWF (removeInstance m i) := by
  unfold removeInstance
  cases hn : serviceNameFromEC2 i with
  | error e => exact h
  | ok sn =>
    simp only
    cases hg : mapGet m sn with
    | none => exact h
    | some _ =>
      simp only
      refine ⟨by rw [mapKeys_mapModify]; exact h.1, ?_⟩
      intro e he
      obtain ⟨a, ha, rfl⟩ := (mem_mapModify_iff _ _ _ e).1 he
      obtain ⟨w1, w2, w3⟩ := h.2 a ha
      by_cases hk : a.1 = sn
      · simp only [hk, if_true]
        refine ⟨by rw [← hk]; exact w1, nodup_mapDelete _ _ w2, ?_⟩
        intro x hx
        rw [← hk]
        exact w3 x ((mem_mapDelete _ _ x).1 hx).1
      · simp only [hk, if_false]
        exact ⟨w1, w2, w3⟩

theorem foldl_invariant {α β : Type} (f : β → α → β) (P : β → Prop)
    (hstep : ∀ m x, P m → P (f m x)) : ∀ (l : List α) (m : β), P m → P (l.foldl f m) := by
  intro l
  induction l with
  | nil => intro m h; exact h
  | cons a t ih => intro m h; exact ih _ (hstep m a h)

theorem foldl_establish {α β : Type} (f : β → α → β) (Q : β → Prop) (d : α)
    (hd : ∀ m, Q (f m d)) (hstep : ∀ m x, Q m → Q (f m x)) :
    ∀ (l : List α) (m : β), d ∈ l → Q (l.foldl f m) := by
  intro l
  induction l with
  | nil => intro m h; cases h
  | cons a t ih =>
    intro m h
    rcases List.mem_cons.1 h with rfl | h
    · exact foldl_invariant f Q hstep t _ (hd m)
    · exact ih _ h

theorem nested_invariant {β : Type} (f : β → Instance → β) (P : β → Prop)
    (hstep : ∀ m x, P m → P (f m x)) (rs : List Reservation) (m : β) (h : P m) :
    P (rs.foldl (fun m r => r.Instances.foldl f m) m) :=
  foldl_invariant (fun m r => r.Instances.foldl f m) P
    (fun m r hm => foldl_invariant f P hstep r.Instances m hm) rs m h

theorem nested_establish {β : Type} (f : β → Instance → β) (Q : β → Prop) (d : Instance)
    (hd : ∀ m, Q (f m d)) (hstep : ∀ m x, Q m → Q (f m x)) (rs : List Reservation) (m : β)
    (r : Reservation) (hr : r ∈ rs) (hdr : d ∈ r.Instances) :
    Q (rs.foldl (fun m r => r.Instances.foldl f m) m) :=
  foldl_establish (fun m r => r.Instances.foldl f m) Q r
    (fun m => foldl_establish f Q d hd hstep r.Instances m hdr)
    (fun m r hm => foldl_invariant f Q hstep r.Instances m hm) rs m hr

theorem ServicesWF_buildServices (api : InventoryAPI) (params : AwsRegion)
    (io : DescribeInstancesOutput) : ServicesWF (buildServices api params io) := by
  have hallow : ServicesWF (io.Reservations.foldl
      (fun m r => r.Instances.foldl (addInstance params) m) []) :=
    nested_invariant _ ServicesWF (fun m x h => ServicesWF_addInstance params m x h) _ _
      ServicesWF_nil
  unfold buildServices
  split
  · split
    · exact hallow
    · exact nested_invariant _ ServicesWF (fun m x h => ServicesWF_removeInstance m x h) _ _
        hallow
  · exact hallow

theorem nameTag_ne_portTag : HAProxyServiceNameTag ≠ HAProxyServicePortTag := by decide

theorem serviceNameLoop_name_empty :
    ∀ (tags : List Tag) (acc : String × String), acc.1 = "" →
      (∀ t ∈ tags, t.Key = HAProxyServiceNameTag → t.Value = "") →
      (serviceNameLoop tags acc).1 = "" := by
  intro tags
  induction tags with
  | nil => intro acc h _; exact h
  | cons t rest ih =>
    intro acc h hall
    have hrest : ∀ x ∈ rest, x.Key = HAProxyServiceNameTag → x.Value = "" :=
      fun x hx => hall x (List.mem_cons_of_mem _ hx)
    simp only [serviceNameLoop]
    by_cases h1 : t.Key = HAProxyServiceNameTag
    · simp only [h1, if_true]
      exact ih _ (hall t (List.mem_cons_self _ _) h1) hrest
    · by_cases h2 : t.Key = HAProxyServicePortTag
      · simp only [h1, h2, if_false, if_true]
        exact ih _ h hrest
      · simp only [h1, h2, if_false]
        exact ih _ h hrest

theorem serviceNameLoop_port_empty :
    ∀ (tags : List Tag) (acc : String × String), acc.2 = "" →
      (∀ t ∈ tags, t.Key = HAProxyServicePortTag → t.Value = "") →
      (serviceNameLoop tags acc).2 = "" := by
  intro tags
  induction tags with
  | nil => intro acc h _; exact h
  | cons t rest ih =>
    intro acc h hall
    have hrest : ∀ x ∈ rest, x.Key = HAProxyServicePortTag → x.Value = "" :=
      fun x hx => hall x (List.mem_cons_of_mem _ hx)
    simp only [serviceNameLoop]
    by_cases h1 : t.Key = HAProxyServiceNameTag
    · simp only [h1, if_true]
      exact ih _ h hrest
    · by_cases h2 : t.Key = HAProxyServicePortTag
      · simp only [h1, h2, if_false, if_true]
        exact ih _ (hall t (List.mem_cons_self _ _) h2) hrest
      · simp only [h1, h2, if_false]
        exact ih _ h hrest

theorem serviceNameLoop_no_name :
    ∀ (tags : List Tag) (acc : String × String),
      (∀ t ∈ tags, t.Key ≠ HAProxyServiceNameTag) → (serviceNameLoop tags acc).1 = acc.1 := by
  intro tags
  induction tags with
  | nil => intro acc _; rfl
  | cons t rest ih =>
    intro acc hall
    have h1 := hall t (List.mem_cons_self _ _)
    have hrest : ∀ x ∈ rest, x.Key ≠ HAProxyServiceNameTag :=
      fun x hx => hall x (List.mem_cons_of_mem _ hx)
    simp only [serviceNameLoop, h1, if_false]
    split
    · exact ih _ hrest
    · exact ih _ hrest

theorem serviceNameLoop_no_port :
    ∀ (tags : List Tag) (acc : String × String),
      (∀ t ∈ tags, t.Key ≠ HAProxyServicePortTag) → (serviceNameLoop tags acc).2 = acc.2 := by
  intro tags
  induction tags with
  | nil => intro acc _; rfl
  | cons t rest ih =>
    intro acc hall
    have h1 := hall t (List.mem_cons_self _ _)
    have hrest : ∀ x ∈ rest, x.Key ≠ HAProxyServicePortTag :=
      fun x hx => hall x (List.mem_cons_of_mem _ hx)
    simp only [serviceNameLoop, h1, if_false]
    split
    · exact ih _ hrest
    · exact ih _ hrest

theorem serviceNameLoop_name :
    ∀ (tags : List Tag) (acc : String × String) (n : String),
      (tags.map Tag.Key).Nodup → { Key := HAProxyServiceNameTag, Value := n } ∈ tags →
      (serviceNameLoop tags acc).1 = n := by
  intro tags
  induction tags with
  | nil => intro acc n _ h; cases h
  | cons t rest ih =>
    intro acc n hnd hmem
    simp only [List.map_cons, List.nodup_cons, List.mem_map, not_exists, not_and] at hnd
    rcases List.mem_cons.1 hmem with h | h
    · subst h
      simp only [serviceNameLoop, if_true]
      rw [serviceNameLoop_no_name _ _ (fun x hx e => hnd.1 x hx (by rw [e]))]
    · have hk : t.Key ≠ HAProxyServiceNameTag := fun e => hnd.1 _ h (by rw [e])
      simp only [serviceNameLoop, hk, if_false]
      split
      · exact ih _ n hnd.2 h
      · exact ih _ n hnd.2 h

theorem serviceNameLoop_port :
    ∀ (tags : List Tag) (acc : String × String) (p : String),
      (tags.map Tag.Key).Nodup → { Key := HAProxyServicePortTag, Value := p } ∈ tags →
      (serviceNameLoop tags acc).2 = p := by
  intro tags
  induction tags with
  | nil => intro acc p _ h; cases h
  | cons t rest ih =>
    intro acc p hnd hmem
    simp only [List.map_cons, List.nodup_cons, List.mem_map, not_exists, not_and] at hnd
    rcases List.mem_cons.1 hmem with h | h
    · subst h
      simp only [serviceNameLoop, nameTag_ne_portTag.symm, if_false, if_true]
      rw [serviceNameLoop_no_port _ _ (fun x hx e => hnd.1 x hx (by rw [e]))]
    · have hk : t.Key ≠ HAProxyServicePortTag := fun e => hnd.1 _ h (by rw [e])
      simp only [serviceNameLoop, hk, if_false]
      split
      · exact ih _ p hnd.2 h
      · exact ih _ p hnd.2 h

theorem addInstance_skip {params : AwsRegion} {m : List (String × awsService)}
    {i : Instance} {e : String} (h : serviceNameFromEC2 i = .error e) :
    addInstance params m i = m ∧ removeInstance m i = m := by
  simp [addInstance, removeInstance, h]

theorem Denied_removeInstance_self (d : Instance) (m : List (String × awsService)) :
    Denied d (removeInstance m d) := by
  intro e he h i hi
  unfold removeInstance at he
  rw [h] at he
  simp only at he
  cases hg : mapGet m e.1 with
  | none =>
    rw [hg] at he
    simp only at he
    exact absurd (List.mem_map_of_mem Prod.fst he) ((mapGet_eq_none m e.1).1 hg)
  | some v =>
    rw [hg] at he
    simp only at he
    obtain ⟨a, ha, heq⟩ := (mem_mapModify_iff _ _ _ e).1 he
    by_cases hk : a.1 = e.1
    · simp only [hk, if_true] at heq
      rw [heq] at hi
      exact ((mem_mapDelete _ _ i).1 hi).2
    · simp only [hk, if_false] at heq
      exact absurd (by rw [heq]) hk

theorem Denied_removeInstance (d x : Instance) (m : List (String × awsService))
    (h : Denied d m) : Denied d (removeInstance m x) := by
  intro e he hd i hi
  unfold removeInstance at he
  cases hn : serviceNameFromEC2 x with
  | error err =>
    rw [hn] at he
    exact h e he hd i hi
  | ok sn =>
    rw [hn] at he
    simp only at he
    cases hg : mapGet m sn with
    | none =>
      rw [hg] at he
      exact h e he hd i hi
    | some v =>
      rw [hg] at he
      simp only at he
      obtain ⟨a, ha, heq⟩ := (mem_mapModify_iff _ _ _ e).1 he
      by_cases hk : a.1 = sn
      · simp only [hk, if_true] at heq
        rw [heq] at hi hd
        simp only at hi hd
        exact h a ha (by rw [hk]; exact hd) i ((mem_mapDelete _ _ i).1 hi).1
      · simp only [hk, if_false] at heq
        rw [heq] at hi hd
        exact h a ha hd i hi

theorem Kept_file (sn id : String) (m : List (String × awsService)) (x : Instance)
    (sn' : String) (h : Kept sn id m) :
    Kept sn id (mapModify m sn'
      (fun s => { s with instances := mapSet s.instances x.InstanceId x })) := by
  obtain ⟨s, hs, hid⟩ := h
  by_cases hk : sn = sn'
  · refine ⟨{ s with instances := mapSet s.instances x.InstanceId x }, ?_, ?_⟩
    · exact (mem_mapModify_iff _ _ _ _).2 ⟨(sn, s), hs, by simp [hk]⟩
    · exact mem_mapKeys_mapSet_of_mem _ _ _ _ hid
  · exact ⟨s, (mem_mapModify_iff _ _ _ _).2 ⟨(sn, s), hs, by simp [hk]⟩, hid⟩

theorem mem_mapSet_of_mem_of_none {β : Type} (m : List (String × β)) (k : String) (v : β)
    (hg : mapGet m k = none) (e : String × β) (he : e ∈ m) : e ∈ mapSet m k v := by
  rw [mapSet_of_not_mem m k v ((mapGet_eq_none m k).1 hg)]
  exact List.mem_append_left _ he

theorem Kept_addInstance (params : AwsRegion) (sn id : String) (x : Instance)
    (m : List (String × awsService)) (h : Kept sn id m) :
    Kept sn id (addInstance params m x) := by
  unfold addInstance
  cases hn : serviceNameFromEC2 x with
  | error e => exact h
  | ok sn' =>
    simp only
    cases hg : mapGet m sn' with
    | some _ => exact Kept_file sn id m x sn' h
    | none =>
      simp only
      apply Kept_file
      obtain ⟨s, hs, hid⟩ := h
      exact ⟨s, mem_mapSet_of_mem_of_none _ _ _ hg _ hs, hid⟩

theorem mapGet_some_mem {β : Type} (m : List (String × β)) (k : String) (v : β)
    (h : mapGet m k = some v) : (k, v) ∈ m := by
  induction m with
  | nil => cases h
  | cons a t ih =>
    obtain ⟨x, w⟩ := a
    by_cases hx : x = k
    · simp only [mapGet, hx, if_true, Option.some.injEq] at h
      rw [hx, h]
      exact List.mem_cons_self _ _
    · simp only [mapGet, hx, if_false] at h
      exact List.mem_cons_of_mem _ (ih h)

theorem Kept_addInstance_self (params : AwsRegion) (sn : String) (x : Instance)
    (hn : serviceNameFromEC2 x = .ok sn) (m : List (String × awsService)) :
    Kept sn x.InstanceId (addInstance params m x) := by
  unfold addInstance
  simp only [hn]
  have key : ∀ m1 : List (String × awsService), (∃ s, (sn, s) ∈ m1) →
      Kept sn x.InstanceId (mapModify m1 sn
        (fun s => { s with instances := mapSet s.instances x.InstanceId x })) := by
    intro m1 ⟨s, hs⟩
    exact ⟨{ s with instances := mapSet s.instances x.InstanceId x },
      (mem_mapModify_iff _ _ _ _).2 ⟨(sn, s), hs, by simp⟩, mem_mapKeys_mapSet_self _ _ _⟩
  cases hg : mapGet m sn with
  | some s => exact key m ⟨s, mapGet_some_mem m sn s hg⟩
  | none =>
    simp only
    apply key
    rw [mapSet_of_not_mem m sn _ ((mapGet_eq_none m sn).1 hg)]
    exact ⟨_, List.mem_append_right _ (List.mem_singleton_self _)⟩

theorem Kept_removeInstance (sn id : String) (d : Instance) (hd : d.InstanceId ≠ id)
    (m : List (String × awsService)) (h : Kept sn id m) :
    Kept sn id (removeInstance m d) := by
  unfold removeInstance
  cases hn : serviceNameFromEC2 d with
  | error e => exact h
  | ok sn' =>
    simp only
    cases hg : mapGet m sn' with
    | none => exact h
    | some _ =>
      simp only
      obtain ⟨s, hs, hid⟩ := h
      by_cases hk : sn = sn'
      · refine ⟨{ s with instances := mapDelete s.instances d.InstanceId },
          (mem_mapModify_iff _ _ _ _).2 ⟨(sn, s), hs, by simp [hk]⟩, ?_⟩
        simp only [mapKeys, List.mem_map] at hid ⊢
        obtain ⟨i, hi, rfl⟩ := hid
        exact ⟨i, (mem_mapDelete _ _ i).2 ⟨hi, fun e => hd e.symm⟩, rfl⟩
      · exact ⟨s, (mem_mapModify_iff _ _ _ _).2 ⟨(sn, s), hs, by simp [hk]⟩, hid⟩

theorem foldl_invariant_mem {α β : Type} (f : β → α → β) (P : β → Prop) :
    ∀ (l : List α) (m : β), (∀ m x, x ∈ l → P m → P (f m x)) → P m → P (l.foldl f m) := by
  intro l
  induction l with
  | nil => intro m _ h; exact h
  | cons a t ih =>
    intro m hstep h
    exact ih _ (fun m x hx => hstep m x (List.mem_cons_of_mem _ hx))
      (hstep m a (List.mem_cons_self _ _) h)

theorem nested_invariant_mem {β : Type} (f : β → Instance → β) (P : β → Prop)
    (rs : List Reservation) (m : β)
    (hstep : ∀ m x, (∃ r ∈ rs, x ∈ r.Instances) → P m → P (f m x)) (h : P m) :
    P (rs.foldl (fun m r => r.Instances.foldl f m) m) :=
  foldl_invariant_mem (fun m r => r.Instances.foldl f m) P rs m
    (fun m r hr hm => foldl_invariant_mem f P r.Instances m
      (fun m x hx => hstep m x ⟨r, hr, hx⟩) hm) h

theorem serviceChanged_congr {st1 st2 : List (String × List (String × Time))}
    (s : awsService) (h : mapGet st1 s.name = mapGet st2 s.name) :
    serviceChanged st1 s = serviceChanged st2 s := by
  simp [serviceChanged, h]

theorem serviceChanged_same_fingerprint (st : List (String × List (String × Time)))
    (s : awsService) (hnd : (s.instances.map (fun m => m.2.InstanceId)).Nodup)
    (h : mapGet st s.name = some (launchTimes s.instances [])) :
    serviceChanged st s = false := by
  have hfp : launchTimes s.instances [] =
      s.instances.map (fun m => (m.2.InstanceId, m.2.LaunchTime)) := by
    rw [launchTimes_eq s.instances [] hnd (by simp [mapKeys])]
    simp
  rw [← Bool.not_eq_true]
  intro hch
  unfold serviceChanged at hch
  rw [h, hfp] at hch
  simp only [Option.getD_some, List.length_map, ne_eq, not_true_eq_false, if_false,
    changedLoop_iff] at hch
  obtain ⟨m, hm, h1 | ⟨v, h1, hv⟩⟩ := hch
  · rw [mapGet_fingerprint s.instances m hnd hm] at h1; cases h1
  · rw [mapGet_fingerprint s.instances m hnd hm] at h1
    exact hv (Option.some.inj h1).symm

/-- What the Change Detector loop does on services with distinct names: each service is
handed over with the flag computed against the state before the loop, and the state
after the loop holds the fingerprint of each service and is otherwise as before. -/
theorem changeDetectorLoop_spec :
    ∀ (m : List (String × awsService)) (st : List (String × List (String × Time)))
      (acc : List awsService), (m.map (fun e => e.2.name)).Nodup →
      (changeDetectorLoop m st acc).1 =
        acc ++ m.map (fun e => { e.2 with changed := serviceChanged st e.2 }) ∧
      (∀ e ∈ m, mapGet (changeDetectorLoop m st acc).2 e.2.name =
        some (launchTimes e.2.instances [])) ∧
      (∀ n, n ∉ m.map (fun e => e.2.name) →
        mapGet (changeDetectorLoop m st acc).2 n = mapGet st n) := by
  intro m
  induction m with
  | nil => intro st acc _; simp [changeDetectorLoop]
  | cons a rest ih =>
    obtain ⟨k, s⟩ := a
    intro st acc hnd
    simp only [List.map_cons, List.nodup_cons, List.mem_map, not_exists, not_and] at hnd
    obtain ⟨h1, h2, h3⟩ := ih (mapSet st s.name (launchTimes s.instances []))
      (acc ++ [{ s with changed := serviceChanged st s }]) hnd.2
    simp only [changeDetectorLoop]
    refine ⟨?_, ?_, ?_⟩
    · rw [h1]
      simp only [List.map_cons, List.append_assoc, List.singleton_append]
      congr 2
      apply List.map_congr_left
      intro e he
      rw [serviceChanged_congr e.2 (mapGet_mapSet_ne _ _ _ _ (hnd.1 e he))]
    · intro e he
      rcases List.mem_cons.1 he with rfl | he
      · rw [h3 _ (by
          simp only [List.mem_map, not_exists, not_and]
          intro x hx e
          exact hnd.1 x hx e)]
        exact mapGet_mapSet_self _ _ _
      · exact h2 e he
    · intro n hn
      simp only [List.map_cons, List.mem_cons, not_or] at hn
      rw [h3 n hn.2, mapGet_mapSet_ne _ _ _ _ hn.1]

theorem ServicesWF_names {m : List (String × awsService)} (h : ServicesWF m) :
    (m.map (fun e => e.2.name)).Nodup := by
  have : m.map (fun e => e.2.name) = mapKeys m := by
    unfold mapKeys
    apply List.map_congr_left
    intro e he
    exact (h.2 e he).1
  rw [this]
  exact h.1

theorem ServicesWF_ids {m : List (String × awsService)} (h : ServicesWF m)
    {e : String × awsService} (he : e ∈ m) :
    (e.2.instances.map (fun i => i.2.InstanceId)).Nodup := by
  have : e.2.instances.map (fun i => i.2.InstanceId) = mapKeys e.2.instances := by
    unfold mapKeys
    apply List.map_congr_left
    intro i hi
    exact ((h.2 e he).2.2 i hi).1
  rw [this]
  exact (h.2 e he).2.1

theorem buildServices_congr (api api2 : InventoryAPI) (params : AwsRegion)
    (io : DescribeInstancesOutput)
    (h : api2 1 (filterConverter params.Denylist) = api 1 (filterConverter params.Denylist)) :
    buildServices api2 params io = buildServices api params io := by
  simp [buildServices, h]

theorem mapGet_map {β : Type} (f : β → β) (m : List (String × β)) (k : String) :
    mapGet (m.map (fun e => (e.1, f e.2))) k = (mapGet m k).map f := by
  induction m with
  | nil => rfl
  | cons a rest ih =>
    obtain ⟨x, v⟩ := a
    simp only [List.map_cons, mapGet]
    split
    · rfl
    · exact ih

theorem mapSet_map {β : Type} (f : β → β) (m : List (String × β)) (k : String) (v : β) :
    (mapSet m k v).map (fun e => (e.1, f e.2)) =
      mapSet (m.map (fun e => (e.1, f e.2))) k (f v) := by
  induction m with
  | nil => rfl
  | cons a rest ih =>
    obtain ⟨x, w⟩ := a
    simp only [List.map_cons, mapSet]
    split
    · rfl
    · simp only [List.map_cons, ih]

theorem mapModify_map {β : Type} (f g g2 : β → β) (m : List (String × β)) (k : String)
    (h : ∀ v, f (g v) = g2 (f v)) :
    (mapModify m k g).map (fun e => (e.1, f e.2)) =
      mapModify (m.map (fun e => (e.1, f e.2))) k g2 := by
  simp only [mapModify, List.map_map]
  apply List.map_congr_left
  intro e _
  simp only [Function.comp]
  split
  · simp only [h]
  · rfl

theorem mapDelete_map {β : Type} (f : β → β) (m : List (String × β)) (k : String) :
    (mapDelete m k).map (fun e => (e.1, f e.2)) =
      mapDelete (m.map (fun e => (e.1, f e.2))) k := by
  simp only [mapDelete, List.filter_map]
  rfl

theorem serviceNameFromEC2_strip (i : Instance) :
    serviceNameFromEC2 (stripInstance i) = serviceNameFromEC2 i := rfl

theorem stripServices_addInstance (params : AwsRegion) (m : List (String × awsService))
    (i : Instance) :
    stripServices (addInstance params m i) =
      addInstance params (stripServices m) (stripInstance i) := by
  unfold addInstance
  rw [serviceNameFromEC2_strip]
  cases serviceNameFromEC2 i with
  | error e => rfl
  | ok sn =>
    simp only
    have hg : mapGet (stripServices m) sn = (mapGet m sn).map stripService :=
      mapGet_map stripService m sn
    rw [hg]
    have hmod : ∀ v : awsService,
        stripService ((fun s : awsService =>
            { s with instances := mapSet s.instances i.InstanceId i }) v) =
          (fun s : awsService =>
            { s with instances :=
                mapSet s.instances (stripInstance i).InstanceId (stripInstance i) })
            (stripService v) := by
      intro v
      simp only [stripService]
      rw [mapSet_map stripInstance]
      rfl
    have key := fun mm => mapModify_map stripService
      (fun s : awsService => { s with instances := mapSet s.instances i.InstanceId i })
      (fun s : awsService =>
        { s with instances :=
            mapSet s.instances (stripInstance i).InstanceId (stripInstance i) })
      mm sn hmod
    cases mapGet m sn with
    | some s => exact key m
    | none =>
      simp only [Option.map_none']
      unfold stripServices
      rw [key, mapSet_map stripService]
      rfl

theorem stripServices_removeInstance (m : List (String × awsService)) (i : Instance) :
    stripServices (removeInstance m i) =
      removeInstance (stripServices m) (stripInstance i) := by
  unfold removeInstance
  rw [serviceNameFromEC2_strip]
  cases serviceNameFromEC2 i with
  | error e => rfl
  | ok sn =>
    simp only
    have hg : mapGet (stripServices m) sn = (mapGet m sn).map stripService :=
      mapGet_map stripService m sn
    rw [hg]
    cases mapGet m sn with
    | none => rfl
    | some s =>
      refine mapModify_map stripService _ _ m sn (fun v => ?_)
      simp only [stripService]
      rw [mapDelete_map stripInstance]
      rfl

theorem stripServices_foldl (f : List (String × awsService) → Instance →
      List (String × awsService))
    (hf : ∀ m i, stripServices (f m i) = f (stripServices m) (stripInstance i)) :
    ∀ (l : List Instance) (m : List (String × awsService)),
      stripServices (l.foldl f m) = (l.map stripInstance).foldl f (stripServices m) := by
  intro l
  induction l with
  | nil => intro m; rfl
  | cons i rest ih => intro m; simp only [List.foldl_cons, List.map_cons, ih, hf]

theorem strip_of_identity {l1 l2 : List Instance}
    (h : l1.map Instance.identity = l2.map Instance.identity) :
    l1.map stripInstance = l2.map stripInstance := by
  have hs : stripInstance = (fun t : String × Time × List Tag =>
      ({ InstanceId := t.1, LaunchTime := t.2.1, Tags := t.2.2, PrivateIpAddress := none,
         PublicIpAddress := none } : Instance)) ∘ Instance.identity := rfl
  rw [hs, ← List.map_map, ← List.map_map, h]

theorem launchTimes_strip (l : List (String × Instance)) (hash : List (String × Time)) :
    launchTimes (l.map (fun e => (e.1, stripInstance e.2))) hash = launchTimes l hash := by
  induction l generalizing hash with
  | nil => rfl
  | cons a rest ih =>
    obtain ⟨k, i⟩ := a
    simp only [List.map_cons, launchTimes]
    exact ih _

theorem foldl_instances {α : Type} (f : α → Instance → α) (m : α)
    (io : DescribeInstancesOutput) :
    io.Reservations.foldl (fun m r => r.Instances.foldl f m) m = io.instances.foldl f m := by
  simp only [DescribeInstancesOutput.instances, List.foldl_flatten, List.foldl_map]

/-- The services built from two pairs of query results with identical instances are the
same up to the addresses of their members. -/
theorem stripServices_buildServices (api api2 : InventoryAPI) (params : AwsRegion)
    (io io2 : DescribeInstancesOutput)
    (h0 : io.instances.map Instance.identity = io2.instances.map Instance.identity)
    (h1 : params.Denylist.length > 0 →
      sameInstances (api 1 (filterConverter params.Denylist))
        (api2 1 (filterConverter params.Denylist)) = true) :
    stripServices (buildServices api2 params io2) =
      stripServices (buildServices api params io) := by
  have hallow : stripServices (io2.instances.foldl (addInstance params) []) =
      stripServices (io.instances.foldl (addInstance params) []) := by
    rw [stripServices_foldl _ (stripServices_addInstance params),
      stripServices_foldl _ (stripServices_addInstance params), strip_of_identity h0]
  simp only [buildServices, foldl_instances]
  by_cases hd : params.Denylist.length > 0
  · simp only [hd, if_true]
    have h := h1 hd
    cases ha : api 1 (filterConverter params.Denylist) with
    | error e =>
      cases hb : api2 1 (filterConverter params.Denylist) with
      | error e2 => exact hallow
      | ok d2 => rw [ha, hb] at h; cases h
    | ok d =>
      cases hb : api2 1 (filterConverter params.Denylist) with
      | error e2 => rw [ha, hb] at h; cases h
      | ok d2 =>
        rw [ha, hb] at h
        simp only [sameInstances, decide_eq_true_eq] at h
        simp only
        rw [stripServices_foldl _ stripServices_removeInstance,
          stripServices_foldl _ stripServices_removeInstance, hallow, strip_of_identity h]
  · simp only [hd, if_false]
    exact hallow

theorem mapKeys_stripServices (m : List (String × awsService)) :
    mapKeys (stripServices m) = mapKeys m := by
  simp [mapKeys, stripServices, List.map_map, Function.comp]

/-- A service of a map that agrees with another map up to addresses has a partner there
with the same name and the same fingerprint. -/
theorem fingerprint_of_strip {m1 m2 : List (String × awsService)}
    (h : stripServices m2 = stripServices m1) {e2 : String × awsService} (he : e2 ∈ m2) :
    ∃ e1 ∈ m1, e1.2.name = e2.2.name ∧
      launchTimes e1.2.instances [] = launchTimes e2.2.instances [] := by
  have hm : (e2.1, stripService e2.2) ∈ stripServices m2 :=
    List.mem_map.2 ⟨e2, he, rfl⟩
  rw [h] at hm
  obtain ⟨e1, he1, heq⟩ := List.mem_map.1 hm
  have hs : stripService e1.2 = stripService e2.2 := congrArg Prod.snd heq
  have hn : (stripService e1.2).name = (stripService e2.2).name :=
    congrArg awsService.name hs
  refine ⟨e1, he1, hn, ?_⟩
  have hi : e1.2.instances.map (fun e => (e.1, stripInstance e.2)) =
      e2.2.instances.map (fun e => (e.1, stripInstance e.2)) := by
    have hi2 : (stripService e1.2).instances = (stripService e2.2).instances :=
      congrArg awsService.instances hs
    exact hi2
  rw [← launchTimes_strip e1.2.instances, ← launchTimes_strip e2.2.instances, hi]

theorem parseUintLoop_cases :
    ∀ (l : List Char) (n : Nat), (parseUintLoop l n).2 = none ∨
      parseUintLoop l n = (0, some "invalid syntax") ∨
      parseUintLoop l n = (2 ^ 64 - 1, some "value out of range") := by
  intro l
  induction l with
  | nil => intro n; exact Or.inl rfl
  | cons c rest ih =>
    intro n
    unfold parseUintLoop
    split
    · split
      · exact Or.inr (Or.inr rfl)
      · split
        · exact Or.inr (Or.inr rfl)
        · exact ih _
    · exact Or.inr (Or.inl rfl)

theorem ParseUint_cases (l : List Char) : (ParseUint l).2 = none ∨
    ParseUint l = (0, some "invalid syntax") ∨
    ParseUint l = (2 ^ 64 - 1, some "value out of range") := by
  unfold ParseUint
  split
  · exact Or.inr (Or.inl rfl)
  · exact parseUintLoop_cases l 0

theorem parseIntRange_cases (neg : Bool) (r : Nat × Option String) :
    (parseIntRange neg r).2 = none ∨
    parseIntRange neg r = (0, some "invalid syntax") ∨
    parseIntRange neg r = ((2 ^ 63 : Int) - 1, some "value out of range") ∨
    parseIntRange neg r = (-(2 ^ 63 : Int), some "value out of range") := by
  unfold parseIntRange
  split
  · exact Or.inr (Or.inl rfl)
  · split
    · exact Or.inr (Or.inr (Or.inl rfl))
    · split
      · exact Or.inr (Or.inr (Or.inr rfl))
      · split
        · exact Or.inl rfl
        · exact Or.inl rfl

/-- What `strconv.Atoi` returns: a value without error, 0 with a syntax error, or a bound
of `int64` with a range error. -/
theorem Atoi_cases (v : String) :
    (Atoi v).2 = none ∨ Atoi v = (0, some "invalid syntax") ∨
    Atoi v = ((2 ^ 63 : Int) - 1, some "value out of range") ∨
    Atoi v = (-(2 ^ 63 : Int), some "value out of range") := by
  unfold Atoi
  split
  · split
    · exact Or.inr (Or.inl rfl)
    · split
      · exact Or.inr (Or.inl rfl)
      · split
        · exact Or.inl rfl
        · exact Or.inl rfl
  · unfold ParseInt
    split
    · exact Or.inr (Or.inl rfl)
    · exact parseIntRange_cases _ _

/-- The tag loop of `instancePortFromEC2` returns its start value or what `strconv.Atoi`
gives for the value of a port tag. -/
theorem instancePortLoop_cases :
    ∀ (tags : List Tag) (acc : Int × Option String),
      instancePortLoop tags acc = acc ∨
      ∃ t ∈ tags, (t.Key = HAProxyServicePortTag ∨ t.Key = HAProxyInstancePortTag) ∧
        instancePortLoop tags acc = Atoi t.Value := by
  intro tags
  induction tags with
  | nil => intro acc; exact Or.inl rfl
  | cons t rest ih =>
    intro acc
    unfold instancePortLoop
    split
    · rename_i hk
      rcases ih (Atoi t.Value) with h | ⟨x, hx, hkx, hv⟩
      · exact Or.inr ⟨t, List.mem_cons_self _ _, Or.inl hk, h⟩
      · exact Or.inr ⟨x, List.mem_cons_of_mem _ hx, hkx, hv⟩
    · split
      · rename_i hk
        exact Or.inr ⟨t, List.mem_cons_self _ _, Or.inr hk, rfl⟩
      · rcases ih acc with h | ⟨x, hx, hkx, hv⟩
        · exact Or.inl h
        · exact Or.inr ⟨x, List.mem_cons_of_mem _ hx, hkx, hv⟩

/-- `GetServers` as one pass over the members: each member gives at most one server,
with its own address and its own port. -/
theorem GetServers_eq_filterMap (s : awsService) :
    s.GetServers = s.instances.filterMap (fun m =>
      if s.ipv4 = AwsRegionIPV4AddressPrivate then
        if ToString m.2.PrivateIpAddress = "" then none
        else some { Address := ToString m.2.PrivateIpAddress,
                    Port := (instancePortFromEC2 m.2).1 }
      else if s.ipv4 = AwsRegionIPV4AddressPublic then
        if ToString m.2.PublicIpAddress = "" then none
        else some { Address := ToString m.2.PublicIpAddress,
                    Port := (instancePortFromEC2 m.2).1 }
      else none) := by
  unfold awsService.GetServers
  by_cases h1 : s.ipv4 = AwsRegionIPV4AddressPrivate
  · rw [h1, getServersLoop_private]
    simp
  · by_cases h2 : s.ipv4 = AwsRegionIPV4AddressPublic
    · have hne : ¬ AwsRegionIPV4AddressPublic = AwsRegionIPV4AddressPrivate := by decide
      rw [h2, getServersLoop_public]
      simp [hne]
    · rw [getServersLoop_other _ h1 h2]
      simp [h1, h2]

/-! ## The claims -/

/-- C1: in a pass that opens its transaction and gets through all snapshots without a
create or update error, the transaction is committed exactly when `needsReload` (the OR
of the reload flags of `Init`, `Update` and of the successful `Delete` calls) is true;
`Reload` is called only right after the successful commit; and when `needsReload` is
false the transaction is discarded and neither commit nor reload is called. -/
theorem UpdateServices_commit_iff_needsReload (client : Client)
    (s : ServiceDiscoveryInstance) (services : List ServiceInstance)
    (h : reachesDeletion client s services) :
    ∃ id, (∃ v, Event.startTransaction v (.ok id) ∈ passEvents client s services) ∧
      ((∃ r, Event.commitTransaction id r ∈ passEvents client s services) ↔
        needsReload (passEvents client s services) = true) ∧
      (∀ x ∈ passEvents client s services, x.isCommit = true →
        needsReload (passEvents client s services) = true) ∧
      (Event.reload ∈ passEvents client s services →
        ∃ pre, passEvents client s services =
            pre ++ [.commitTransaction id none, .reload] ∧
          ∀ x ∈ pre, x.isReload = false ∧ x.isCommit = false) ∧
      (needsReload (passEvents client s services) = false →
        Event.deleteTransaction id ∈ passEvents client s services ∧
        ∀ x ∈ passEvents client s services, x.isCommit = false ∧ x.isReload = false) := by
  obtain ⟨⟨x0, hx0, hopen⟩, hnf, hnp⟩ := h
  have hshape := UpdateServices_shape client s services
  generalize passEvents client s services = evs at *
  generalize passOutcome client s services = out at *
  rcases hshape with ⟨e, rfl, -⟩ | ⟨v, e, rfl, -⟩ | ⟨v, id, L, hL, hcase⟩
  · simp at hx0; subst hx0; simp [Event.opened] at hopen
  · simp at hx0; rcases hx0 with rfl | rfl <;> simp [Event.opened] at hopen
  · rcases hcase with ⟨L0, f, e, rfl, -, hf, rfl, -⟩ | ⟨-, -, rfl⟩ |
      ⟨D, hLf, hD, ⟨hnr, r, rfl, -⟩ | ⟨hnr, rfl, -⟩⟩
    · have := hnf f (by simp)
      rw [hf] at this; cases this
    · exact absurd rfl hnp
    · have hpre : ∀ x ∈ [Event.getVersion (.ok v), .startTransaction v (.ok id)] ++ L ++ D,
          x.isReload = false ∧ x.isCommit = false := by
        intro x hx
        simp only [List.mem_append, List.mem_cons, List.mem_singleton, List.not_mem_nil,
          or_false] at hx
        rcases hx with ((rfl | rfl) | hx) | hx
        · exact ⟨rfl, rfl⟩
        · exact ⟨rfl, rfl⟩
        · exact ⟨(loopCall_facts (hL x hx)).2.2.2.1, (loopCall_facts (hL x hx)).2.2.1⟩
        · exact ⟨(deletionCall_facts (hD x hx)).2.2.2.1, (deletionCall_facts (hD x hx)).2.2.1⟩
      have hnr' : needsReload ([Event.getVersion (.ok v), .startTransaction v (.ok id)] ++
          L ++ D ++ [.commitTransaction id r] ++ (if r = none then [.reload] else [])) =
          true := by
        rw [needsReload_append, needsReload_append, List.append_assoc, needsReload_append,
          hnr]
        simp
      refine ⟨id, ⟨v, by simp⟩, ⟨fun _ => hnr', fun _ => ⟨r, by simp⟩⟩, fun _ _ _ => hnr',
        ?_, fun hfalse => ?_⟩
      · intro hmem
        cases r with
        | none => exact ⟨_, by simp, hpre⟩
        | some err =>
          exfalso
          have hif : (if (some err : Option String) = none then [Event.reload] else []) =
              [] := by simp
          rw [hif, List.append_nil, List.mem_append, List.mem_singleton] at hmem
          rcases hmem with h1 | h1
          · have := (hpre _ h1).1
            simp [Event.isReload] at this
          · cases h1
      · rw [hnr'] at hfalse; cases hfalse
    · have hnr' : needsReload ([Event.getVersion (.ok v), .startTransaction v (.ok id)] ++
          L ++ D ++ [.deleteTransaction id]) = false := by
        rw [needsReload_append, List.append_assoc, needsReload_append, hnr]
        simp [needsReload, Event.reloadFlag]
      have hall : ∀ x ∈ [Event.getVersion (.ok v), .startTransaction v (.ok id)] ++ L ++ D ++
          [.deleteTransaction id], x.isCommit = false ∧ x.isReload = false := by
        intro x hx
        simp only [List.mem_append, List.mem_cons, List.mem_singleton, List.not_mem_nil,
          or_false] at hx
        rcases hx with (((rfl | rfl) | hx) | hx) | rfl
        · exact ⟨rfl, rfl⟩
        · exact ⟨rfl, rfl⟩
        · exact ⟨(loopCall_facts (hL x hx)).2.2.1, (loopCall_facts (hL x hx)).2.2.2.1⟩
        · exact ⟨(deletionCall_facts (hD x hx)).2.2.1, (deletionCall_facts (hD x hx)).2.2.2.1⟩
        · exact ⟨rfl, rfl⟩
      refine ⟨id, ⟨v, by simp⟩, ⟨fun ⟨r, hr⟩ => ?_, fun ht => ?_⟩, fun x hx hc => ?_, ?_,
        fun _ => ⟨by simp, hall⟩⟩
      · have := (hall _ hr).1
        simp [Event.isCommit] at this
      · rw [hnr'] at ht; cases ht
      · rw [(hall x hx).1] at hc; cases hc
      · intro hmem
        have := (hall _ hmem).2
        simp [Event.isReload] at this

/-- C1, at a store where every call succeeds, the empty engine and the snapshot
`web-80`: the pass reaches its deletion step and the commit rule holds. -/
theorem UpdateServices_commit_iff_needsReload_witness :
    reachesDeletion okClient emptyEngine [web80] ∧
    ∃ id, (∃ v, Event.startTransaction v (.ok id) ∈ passEvents okClient emptyEngine [web80]) ∧
      ((∃ r, Event.commitTransaction id r ∈ passEvents okClient emptyEngine [web80]) ↔
        needsReload (passEvents okClient emptyEngine [web80]) = true) ∧
      (∀ x ∈ passEvents okClient emptyEngine [web80], x.isCommit = true →
        needsReload (passEvents okClient emptyEngine [web80]) = true) ∧
      (Event.reload ∈ passEvents okClient emptyEngine [web80] →
        ∃ pre, passEvents okClient emptyEngine [web80] =
            pre ++ [.commitTransaction id none, .reload] ∧
          ∀ x ∈ pre, x.isReload = false ∧ x.isCommit = false) ∧
      (needsReload (passEvents okClient emptyEngine [web80]) = false →
        Event.deleteTransaction id ∈ passEvents okClient emptyEngine [web80] ∧
        ∀ x ∈ passEvents okClient emptyEngine [web80],
          x.isCommit = false ∧ x.isReload = false) :=
  ⟨by unfold reachesDeletion; decide,
    UpdateServices_commit_iff_needsReload okClient emptyEngine [web80]
      (by unfold reachesDeletion; decide)⟩

/-- C2: a pass opens at most one transaction; when the pass returns, a transaction it
opened has been closed exactly once, by one `CommitTransaction` or one
`DeleteTransaction` call on its id (a commit that fails is that one call: no discard
follows it); and when a create or update call fails the transaction is discarded and no
commit is called.  A pass that panics does not return. -/
theorem UpdateServices_transaction_closed_once (client : Client)
    (s : ServiceDiscoveryInstance) (services : List ServiceInstance) :
    ((passEvents client s services).filterMap Event.opened).length ≤ 1 ∧
    (∀ err id, passOutcome client s services = .returned err →
      id ∈ (passEvents client s services).filterMap Event.opened →
      (passEvents client s services).filterMap Event.closes = [id]) ∧
    (∀ x ∈ passEvents client s services, x.failure.isSome = true →
      ∃ id, (passEvents client s services).filterMap Event.opened = [id] ∧
        (passEvents client s services).filterMap Event.closes = [id] ∧
        Event.deleteTransaction id ∈ passEvents client s services ∧
        ∀ y ∈ passEvents client s services, y.isCommit = false) := by
  have hshape := UpdateServices_shape client s services
  generalize passEvents client s services = evs at *
  generalize passOutcome client s services = out at *
  rcases hshape with ⟨e, rfl, rfl⟩ | ⟨v, e, rfl, rfl⟩ | ⟨v, id, L, hL, hcase⟩
  · simp [Event.opened, Event.failure]
  · simp [Event.opened, Event.failure]
  · have hLo : L.filterMap Event.opened = [] :=
      filterMap_none _ _ (fun x hx => (loopCall_facts (hL x hx)).1)
    have hLc : L.filterMap Event.closes = [] :=
      filterMap_none _ _ (fun x hx => (loopCall_facts (hL x hx)).2.1)
    rcases hcase with ⟨L0, f, e, hLeq, hL0, hf, rfl, rfl⟩ | ⟨hLf, rfl, rfl⟩ |
      ⟨D, hLf, hD, ⟨hnr, r, rfl, rfl⟩ | ⟨hnr, rfl, rfl⟩⟩
    · refine ⟨by simp [List.filterMap_append, hLo, Event.opened], ?_, ?_⟩
      · intro err id' _ hid
        simp [List.filterMap_append, hLo, Event.opened] at hid
        subst hid
        simp [List.filterMap_append, hLc, Event.closes]
      · intro x _ _
        refine ⟨id, by simp [List.filterMap_append, hLo, Event.opened],
          by simp [List.filterMap_append, hLc, Event.closes], by simp, ?_⟩
        intro y hy
        simp only [List.mem_append, List.mem_cons, List.mem_singleton, List.not_mem_nil,
          or_false] at hy
        rcases hy with ((rfl | rfl) | hy) | rfl
        · rfl
        · rfl
        · exact (loopCall_facts (hL y hy)).2.2.1
        · rfl
    · refine ⟨by simp [List.filterMap_append, hLo, Event.opened], ?_, ?_⟩
      · intro err id' hout
        cases hout
      · intro x hx hfail
        exfalso
        simp only [List.mem_append, List.mem_cons, List.mem_singleton, List.not_mem_nil,
          or_false] at hx
        rcases hx with (rfl | rfl) | hx
        · simp [Event.failure] at hfail
        · simp [Event.failure] at hfail
        · rw [hLf x hx] at hfail; cases hfail
    · have hDo : D.filterMap Event.opened = [] :=
        filterMap_none _ _ (fun x hx => (deletionCall_facts (hD x hx)).1)
      have hDc : D.filterMap Event.closes = [] :=
        filterMap_none _ _ (fun x hx => (deletionCall_facts (hD x hx)).2.1)
      refine ⟨?_, ?_, ?_⟩
      · cases r <;> simp [List.filterMap_append, hLo, hDo, Event.opened]
      · intro err id' _ hid
        have : id' = id := by
          cases r <;> simpa [List.filterMap_append, hLo, hDo, Event.opened] using hid
        subst this
        cases r <;> simp [List.filterMap_append, hLc, hDc, Event.closes]
      · intro x hx hfail
        exfalso
        have hx' : x ∈ [Event.getVersion (.ok v), .startTransaction v (.ok id)] ∨ x ∈ L ∨
            x ∈ D ∨ x = .commitTransaction id r ∨ x = .reload := by
          cases r <;>
            simp only [List.mem_append, List.mem_cons, List.mem_singleton, List.not_mem_nil,
              or_false, if_true, if_false, reduceCtorEq] at hx ⊢ <;> tauto
        rcases hx' with hx' | hx' | hx' | rfl | rfl
        · simp only [List.mem_cons, List.mem_singleton, List.not_mem_nil, or_false] at hx'
          rcases hx' with rfl | rfl <;> simp [Event.failure] at hfail
        · rw [hLf x hx'] at hfail; cases hfail
        · rw [(deletionCall_facts (hD x hx')).2.2.2.2.2.1] at hfail; cases hfail
        · simp [Event.failure] at hfail
        · simp [Event.failure] at hfail
    · have hDo : D.filterMap Event.opened = [] :=
        filterMap_none _ _ (fun x hx => (deletionCall_facts (hD x hx)).1)
      have hDc : D.filterMap Event.closes = [] :=
        filterMap_none _ _ (fun x hx => (deletionCall_facts (hD x hx)).2.1)
      refine ⟨by simp [List.filterMap_append, hLo, hDo, Event.opened], ?_, ?_⟩
      · intro err id' _ hid
        simp [List.filterMap_append, hLo, hDo, Event.opened] at hid
        subst hid
        simp [List.filterMap_append, hLc, hDc, Event.closes]
      · intro x hx hfail
        exfalso
        simp only [List.mem_append, List.mem_cons, List.mem_singleton, List.not_mem_nil,
          or_false] at hx
        rcases hx with (((rfl | rfl) | hx) | hx) | rfl
        · simp [Event.failure] at hfail
        · simp [Event.failure] at hfail
        · rw [hLf x hx] at hfail; cases hfail
        · rw [(deletionCall_facts (hD x hx)).2.2.2.2.2.1] at hfail; cases hfail
        · simp [Event.failure] at hfail

/-- C2, at a store where every `Update` fails, the empty engine and the snapshot
`web-80`: the pass returns, its one transaction is closed once, by the discard. -/
theorem UpdateServices_transaction_closed_once_witness :
    passOutcome updateFailsClient emptyEngine [web80] = .returned (some "update failed") ∧
    "tx-1" ∈ (passEvents updateFailsClient emptyEngine [web80]).filterMap Event.opened ∧
    (passEvents updateFailsClient emptyEngine [web80]).filterMap Event.closes = ["tx-1"] ∧
    (Event.update "web-80" "aws-eu-prod-web-80" "tx-1" web80.GetServers
        (.error "update failed")).failure.isSome = true ∧
    ∃ id, (passEvents updateFailsClient emptyEngine [web80]).filterMap Event.opened = [id] ∧
      (passEvents updateFailsClient emptyEngine [web80]).filterMap Event.closes = [id] ∧
      Event.deleteTransaction id ∈ passEvents updateFailsClient emptyEngine [web80] ∧
      ∀ y ∈ passEvents updateFailsClient emptyEngine [web80], y.isCommit = false :=
  ⟨by decide, by decide,
    (UpdateServices_transaction_closed_once updateFailsClient emptyEngine [web80]).2.1
      (some "update failed") "tx-1" (by decide) (by decide),
    by decide,
    (UpdateServices_transaction_closed_once updateFailsClient emptyEngine [web80]).2.2
      (.update "web-80" "aws-eu-prod-web-80" "tx-1" web80.GetServers
        (.error "update failed")) (by decide) (by decide)⟩

/-- C3 as stated fails: on the empty engine, with a store whose `Update` fails, the pass
for the snapshot `web-80` returns the error of `Update`, and `web-80`, created earlier
in the pass, is left in the tracked map. -/
theorem UpdateServices_failure_leaves_created_counterexample :
    (∃ x ∈ passEvents updateFailsClient emptyEngine [web80],
      x.failure = some "update failed") ∧
    passOutcome updateFailsClient emptyEngine [web80] = .returned (some "update failed") ∧
    mapKeys emptyEngine.services = [] ∧
    mapKeys (passState updateFailsClient emptyEngine [web80]).services = ["web-80"] := by
  decide

/-- C3, amended: a pass in which a create or update call fails returns that error, and
the tracked map is not rolled back: the names tracked after the pass are the names
tracked before it followed by the names of the services the successful `Init` calls of
the pass created. -/
theorem UpdateServices_failure_not_rolled_back (client : Client)
    (s : ServiceDiscoveryInstance) (services : List ServiceInstance) (x : Event)
    (e : String) (hx : x ∈ passEvents client s services) (hf : x.failure = some e) :
    passOutcome client s services = .returned (some e) ∧
    mapKeys (passState client s services).services =
      mapKeys s.services ++ (passEvents client s services).filterMap Event.created := by
  obtain ⟨v, id, s2, hloop, hrun, hev⟩ := failure_run hx hf
  obtain ⟨⟨T, hT, hkeys⟩, -⟩ := updateLoop_services client _ _ _ _ _ hloop
  refine ⟨by simp [passOutcome, hrun], ?_⟩
  simp only [passState, hrun, hev, hkeys, mapKeys_markForDeletion]
  simp only [markForDeletion] at hT
  rw [hT]
  simp [List.filterMap_append, Event.created, List.drop_append]

/-- C3, amended, at a store where every `Update` fails, the empty engine and the
snapshot `web-80`. -/
theorem UpdateServices_failure_not_rolled_back_witness :
    Event.update "web-80" "aws-eu-prod-web-80" "tx-1" web80.GetServers
        (.error "update failed") ∈ passEvents updateFailsClient emptyEngine [web80] ∧
    passOutcome updateFailsClient emptyEngine [web80] = .returned (some "update failed") ∧
    mapKeys (passState updateFailsClient emptyEngine [web80]).services =
      mapKeys emptyEngine.services ++
        (passEvents updateFailsClient emptyEngine [web80]).filterMap Event.created :=
  ⟨by decide,
    UpdateServices_failure_not_rolled_back updateFailsClient emptyEngine [web80]
      (.update "web-80" "aws-eu-prod-web-80" "tx-1" web80.GetServers
        (.error "update failed")) "update failed" (by decide) rfl⟩

/-- C4, the failing input: on the empty engine a snapshot `web-80` that the policy
includes, that is not tracked and has `changed = false` makes `UpdateServices`
dereference the missing map entry: the pass panics after opening its transaction,
without a `NewService`, `Init` or `Update` call and without closing the transaction. -/
theorem UpdateServices_new_unchanged_nil_dereference :
    serviceNotTracked emptyEngine web80Unchanged.GetName = false ∧
    mapGet emptyEngine.services web80Unchanged.GetName = none ∧
    web80Unchanged.Changed = false ∧
    passOutcome okClient emptyEngine [web80Unchanged] = .nilDereference ∧
    passEvents okClient emptyEngine [web80Unchanged] =
      [.getVersion (.ok 1), .startTransaction 1 (.ok "tx-1")] := by
  decide

/-- C5 as stated fails: with `web-80` tracked and a store whose first `Delete` fails, the
pass for the list `api-443` returns no error and leaves `web-80` flagged; the second
pass on the same list with `changed = false` calls `Delete` for `web-80` again, commits
and reloads. -/
theorem idempotence_delete_retry_counterexample :
    passOutcome deleteFailsOnceClient trackedEngine [api443] = .returned none ∧
    (passEvents deleteFailsOnceClient
      (passState deleteFailsOnceClient trackedEngine [api443])
      ([api443].map (fun x => { x with Changed := false }))).filterMap Event.deleteCall =
        ["web-80"] ∧
    Event.commitTransaction "tx-1" none ∈ passEvents deleteFailsOnceClient
      (passState deleteFailsOnceClient trackedEngine [api443])
      ([api443].map (fun x => { x with Changed := false })) ∧
    Event.reload ∈ passEvents deleteFailsOnceClient
      (passState deleteFailsOnceClient trackedEngine [api443])
      ([api443].map (fun x => { x with Changed := false })) := by
  decide

/-- C5, amended: if a first pass on a snapshot list returns without error and every
`Delete` call of that pass succeeded, then a second pass on the same list with every
`changed` flag false makes no call on a service handle and no `NewService` call, does
not commit and does not reload, does not panic, and leaves the tracked map, whose
pending-deletion flags are all clear, as the first pass left it. -/
theorem UpdateServices_idempotent (client client2 : Client) (s : ServiceDiscoveryInstance)
    (services : List ServiceInstance)
    (h1 : passOutcome client s services = .returned none)
    (h2 : ∀ x ∈ passEvents client s services,
      x.deleteCall.isSome = true → x.deleted.isSome = true) :
    (∀ x ∈ passEvents client2 (passState client s services)
        (services.map (fun x => { x with Changed := false })),
      x.isBackendCall = false ∧ x.isCommit = false ∧ x.isReload = false) ∧
    (passState client2 (passState client s services)
        (services.map (fun x => { x with Changed := false }))).services =
      (passState client s services).services ∧
    (∀ e ∈ (passState client s services).services, e.2.deleted = false) ∧
    passOutcome client2 (passState client s services)
        (services.map (fun x => { x with Changed := false })) ≠ .nilDereference := by
  obtain ⟨hK, hN⟩ := first_pass_tracked h1 h2
  have hinc := includedNames_unchanged s (passState client s services)
    (passState_params client s services) services
  obtain ⟨a, b, c⟩ := second_pass_quiet client2 (passState client s services)
    (services.map (fun x => { x with Changed := false }))
    (by simp) (by rw [hinc]; exact hK) (by rw [hinc]; exact hN)
  exact ⟨a, b, fun e he => (hK e he).1, c⟩

/-- C5, amended, at a store where every call succeeds, the empty engine and the
snapshot `web-80`. -/
theorem UpdateServices_idempotent_witness :
    passOutcome okClient emptyEngine [web80] = .returned none ∧
    (∀ x ∈ passEvents okClient emptyEngine [web80],
      x.deleteCall.isSome = true → x.deleted.isSome = true) ∧
    (∀ x ∈ passEvents okClient (passState okClient emptyEngine [web80])
        ([web80].map (fun x => { x with Changed := false })),
      x.isBackendCall = false ∧ x.isCommit = false ∧ x.isReload = false) ∧
    (passState okClient (passState okClient emptyEngine [web80])
        ([web80].map (fun x => { x with Changed := false }))).services =
      (passState okClient emptyEngine [web80]).services ∧
    (∀ e ∈ (passState okClient emptyEngine [web80]).services, e.2.deleted = false) ∧
    passOutcome okClient (passState okClient emptyEngine [web80])
        ([web80].map (fun x => { x with Changed := false })) ≠ .nilDereference :=
  ⟨by decide, by decide,
    UpdateServices_idempotent okClient okClient emptyEngine [web80] (by decide) (by decide)⟩

/-- C6: `serviceNotTracked` reports a service as excluded exactly when the whitelist is
non-empty and does not list the name, or the whitelist is empty and the blacklist lists
the name; with both lists empty every name is included, and with a non-empty whitelist
the blacklist does not matter. -/
theorem serviceNotTracked_policy (s : ServiceDiscoveryInstance) (service : String)
    (w : String) (whitelist blacklist blacklist2 : List String) :
    (serviceNotTracked s service = true ↔
      (s.params.Whitelist ≠ [] ∧ service ∉ s.params.Whitelist) ∨
      (s.params.Whitelist = [] ∧ service ∈ s.params.Blacklist)) ∧
    serviceNotTracked
      { s with params := { s.params with Whitelist := [], Blacklist := [] } } service =
        false ∧
    serviceNotTracked
      { s with params := { s.params with Whitelist := w :: whitelist,
                                         Blacklist := blacklist } } service =
      serviceNotTracked
        { s with params := { s.params with Whitelist := w :: whitelist,
                                           Blacklist := blacklist2 } } service := by
  refine ⟨serviceNotTracked_iff s service, ?_, ?_⟩
  · simp [serviceNotTracked, blacklistLoop]
  · simp [serviceNotTracked]

/-- C7 as stated fails: with the whitelist `api-443` and `web-80` tracked, a pass whose
`Update` for `api-443` fails is aborted before the deletion step, and `Delete` is not
called for the excluded service `web-80`. -/
theorem whitelist_excluded_not_deleted_counterexample :
    whitelistEngine.params.Whitelist ≠ [] ∧
    web80.GetName ∉ whitelistEngine.params.Whitelist ∧
    web80.GetName ∈ mapKeys whitelistEngine.services ∧
    (passEvents updateFailsClient whitelistEngine [api443, web80]).filterMap
      Event.deleteCall = [] := by
  decide

/-- C7, amended: in a pass run with a non-empty whitelist, no `NewService`, `Init` or
`Update` call is made for a service whose name is not in the whitelist; and if that
service was tracked before the pass and the pass reaches its deletion step (the
transaction opened, no create or update call failed, no panic), `Delete` is called for
it during the pass. -/
theorem whitelist_excluded_service (client : Client) (s : ServiceDiscoveryInstance)
    (services : List ServiceInstance) (n : String)
    (hw : s.params.Whitelist ≠ []) (hn : n ∉ s.params.Whitelist) :
    (∀ x ∈ passEvents client s services, x.service = some n → x.isCreateUpdate = false) ∧
    (n ∈ mapKeys s.services → reachesDeletion client s services →
      ∃ b t r, Event.delete n b t r ∈ passEvents client s services) := by
  have hex : serviceNotTracked s n = true :=
    (serviceNotTracked_iff s n).2 (Or.inl ⟨hw, hn⟩)
  have hnot : n ∉ includedNames s services := not_included_of_excluded hex
  refine ⟨?_, ?_⟩
  · intro x hx hs
    by_contra hcu
    have hcu' : x.isCreateUpdate = true := by simpa using hcu
    obtain ⟨m, hm, hsm⟩ := createUpdate_included client s services x hx hcu'
    rw [hs] at hsm
    cases hsm
    exact hnot hm
  · intro hk hr
    have hmem : n ∈ (passEvents client s services).filterMap Event.deleteCall := by
      rw [deletion_calls hr]
      simp only [mapKeys, List.mem_map] at hk
      obtain ⟨e, he, rfl⟩ := hk
      exact List.mem_map_of_mem Prod.fst (List.mem_filter.2 ⟨he, by simpa using hnot⟩)
    obtain ⟨x, hx, hxd⟩ := List.mem_filterMap.1 hmem
    cases x <;> simp [Event.deleteCall] at hxd
    subst hxd
    exact ⟨_, _, _, hx⟩

/-- C7, amended, at the whitelist `api-443`, `web-80` tracked, and a store where every
call succeeds: `web-80` gets no create or update call and is deleted. -/
theorem whitelist_excluded_service_witness :
    whitelistEngine.params.Whitelist ≠ [] ∧
    "web-80" ∉ whitelistEngine.params.Whitelist ∧
    "web-80" ∈ mapKeys whitelistEngine.services ∧
    reachesDeletion okClient whitelistEngine [api443, web80] ∧
    (∀ x ∈ passEvents okClient whitelistEngine [api443, web80],
      x.service = some "web-80" → x.isCreateUpdate = false) ∧
    ∃ b t r, Event.delete "web-80" b t r ∈ passEvents okClient whitelistEngine [api443, web80] :=
  ⟨by decide, by decide, by decide, by unfold reachesDeletion; decide,
    (whitelist_excluded_service okClient whitelistEngine [api443, web80] "web-80"
      (by decide) (by decide)).1,
    (whitelist_excluded_service okClient whitelistEngine [api443, web80] "web-80"
      (by decide) (by decide)).2 (by decide) (by unfold reachesDeletion; decide)⟩

/-- C8: the deletion step `removeDeleted` calls `Delete` once for each tracked service
that is flagged pending-deletion and for no other; with distinct keys a tracked service
leaves the map exactly when its `Delete` succeeds; the step returns `true` exactly when
some `Delete` succeeded; a failed `Delete` leaves the entry tracked and flagged.  In a
pass that reaches its deletion step the services deleted are those tracked before the
pass that no included snapshot names, the pass does not panic, and an error it returns
is the error of the commit, not of a `Delete`. -/
theorem removeDeleted_deletes_flagged (client : Client) (s t : ServiceDiscoveryInstance)
    (services : List ServiceInstance) :
    (deletionEvents client s).filterMap Event.deleteCall =
      (s.services.filter (fun e => e.2.deleted)).map Prod.fst ∧
    ((mapKeys s.services).Nodup → ∀ n ∈ mapKeys s.services,
      (n ∉ mapKeys (removeDeleted client s).2.services ↔
        n ∈ (deletionEvents client s).filterMap Event.deleted)) ∧
    ((removeDeleted client s).1 = true ↔
      ∃ x ∈ deletionEvents client s, x.deleted.isSome = true) ∧
    (∀ n b tx e, Event.delete n b tx (some e) ∈ deletionEvents client s →
      ∃ c, (n, c) ∈ (removeDeleted client s).2.services ∧ c.deleted = true) ∧
    (reachesDeletion client t services →
      (passEvents client t services).filterMap Event.deleteCall =
        (t.services.filter (fun e => decide (e.1 ∉ includedNames t services))).map
          Prod.fst ∧
      passOutcome client t services ≠ .nilDereference ∧
      ∀ e, passOutcome client t services = .returned (some e) →
        ∃ id, Event.commitTransaction id (some e) ∈ passEvents client t services) := by
  obtain ⟨D, e1, e2, e3, e4, e5, e6, e7, -⟩ := removeDeletedLoop_spec client
    s.transactionID s.services false s.trace
  have hD : deletionEvents client s = D := by
    simp [deletionEvents, removeDeleted, e1]
  rw [hD]
  refine ⟨e4, ?_, ?_, ?_, ?_⟩
  · intro hnd n hn
    exact ⟨fun h => e6 n hn h, fun h => (e5 n h).2 hnd⟩
  · have : (removeDeleted client s).1 = needsReload D := by
      simpa [removeDeleted] using e3
    rw [this]
    simp only [needsReload, List.any_eq_true]
    constructor
    · rintro ⟨x, hx, hf⟩
      exact ⟨x, hx, by rw [← deletionCall_reloadFlag (e2 x hx)]; exact hf⟩
    · rintro ⟨x, hx, hf⟩
      exact ⟨x, hx, by rw [deletionCall_reloadFlag (e2 x hx)]; exact hf⟩
  · intro n b tx e hmem
    exact e7 n b tx e hmem
  · intro hr
    obtain ⟨v, id, rl, s2, hst, hloop⟩ := reachesDeletion_run hr
    obtain ⟨L, D2, tail, hev, -, -, -, -, -, -, hout, hnp⟩ := done_events hst hloop
    refine ⟨deletion_calls hr, hnp, fun e he => ⟨id, ?_⟩⟩
    rw [hev]
    exact List.mem_append_right _ (hout e he)

/-- C8, at an engine with two flagged services and a store whose first `Delete` fails,
and at a pass of a store where every call succeeds on an engine that tracks `web-80`
with no snapshot. -/
theorem removeDeleted_deletes_flagged_witness :
    (mapKeys flaggedEngine.services).Nodup ∧
    reachesDeletion okClient trackedEngine [] ∧
    (∀ n ∈ mapKeys flaggedEngine.services,
      (n ∉ mapKeys (removeDeleted deleteFailsOnceClient flaggedEngine).2.services ↔
        n ∈ (deletionEvents deleteFailsOnceClient flaggedEngine).filterMap Event.deleted)) ∧
    ((passEvents okClient trackedEngine []).filterMap Event.deleteCall =
        (trackedEngine.services.filter
          (fun e => decide (e.1 ∉ includedNames trackedEngine []))).map Prod.fst ∧
      passOutcome okClient trackedEngine [] ≠ .nilDereference ∧
      ∀ e, passOutcome okClient trackedEngine [] = .returned (some e) →
        ∃ id, Event.commitTransaction id (some e) ∈ passEvents okClient trackedEngine []) :=
  ⟨by decide, by unfold reachesDeletion; decide,
    (removeDeleted_deletes_flagged deleteFailsOnceClient flaggedEngine trackedEngine
      []).2.1 (by decide),
    (removeDeleted_deletes_flagged okClient flaggedEngine trackedEngine []).2.2.2.2
      (by unfold reachesDeletion; decide)⟩

/-- C9: the Change Detector sets `changed` exactly when the member count differs from
the size of the retained fingerprint, or a member's id is missing from the fingerprint,
or a member's launch time differs from the retained one.  Hence, against the
fingerprint the driver retains for a member set (distinct instance ids), the same
members give `changed = false`, and the members with the launch time of one of them
altered give `changed = true`. -/
theorem serviceChanged_iff_differs (state : List (String × List (String × Time)))
    (s : awsService) :
    (serviceChanged state s = true ↔
      ((mapGet state s.name).getD []).length ≠ s.instances.length ∨
      (∃ m ∈ s.instances, mapGet ((mapGet state s.name).getD []) m.2.InstanceId = none) ∨
      (∃ m ∈ s.instances, ∃ v,
        mapGet ((mapGet state s.name).getD []) m.2.InstanceId = some v ∧
          v ≠ m.2.LaunchTime)) ∧
    ((s.instances.map (fun m => m.2.InstanceId)).Nodup →
      serviceChanged (mapSet state s.name (launchTimes s.instances [])) s = false ∧
      ∀ pre m post t, s.instances = pre ++ m :: post → t ≠ m.2.LaunchTime →
        serviceChanged (mapSet state s.name (launchTimes s.instances []))
          { s with instances := pre ++ (m.1, { m.2 with LaunchTime := t }) :: post } =
            true) := by
  refine ⟨?_, ?_⟩
  · unfold serviceChanged
    by_cases hlen : ((mapGet state s.name).getD []).length = s.instances.length
    · simp only [hlen, ne_eq, not_true_eq_false, if_false, false_or, changedLoop_iff]
      constructor
      · rintro ⟨m, hm, h | h⟩
        · exact Or.inl ⟨m, hm, h⟩
        · exact Or.inr ⟨m, hm, h⟩
      · rintro (⟨m, hm, h⟩ | ⟨m, hm, h⟩)
        · exact ⟨m, hm, Or.inl h⟩
        · exact ⟨m, hm, Or.inr h⟩
    · simp [hlen]
  · intro hnd
    have hfp : launchTimes s.instances [] =
        s.instances.map (fun m => (m.2.InstanceId, m.2.LaunchTime)) := by
      rw [launchTimes_eq s.instances [] hnd (by simp [mapKeys])]
      simp
    refine ⟨?_, ?_⟩
    · rw [← Bool.not_eq_true]
      intro hch
      unfold serviceChanged at hch
      rw [mapGet_mapSet_self, hfp] at hch
      simp only [Option.getD_some, List.length_map, ne_eq, not_true_eq_false, if_false,
        changedLoop_iff] at hch
      obtain ⟨m, hm, h | ⟨v, h, hv⟩⟩ := hch
      · rw [mapGet_fingerprint s.instances m hnd hm] at h; cases h
      · rw [mapGet_fingerprint s.instances m hnd hm] at h
        exact hv (Option.some.inj h).symm
    · intro pre m post t heq ht
      unfold serviceChanged
      simp only
      rw [mapGet_mapSet_self, hfp]
      simp only [Option.getD_some, List.length_map, heq, List.length_append,
        List.length_cons, ne_eq, not_true_eq_false, if_false, changedLoop_iff]
      refine ⟨(m.1, { m.2 with LaunchTime := t }), by simp, Or.inr ⟨m.2.LaunchTime, ?_, ?_⟩⟩
      · have := mapGet_fingerprint s.instances m hnd (by rw [heq]; simp)
        rw [heq] at this
        exact this
      · exact fun e => ht e.symm

/-- C9, at the service `web-80` with the members `i-1` and `i-2`. -/
theorem serviceChanged_iff_differs_witness :
    (web80Service.instances.map (fun m => m.2.InstanceId)).Nodup ∧
    serviceChanged (mapSet [] web80Service.name (launchTimes web80Service.instances []))
      web80Service = false ∧
    ∀ pre m post t, web80Service.instances = pre ++ m :: post → t ≠ m.2.LaunchTime →
      serviceChanged (mapSet [] web80Service.name (launchTimes web80Service.instances []))
        { web80Service with
          instances := pre ++ (m.1, { m.2 with LaunchTime := t }) :: post } = true :=
  ⟨by decide, (serviceChanged_iff_differs [] web80Service).2 (by decide)⟩

/-- C10, the failing input: on the first cycle of a new driver, an instance of `web-80`
that both the allow query and the deny query return leaves the service `web-80` with no
member; the Change Detector compares the empty member set with the missing fingerprint
and hands the service to the engine with `changed = false`, and the engine panics on
the untracked, unchanged service. -/
theorem updateServices_first_cycle_empty_service_unchanged :
    (newAWSRegionInstance denyParams []).state = [] ∧
    discoveredServices deniedInventory (newAWSRegionInstance denyParams []) =
      some [{ name := "web-80", region := "eu", instanceName := "prod",
              ipv4 := AwsRegionIPV4AddressPrivate, instances := [], changed := false }] ∧
    (updateServices deniedInventory okClient (newAWSRegionInstance denyParams [])).1 =
      .nilDereference := by
  decide

/-- C11, the failing input: the cycles `web-80 discovered`, `nothing discovered`,
`web-80 discovered again with the same member` report `web-80` with `changed = false`
in the third cycle, because the fingerprint of the first cycle is still retained, while
on a new driver the cycles `nothing discovered`, `web-80 discovered` report it with
`changed = true`: the two histories agree on the preceding and the current cycle.  In
the first history the engine deleted `web-80` in the second cycle and panics on the
unchanged, untracked service in the third. -/
theorem updateServices_stale_fingerprint :
    (updateServices webInventory okClient (newAWSRegionInstance plainParams [])).1 =
      .returned none ∧
    (updateServices emptyInventory okClient
      (updateServices webInventory okClient (newAWSRegionInstance plainParams [])).2).1 =
      .returned none ∧
    discoveredServices emptyInventory
      (updateServices webInventory okClient (newAWSRegionInstance plainParams [])).2 =
      some [] ∧
    (discoveredServices webInventory
      (updateServices emptyInventory okClient
        (updateServices webInventory okClient
          (newAWSRegionInstance plainParams [])).2).2).map
        (fun l => l.map (fun s => (s.name, s.changed))) = some [("web-80", false)] ∧
    discoveredServices emptyInventory (newAWSRegionInstance plainParams []) = some [] ∧
    (discoveredServices webInventory
      (updateServices emptyInventory okClient (newAWSRegionInstance plainParams [])).2).map
        (fun l => l.map (fun s => (s.name, s.changed))) = some [("web-80", true)] ∧
    (updateServices webInventory okClient
      (updateServices emptyInventory okClient
        (updateServices webInventory okClient
          (newAWSRegionInstance plainParams [])).2).2).1 = .nilDereference := by
  decide

/-- C12: when the deny query is made and succeeds, no service built by `updateServices`
has a member with the instance id and the tags of an instance of the deny result, so its
servers are computed from the other members only; and an instance of the allow result
that resolves to a service key and whose id no instance of the deny result carries is
kept: the service is there and has a member under that id. -/
theorem deny_list_exclusion (api : InventoryAPI) (params : AwsRegion)
    (io deny : DescribeInstancesOutput) (hlen : params.Denylist.length > 0)
    (hdeny : api 1 (filterConverter params.Denylist) = .ok deny) :
    (∀ r ∈ deny.Reservations, ∀ d ∈ r.Instances, ∀ e ∈ buildServices api params io,
      (∀ i ∈ e.2.instances, ¬ (i.2.InstanceId = d.InstanceId ∧ i.2.Tags = d.Tags)) ∧
      e.2.GetServers = getServersLoop e.2.ipv4
        (e.2.instances.filter
          (fun i => decide (¬ (i.2.InstanceId = d.InstanceId ∧ i.2.Tags = d.Tags)))) []) ∧
    (∀ r ∈ io.Reservations, ∀ a ∈ r.Instances, ∀ sn, serviceNameFromEC2 a = .ok sn →
      (∀ r2 ∈ deny.Reservations, ∀ d ∈ r2.Instances, d.InstanceId ≠ a.InstanceId) →
      ∃ s, (sn, s) ∈ buildServices api params io ∧ a.InstanceId ∈ mapKeys s.instances) := by
  have hwf := ServicesWF_buildServices api params io
  have hb : buildServices api params io =
      deny.Reservations.foldl (fun m r => r.Instances.foldl removeInstance m)
        (io.Reservations.foldl (fun m r => r.Instances.foldl (addInstance params) m) []) := by
    simp [buildServices, hlen, hdeny]
  rw [hb] at hwf ⊢
  refine ⟨?_, ?_⟩
  · intro r hr d hd e he
    have hden : Denied d (deny.Reservations.foldl
        (fun m r => r.Instances.foldl removeInstance m)
        (io.Reservations.foldl (fun m r => r.Instances.foldl (addInstance params) m) [])) :=
      nested_establish removeInstance (Denied d) d (Denied_removeInstance_self d)
        (fun m x h => Denied_removeInstance d x m h) _ _ r hr hd
    have hno : ∀ i ∈ e.2.instances,
        ¬ (i.2.InstanceId = d.InstanceId ∧ i.2.Tags = d.Tags) := by
      intro i hi ⟨hid, htags⟩
      obtain ⟨-, -, w3⟩ := hwf.2 e he
      obtain ⟨hkey, hname⟩ := w3 i hi
      exact hden e he (serviceNameFromEC2_tags hname htags.symm) i hi (by rw [← hkey, hid])
    refine ⟨hno, ?_⟩
    rw [List.filter_eq_self.2 (fun i hi => decide_eq_true (hno i hi))]
    rfl
  · intro r hr a ha sn hn hnot
    have hallow : Kept sn a.InstanceId (io.Reservations.foldl
        (fun m r => r.Instances.foldl (addInstance params) m) []) :=
      nested_establish (addInstance params) (Kept sn a.InstanceId) a
        (Kept_addInstance_self params sn a hn)
        (fun m x h => Kept_addInstance params sn a.InstanceId x m h) _ _ r hr ha
    exact nested_invariant_mem removeInstance (Kept sn a.InstanceId) _ _
      (fun m x ⟨r2, hr2, hx⟩ h => Kept_removeInstance sn a.InstanceId x (hnot r2 hr2 x hx) m h)
      hallow

/-- C12, at an inventory whose allow query returns `instance1` and `instance2` and whose
deny query returns `instance1`: `instance1` is a member of no service, `instance2` is
kept in `web-80`. -/
theorem deny_list_exclusion_witness :
    denyParams.Denylist.length > 0 ∧
    partlyDeniedInventory 1 (filterConverter denyParams.Denylist) =
      .ok { Reservations := [{ Instances := [instance1] }] } ∧
    (∀ e ∈ buildServices partlyDeniedInventory denyParams
        { Reservations := [{ Instances := [instance1, instance2] }] },
      (∀ i ∈ e.2.instances,
        ¬ (i.2.InstanceId = instance1.InstanceId ∧ i.2.Tags = instance1.Tags)) ∧
      e.2.GetServers = getServersLoop e.2.ipv4
        (e.2.instances.filter (fun i =>
          decide (¬ (i.2.InstanceId = instance1.InstanceId ∧ i.2.Tags = instance1.Tags))))
        []) ∧
    ∃ s, ("web-80", s) ∈ buildServices partlyDeniedInventory denyParams
        { Reservations := [{ Instances := [instance1, instance2] }] } ∧
      instance2.InstanceId ∈ mapKeys s.instances :=
  ⟨by decide, by decide,
    (deny_list_exclusion partlyDeniedInventory denyParams
      { Reservations := [{ Instances := [instance1, instance2] }] }
      { Reservations := [{ Instances := [instance1] }] } (by decide) (by decide)).1
      { Instances := [instance1] } (by decide) instance1 (by decide),
    (deny_list_exclusion partlyDeniedInventory denyParams
      { Reservations := [{ Instances := [instance1, instance2] }] }
      { Reservations := [{ Instances := [instance1] }] } (by decide) (by decide)).2
      { Instances := [instance1, instance2] } (by decide) instance2 (by decide) "web-80"
      (by decide) (by decide)⟩

/-- C13 as stated fails: the tag list of `repeatedTagInstance` carries a
`HAProxy:Service:Name` tag with the value `web` and a `HAProxy:Service:Port` tag with the
value `80`, and `serviceNameFromEC2` returns an error, because a later
`HAProxy:Service:Name` tag has an empty value. -/
theorem serviceNameFromEC2_repeated_tag_counterexample :
    { Key := HAProxyServiceNameTag, Value := "web" } ∈ repeatedTagInstance.Tags ∧
    { Key := HAProxyServicePortTag, Value := "80" } ∈ repeatedTagInstance.Tags ∧
    serviceNameFromEC2 repeatedTagInstance = .error "missing metadata for instance i-5" := by
  decide

/-- C13, amended: for a tag list with unique keys `serviceNameFromEC2` returns
`name-port` when the list carries a `HAProxy:Service:Name` tag and a
`HAProxy:Service:Port` tag, both with non-empty values; for every tag list it returns
the error when no name tag or no port tag has a non-empty value.  `updateServices` skips
an instance on which it returns an error: both loops leave the services map as it is,
every member of every service built resolves to the key of its service, and the cycle
goes on to hand its services to the engine. -/
theorem serviceNameFromEC2_key_or_skip (inst : Instance) (api : InventoryAPI)
    (client : Client) (a : awsInstance) (io : DescribeInstancesOutput) :
    ((inst.Tags.map Tag.Key).Nodup → ∀ n p,
      { Key := HAProxyServiceNameTag, Value := n } ∈ inst.Tags →
      { Key := HAProxyServicePortTag, Value := p } ∈ inst.Tags → n ≠ "" → p ≠ "" →
      serviceNameFromEC2 inst = .ok (n ++ "-" ++ p)) ∧
    ((∀ t ∈ inst.Tags, t.Key = HAProxyServiceNameTag → t.Value = "") ∨
      (∀ t ∈ inst.Tags, t.Key = HAProxyServicePortTag → t.Value = "") →
      serviceNameFromEC2 inst =
        .error ("missing metadata for instance " ++ inst.InstanceId)) ∧
    (∀ e, serviceNameFromEC2 inst = .error e →
      ∀ m, addInstance a.params m inst = m ∧ removeInstance m inst = m) ∧
    (∀ e ∈ buildServices api a.params io, ∀ i ∈ e.2.instances,
      serviceNameFromEC2 i.2 = .ok e.1) ∧
    (api 0 (allowFilters a.params) = .ok io →
      discoveredServices api a =
        some (changeDetectorLoop (buildServices api a.params io) a.state []).1 ∧
      (updateServices api client a).1 =
        (UpdateServices client a.discoveryConfig
          ((changeDetectorLoop (buildServices api a.params io) a.state []).1.map
            awsService.toServiceInstance)).1) := by
  refine ⟨?_, ?_, fun e he m => addInstance_skip he, ?_, ?_⟩
  · intro hnd n p hn hp hn0 hp0
    unfold serviceNameFromEC2
    rw [serviceNameLoop_name _ _ n hnd hn, serviceNameLoop_port _ _ p hnd hp]
    have h1 : ¬ n.length = 0 := fun h => hn0 ((string_length_eq_zero n).1 h)
    have h2 : ¬ p.length = 0 := fun h => hp0 ((string_length_eq_zero p).1 h)
    simp [h1, h2]
  · intro h
    unfold serviceNameFromEC2
    rcases h with h | h
    · rw [serviceNameLoop_name_empty _ _ rfl h]
      simp
    · rw [serviceNameLoop_port_empty _ _ rfl h]
      simp
  · intro e he i hi
    exact (((ServicesWF_buildServices api a.params io).2 e he).2.2 i hi).2
  · intro h
    simp [discoveredServices, updateServices, h]

/-- C13, amended, at `instance1`, whose unique tags name `web` and port `80`, and at an
instance without tags, with an inventory that returns `instance1`. -/
theorem serviceNameFromEC2_key_or_skip_witness :
    (instance1.Tags.map Tag.Key).Nodup ∧
    serviceNameFromEC2 instance1 = .ok ("web" ++ "-" ++ "80") ∧
    ((∀ t ∈ untaggedInstance.Tags, t.Key = HAProxyServiceNameTag → t.Value = "") ∨
      (∀ t ∈ untaggedInstance.Tags, t.Key = HAProxyServicePortTag → t.Value = "")) ∧
    serviceNameFromEC2 untaggedInstance =
      .error ("missing metadata for instance " ++ untaggedInstance.InstanceId) ∧
    (∀ m, addInstance plainParams m untaggedInstance = m ∧
      removeInstance m untaggedInstance = m) ∧
    (discoveredServices webInventory (newAWSRegionInstance plainParams []) =
        some (changeDetectorLoop (buildServices webInventory plainParams
          { Reservations := [{ Instances := [instance1] }] }) [] []).1 ∧
      (updateServices webInventory okClient (newAWSRegionInstance plainParams [])).1 =
        (UpdateServices okClient (newAWSRegionInstance plainParams []).discoveryConfig
          ((changeDetectorLoop (buildServices webInventory plainParams
            { Reservations := [{ Instances := [instance1] }] }) [] []).1.map
            awsService.toServiceInstance)).1) :=
  ⟨by decide,
    (serviceNameFromEC2_key_or_skip instance1 webInventory okClient
      (newAWSRegionInstance plainParams []) { Reservations := [] }).1 (by decide)
      "web" "80" (by decide) (by decide) (by decide) (by decide),
    by decide,
    (serviceNameFromEC2_key_or_skip untaggedInstance webInventory okClient
      (newAWSRegionInstance plainParams []) { Reservations := [] }).2.1 (by decide),
    (serviceNameFromEC2_key_or_skip untaggedInstance webInventory okClient
      (newAWSRegionInstance plainParams []) { Reservations := [] }).2.2.1
      ("missing metadata for instance " ++ untaggedInstance.InstanceId) (by decide),
    (serviceNameFromEC2_key_or_skip instance1 webInventory okClient
      (newAWSRegionInstance plainParams [])
      { Reservations := [{ Instances := [instance1] }] }).2.2.2.2 (by decide)⟩

/-- C14: for a tag list with unique keys, `instancePortFromEC2` returns the integer
parse of the value of the `HAProxy:Instance:Port` tag when that tag is present, wherever
the `HAProxy:Service:Port` tag sits, and otherwise the integer parse of the value of the
`HAProxy:Service:Port` tag; every permutation of the tag list gives the same result. -/
theorem instancePortFromEC2_order_independent (inst : Instance) (tags : List Tag)
    (hnd : (inst.Tags.map Tag.Key).Nodup) :
    (∀ v, { Key := HAProxyInstancePortTag, Value := v } ∈ inst.Tags →
      instancePortFromEC2 inst = Atoi v) ∧
    ((∀ t ∈ inst.Tags, t.Key ≠ HAProxyInstancePortTag) →
      ∀ v, { Key := HAProxyServicePortTag, Value := v } ∈ inst.Tags →
        instancePortFromEC2 inst = Atoi v) ∧
    (tags.Perm inst.Tags →
      instancePortFromEC2 { inst with Tags := tags } = instancePortFromEC2 inst) := by
  refine ⟨fun v hv => instancePortLoop_instance_tag _ _ v hnd hv,
    fun hno v hv => instancePortLoop_service_tag _ _ v hnd hno hv, fun hp => ?_⟩
  have hnd' : (tags.map Tag.Key).Nodup := (hp.map Tag.Key).nodup_iff.2 hnd
  unfold instancePortFromEC2
  simp only
  by_cases hi : ∃ t ∈ inst.Tags, t.Key = HAProxyInstancePortTag
  · obtain ⟨t, ht, hk⟩ := hi
    have ht' : ({ Key := HAProxyInstancePortTag, Value := t.Value } : Tag) ∈ inst.Tags := by
      rw [← hk]; exact ht
    rw [instancePortLoop_instance_tag _ _ t.Value hnd ht',
      instancePortLoop_instance_tag _ _ t.Value hnd' (hp.mem_iff.2 ht')]
  · push_neg at hi
    have hi' : ∀ t ∈ tags, t.Key ≠ HAProxyInstancePortTag :=
      fun t ht => hi t (hp.mem_iff.1 ht)
    by_cases hs : ∃ t ∈ inst.Tags, t.Key = HAProxyServicePortTag
    · obtain ⟨t, ht, hk⟩ := hs
      have ht' : ({ Key := HAProxyServicePortTag, Value := t.Value } : Tag) ∈ inst.Tags := by
        rw [← hk]; exact ht
      rw [instancePortLoop_service_tag _ _ t.Value hnd hi ht',
        instancePortLoop_service_tag _ _ t.Value hnd' hi' (hp.mem_iff.2 ht')]
    · push_neg at hs
      rw [instancePortLoop_no_port_tag _ _ (fun t ht => ⟨hs t ht, hi t ht⟩),
        instancePortLoop_no_port_tag _ _
          (fun t ht => ⟨hs t (hp.mem_iff.1 ht), hi t (hp.mem_iff.1 ht)⟩)]

/-- C14, at an instance that carries both port tags, and at its tag list reversed. -/
theorem instancePortFromEC2_order_independent_witness :
    (portInstance.Tags.map Tag.Key).Nodup ∧
    instancePortFromEC2 portInstance = Atoi "8080" ∧
    (portInstance.Tags.reverse.Perm portInstance.Tags →
      instancePortFromEC2 { portInstance with Tags := portInstance.Tags.reverse } =
        instancePortFromEC2 portInstance) ∧
    instancePortFromEC2 { portInstance with Tags := portInstance.Tags.reverse } =
      instancePortFromEC2 portInstance :=
  ⟨by decide,
    (instancePortFromEC2_order_independent portInstance portInstance.Tags.reverse
      (by decide)).1 "8080" (by decide),
    (instancePortFromEC2_order_independent portInstance portInstance.Tags.reverse
      (by decide)).2.2,
    (instancePortFromEC2_order_independent portInstance portInstance.Tags.reverse
      (by decide)).2.2 (List.reverse_perm _)⟩

/-- C15 as stated fails: the member of `web-http` carries the service port tag `http`,
`strconv.Atoi` fails on it, `GetServers` drops the error and returns the server with
port 0. -/
theorem GetServers_port_out_of_range_counterexample :
    serviceNameFromEC2 namedPortInstance = .ok "web-http" ∧
    webHttpService.GetServers = [{ Address := "10.0.0.4", Port := 0 }] ∧
    ¬ (∀ srv ∈ webHttpService.GetServers, 1 ≤ srv.Port ∧ srv.Port ≤ 65535) := by
  decide

/-- C15, amended: `GetServers` gives each member with a usable address one server that
carries the address and the port of that same member, the port being what
`instancePortFromEC2` returns for it with the error dropped and no range check.  That
value is 0 for a member without a port tag and otherwise what `strconv.Atoi` returns for
the value of one of its port tags, which comes with no error, or is 0 with a syntax
error, or is a bound of `int64` with a range error.  The ports lie between 1 and 65535
when that value does for every member. -/
theorem GetServers_port_of_member (s : awsService) :
    s.GetServers = s.instances.filterMap (fun m =>
      if s.ipv4 = AwsRegionIPV4AddressPrivate then
        if ToString m.2.PrivateIpAddress = "" then none
        else some { Address := ToString m.2.PrivateIpAddress,
                    Port := (instancePortFromEC2 m.2).1 }
      else if s.ipv4 = AwsRegionIPV4AddressPublic then
        if ToString m.2.PublicIpAddress = "" then none
        else some { Address := ToString m.2.PublicIpAddress,
                    Port := (instancePortFromEC2 m.2).1 }
      else none) ∧
    (∀ srv ∈ s.GetServers, ∃ m ∈ s.instances, srv.Port = (instancePortFromEC2 m.2).1 ∧
      (srv.Address = ToString m.2.PrivateIpAddress ∨
        srv.Address = ToString m.2.PublicIpAddress)) ∧
    (∀ m ∈ s.instances,
      ((∀ t ∈ m.2.Tags, t.Key ≠ HAProxyServicePortTag ∧ t.Key ≠ HAProxyInstancePortTag) →
        instancePortFromEC2 m.2 = (0, none)) ∧
      (instancePortFromEC2 m.2 = (0, none) ∨
        ∃ t ∈ m.2.Tags, (t.Key = HAProxyServicePortTag ∨ t.Key = HAProxyInstancePortTag) ∧
          instancePortFromEC2 m.2 = Atoi t.Value)) ∧
    (∀ v, (Atoi v).2 = none ∨ Atoi v = (0, some "invalid syntax") ∨
      Atoi v = ((2 ^ 63 : Int) - 1, some "value out of range") ∨
      Atoi v = (-(2 ^ 63 : Int), some "value out of range")) ∧
    ((∀ m ∈ s.instances, 1 ≤ (instancePortFromEC2 m.2).1 ∧
        (instancePortFromEC2 m.2).1 ≤ 65535) →
      ∀ srv ∈ s.GetServers, 1 ≤ srv.Port ∧ srv.Port ≤ 65535) := by
  refine ⟨GetServers_eq_filterMap s, GetServers_from_member s, fun m _ => ?_, Atoi_cases,
    fun h srv hsrv => ?_⟩
  · exact ⟨fun h => instancePortLoop_no_port_tag _ _ h, instancePortLoop_cases _ _⟩
  · obtain ⟨m, hm, hp, -⟩ := GetServers_from_member s srv hsrv
    rw [hp]
    exact h m hm

/-- C15, amended, at the service `web-80` with the members `i-1` and `i-2`, both on
port 80, and at the service `web-80` asked for public addresses, whose one server has
the address and the port 8080 of the member `i-3`. -/
theorem GetServers_port_of_member_witness :
    (∀ m ∈ web80Service.instances, 1 ≤ (instancePortFromEC2 m.2).1 ∧
        (instancePortFromEC2 m.2).1 ≤ 65535) ∧
    (∀ srv ∈ web80Service.GetServers, 1 ≤ srv.Port ∧ srv.Port ≤ 65535) ∧
    web80PublicService.GetServers = [{ Address := "203.0.113.3", Port := 8080 }] ∧
    instancePortFromEC2 untaggedInstance = (0, none) :=
  ⟨by decide, (GetServers_port_of_member web80Service).2.2.2.2 (by decide),
    (GetServers_port_of_member web80PublicService).1.trans (by decide),
    ((GetServers_port_of_member
      { web80Service with instances := [("i-6", untaggedInstance)] }).2.2.1
      ("i-6", untaggedInstance) (by decide)).1 (by decide)⟩

/-- C16 as stated fails: the triples (`a-b`, `c`, `d`) and (`a`, `b-c`, `d`) have the
same backend name `aws-a-b-c-d`. -/
theorem GetBackendName_collision_counterexample :
    ({ web80Service with region := "a-b", instanceName := "c", name := "d" } :
        awsService).GetBackendName =
      ({ web80Service with region := "a", instanceName := "b-c", name := "d" } :
        awsService).GetBackendName ∧
    ("a-b", "c", "d") ≠ ("a", "b-c", "d") := by
  decide

/-- C16, amended: `GetBackendName` is `aws-<region>-<instanceName>-<name>`; two services
of the same region and source name with equal backend names have the same name, and two
services whose regions and source names contain no `-` and whose backend names are equal
have the same region, source name and name. -/
theorem GetBackendName_injective (a b : awsService)
    (h : a.GetBackendName = b.GetBackendName) :
    a.GetBackendName = "aws-" ++ a.region ++ "-" ++ a.instanceName ++ "-" ++ a.name ∧
    (a.region = b.region → a.instanceName = b.instanceName → a.name = b.name) ∧
    ('-' ∉ a.region.data → '-' ∉ a.instanceName.data → '-' ∉ b.region.data →
      '-' ∉ b.instanceName.data →
      a.region = b.region ∧ a.instanceName = b.instanceName ∧ a.name = b.name) := by
  have hd : a.GetBackendName.data = b.GetBackendName.data := by rw [h]
  rw [GetBackendName_data, GetBackendName_data] at hd
  have hd' := List.append_cancel_left hd
  refine ⟨rfl, fun hr hi => ?_, fun h1 h2 h3 h4 => ?_⟩
  · rw [hr, hi] at hd'
    have := List.append_cancel_left hd'
    simp only [List.cons.injEq, true_and] at this
    have := List.append_cancel_left this
    simp only [List.cons.injEq, true_and] at this
    exact String.ext this
  · obtain ⟨e1, e2⟩ := split_at_first '-' _ _ _ _ h1 h3 hd'
    obtain ⟨e3, e4⟩ := split_at_first '-' _ _ _ _ h2 h4 e2
    exact ⟨String.ext e1, String.ext e3, String.ext e4⟩

/-- C16, amended, at the service `web-80` discovered once with the private and once with
the public preference. -/
theorem GetBackendName_injective_witness :
    web80Service.GetBackendName = web80PublicService.GetBackendName ∧
    '-' ∉ web80Service.region.data ∧ '-' ∉ web80Service.instanceName.data ∧
    '-' ∉ web80PublicService.region.data ∧ '-' ∉ web80PublicService.instanceName.data ∧
    web80Service.GetBackendName = "aws-" ++ web80Service.region ++ "-" ++
      web80Service.instanceName ++ "-" ++ web80Service.name ∧
    (web80Service.region = web80PublicService.region →
      web80Service.instanceName = web80PublicService.instanceName →
      web80Service.name = web80PublicService.name) ∧
    (web80Service.region = web80PublicService.region ∧
      web80Service.instanceName = web80PublicService.instanceName ∧
      web80Service.name = web80PublicService.name) :=
  ⟨by decide, by decide, by decide, by decide, by decide,
    (GetBackendName_injective web80Service web80PublicService (by decide)).1,
    (GetBackendName_injective web80Service web80PublicService (by decide)).2.1,
    (GetBackendName_injective web80Service web80PublicService (by decide)).2.2
      (by decide) (by decide) (by decide) (by decide)⟩

/-- C17: `UpdateParams` makes `UpdateScalingParams` calls with the new policy and no
other call (it opens no transaction), keeps the new parameters, and leaves the keys, the
handles and the pending-deletion flags of the tracked map as they were.  When it returns
`nil` it has called every tracked service once, in map order, and each carries the new
policy; it returns `nil` exactly when no call failed.  When it returns an error, that
is the error of the last call made, the calls before it succeeded and were made on the
services before the failing one, no call follows, and the services called with success
keep the new policy. -/
theorem UpdateParams_pushes_policy (client : Client) (s : ServiceDiscoveryInstance)
    (params : discoveryInstanceParams) :
    (∀ x ∈ paramsEvents client s params,
      ∃ n b r, x = Event.updateScalingParams n b params.scaling r) ∧
    (UpdateParams client s params).2.transactionID = s.transactionID ∧
    (UpdateParams client s params).2.params = params ∧
    (UpdateParams client s params).2.services.map
        (fun e => (e.1, e.2.deleted, e.2.confService.name, e.2.confService.transactionID)) =
      s.services.map
        (fun e => (e.1, e.2.deleted, e.2.confService.name, e.2.confService.transactionID)) ∧
    ((UpdateParams client s params).1 = none ↔
      ∀ x ∈ paramsEvents client s params,
        ∀ n b p e, x ≠ Event.updateScalingParams n b p (some e)) ∧
    ((UpdateParams client s params).1 = none →
      paramsEvents client s params = s.services.map (fun e =>
        Event.updateScalingParams e.1 e.2.confService.name params.scaling none) ∧
      ∀ e ∈ (UpdateParams client s params).2.services,
        e.2.confService.scaling = params.scaling) ∧
    (∀ err, (UpdateParams client s params).1 = some err →
      ∃ k f, k < s.services.length ∧ (s.services.drop k).head? = some f ∧
        paramsEvents client s params =
          (s.services.take k).map (fun e =>
            Event.updateScalingParams e.1 e.2.confService.name params.scaling none) ++
          [Event.updateScalingParams f.1 f.2.confService.name params.scaling (some err)] ∧
        (UpdateParams client s params).2.services =
          (s.services.take k).map (fun e =>
            (e.1, { e.2 with confService :=
              { e.2.confService with scaling := params.scaling } })) ++
          s.services.drop k) := by
  obtain ⟨k, hk, hserv, hnone, hsome⟩ :=
    updateParamsLoop_spec client params.scaling s.services s.trace
  have hS : (UpdateParams client s params).2.services =
      (s.services.take k).map (fun e =>
        (e.1, { e.2 with confService := { e.2.confService with scaling := params.scaling } }))
      ++ s.services.drop k := hserv
  have hR : (UpdateParams client s params).1 =
      (updateParamsLoop client params.scaling s.services s.trace).1 := rfl
  have hT : (UpdateParams client s params).2.trace =
      (updateParamsLoop client params.scaling s.services s.trace).2.2 := rfl
  have hkeys : (UpdateParams client s params).2.services.map
        (fun e => (e.1, e.2.deleted, e.2.confService.name, e.2.confService.transactionID)) =
      s.services.map
        (fun e => (e.1, e.2.deleted, e.2.confService.name, e.2.confService.transactionID)) := by
    rw [hS, List.map_append, List.map_map]
    conv_rhs => rw [← List.take_append_drop k s.services, List.map_append]
    rfl
  cases hres : (updateParamsLoop client params.scaling s.services s.trace).1 with
  | none =>
    obtain ⟨hk2, htr⟩ := hnone hres
    have hev : paramsEvents client s params = s.services.map (fun e =>
        Event.updateScalingParams e.1 e.2.confService.name params.scaling none) := by
      simp [paramsEvents, hT, htr]
    refine ⟨?_, rfl, rfl, hkeys, ?_, ?_, ?_⟩
    · rw [hev]
      intro x hx
      obtain ⟨e, -, rfl⟩ := List.mem_map.1 hx
      exact ⟨_, _, _, rfl⟩
    · rw [hR, hres, hev]
      refine ⟨fun _ x hx n b p e heq => ?_, fun _ => rfl⟩
      obtain ⟨e0, -, rfl⟩ := List.mem_map.1 hx
      cases heq
    · intro _
      refine ⟨hev, ?_⟩
      rw [hS, hk2]
      intro e he
      simp only [List.take_length, List.drop_length, List.append_nil, List.mem_map] at he
      obtain ⟨e0, -, rfl⟩ := he
      rfl
    · intro err herr
      rw [hR, hres] at herr
      cases herr
  | some err =>
    obtain ⟨f, hf, htr⟩ := hsome err hres
    have hev : paramsEvents client s params =
        (s.services.take k).map (fun e =>
          Event.updateScalingParams e.1 e.2.confService.name params.scaling none) ++
        [Event.updateScalingParams f.1 f.2.confService.name params.scaling (some err)] := by
      simp [paramsEvents, hT, htr]
    have hklt : k < s.services.length := by
      by_contra hge
      rw [List.drop_eq_nil_of_le (by omega)] at hf
      cases hf
    refine ⟨?_, rfl, rfl, hkeys, ?_, ?_, ?_⟩
    · rw [hev]
      intro x hx
      rcases List.mem_append.1 hx with hx | hx
      · obtain ⟨e, -, rfl⟩ := List.mem_map.1 hx
        exact ⟨_, _, _, rfl⟩
      · rw [List.mem_singleton] at hx
        exact ⟨_, _, _, hx⟩
    · rw [hR, hres, hev]
      refine ⟨fun h => (by cases h), fun h => ?_⟩
      exact absurd rfl (h _ (by simp) f.1 f.2.confService.name params.scaling err)
    · intro h
      rw [hR, hres] at h
      cases h
    · intro err' herr
      rw [hR, hres] at herr
      cases herr
      exact ⟨k, f, hklt, hf, hev, hS⟩

/-- C17, at an engine that tracks `web-80` and `api-443`: with a store where every call
succeeds both are updated, with a store that fails for `api-443` the error is returned
and `web-80` keeps the new policy. -/
theorem UpdateParams_pushes_policy_witness :
    (UpdateParams okClient flaggedEngine widerParams).1 = none ∧
    (UpdateParams scalingFailsClient flaggedEngine widerParams).1 = some "no free slot" ∧
    (paramsEvents okClient flaggedEngine widerParams = flaggedEngine.services.map (fun e =>
        Event.updateScalingParams e.1 e.2.confService.name widerParams.scaling none) ∧
      ∀ e ∈ (UpdateParams okClient flaggedEngine widerParams).2.services,
        e.2.confService.scaling = widerParams.scaling) ∧
    ∃ k f, k < flaggedEngine.services.length ∧
      (flaggedEngine.services.drop k).head? = some f ∧
      paramsEvents scalingFailsClient flaggedEngine widerParams =
        (flaggedEngine.services.take k).map (fun e =>
          Event.updateScalingParams e.1 e.2.confService.name widerParams.scaling none) ++
        [Event.updateScalingParams f.1 f.2.confService.name widerParams.scaling
          (some "no free slot")] ∧
      (UpdateParams scalingFailsClient flaggedEngine widerParams).2.services =
        (flaggedEngine.services.take k).map (fun e =>
          (e.1, { e.2 with confService :=
            { e.2.confService with scaling := widerParams.scaling } })) ++
        flaggedEngine.services.drop k :=
  ⟨by decide, by decide,
    (UpdateParams_pushes_policy okClient flaggedEngine widerParams).2.2.2.2.2.1 (by decide),
    (UpdateParams_pushes_policy scalingFailsClient flaggedEngine widerParams).2.2.2.2.2.2
      "no free slot" (by decide)⟩

/-- C18: with the private preference `GetServers` returns, in member order, one server
for each member whose private address is present and non-empty, carrying that address,
and none for the other members; likewise with the public preference and the public
address.  The servers are never more than the members, and taking out a member without
a usable address leaves the servers as they are. -/
theorem GetServers_one_per_usable_member (s : awsService) :
    (s.ipv4 = AwsRegionIPV4AddressPrivate →
      s.GetServers = s.instances.filterMap (fun e =>
        if ToString e.2.PrivateIpAddress = "" then none
        else some { Address := ToString e.2.PrivateIpAddress,
                    Port := (instancePortFromEC2 e.2).1 })) ∧
    (s.ipv4 = AwsRegionIPV4AddressPublic →
      s.GetServers = s.instances.filterMap (fun e =>
        if ToString e.2.PublicIpAddress = "" then none
        else some { Address := ToString e.2.PublicIpAddress,
                    Port := (instancePortFromEC2 e.2).1 })) ∧
    s.GetServers.length ≤ s.instances.length ∧
    (∀ pre m post, s.instances = pre ++ m :: post →
      (s.ipv4 = AwsRegionIPV4AddressPrivate → ToString m.2.PrivateIpAddress = "") →
      (s.ipv4 = AwsRegionIPV4AddressPublic → ToString m.2.PublicIpAddress = "") →
      s.GetServers = ({ s with instances := pre ++ post } : awsService).GetServers) := by
  refine ⟨fun h => ?_, fun h => ?_, ?_, ?_⟩
  · unfold awsService.GetServers
    rw [h, getServersLoop_private]
    simp
  · unfold awsService.GetServers
    rw [h, getServersLoop_public]
    simp
  · unfold awsService.GetServers
    by_cases h1 : s.ipv4 = AwsRegionIPV4AddressPrivate
    · rw [h1, getServersLoop_private]
      simpa using List.length_filterMap_le _ _
    · by_cases h2 : s.ipv4 = AwsRegionIPV4AddressPublic
      · rw [h2, getServersLoop_public]
        simpa using List.length_filterMap_le _ _
      · rw [getServersLoop_other _ h1 h2]
        simp
  · intro pre m post heq hpriv hpub
    unfold awsService.GetServers
    simp only
    by_cases h1 : s.ipv4 = AwsRegionIPV4AddressPrivate
    · rw [h1, getServersLoop_private, getServersLoop_private, heq]
      simp [List.filterMap_append, List.filterMap_cons, hpriv h1]
    · by_cases h2 : s.ipv4 = AwsRegionIPV4AddressPublic
      · rw [h2, getServersLoop_public, getServersLoop_public, heq]
        simp [List.filterMap_append, List.filterMap_cons, hpub h2]
      · rw [getServersLoop_other _ h1 h2, getServersLoop_other _ h1 h2]

/-- C18, at the service `web-80` asked for public addresses, whose member `i-1` has no
public address and whose member `i-3` has one. -/
theorem GetServers_one_per_usable_member_witness :
    web80PublicService.ipv4 = AwsRegionIPV4AddressPublic ∧
    web80PublicService.instances = [] ++ ("i-1", instance1) :: [("i-3", portInstance)] ∧
    web80PublicService.GetServers = web80PublicService.instances.filterMap (fun e =>
        if ToString e.2.PublicIpAddress = "" then none
        else some { Address := ToString e.2.PublicIpAddress,
                    Port := (instancePortFromEC2 e.2).1 }) ∧
    web80PublicService.GetServers =
      ({ web80PublicService with instances := [] ++ [("i-3", portInstance)] } :
        awsService).GetServers :=
  ⟨by decide, by decide, (GetServers_one_per_usable_member web80PublicService).2.1 (by decide),
    (GetServers_one_per_usable_member web80PublicService).2.2.2 [] ("i-1", instance1)
      [("i-3", portInstance)] (by decide) (by decide) (by decide)⟩

/-- C19: after a poll cycle whose allow query succeeds, the fingerprint retained for each
service built in the cycle is the list of the instance ids of its members with their
launch times, whatever `changed` was; so a following cycle whose queries return
identical instances (same ids, same launch times, same tags) reports the same services,
each with `changed = false`. -/
theorem fingerprint_replaced (api api2 : InventoryAPI) (client : Client) (a : awsInstance)
    (io : DescribeInstancesOutput) (h0 : api 0 (allowFilters a.params) = .ok io) :
    (∀ e ∈ buildServices api a.params io,
      mapGet (updateServices api client a).2.state e.2.name =
        some (e.2.instances.map (fun i => (i.2.InstanceId, i.2.LaunchTime)))) ∧
    (sameInstances (api 0 (allowFilters a.params)) (api2 0 (allowFilters a.params)) = true →
      (a.params.Denylist.length > 0 →
        sameInstances (api 1 (filterConverter a.params.Denylist))
          (api2 1 (filterConverter a.params.Denylist)) = true) →
      ∃ svcs, discoveredServices api2 (updateServices api client a).2 = some svcs ∧
        svcs.map awsService.name = mapKeys (buildServices api a.params io) ∧
        ∀ s ∈ svcs, s.changed = false) := by
  have hwf := ServicesWF_buildServices api a.params io
  obtain ⟨-, c2, -⟩ := changeDetectorLoop_spec (buildServices api a.params io) a.state []
    (ServicesWF_names hwf)
  have hstate : (updateServices api client a).2.state =
      (changeDetectorLoop (buildServices api a.params io) a.state []).2 := by
    simp [updateServices, h0]
  have hparams : (updateServices api client a).2.params = a.params := by
    simp [updateServices, h0]
  have hfp : ∀ e ∈ buildServices api a.params io, launchTimes e.2.instances [] =
      e.2.instances.map (fun i => (i.2.InstanceId, i.2.LaunchTime)) := by
    intro e he
    rw [launchTimes_eq e.2.instances [] (ServicesWF_ids hwf he) (by simp [mapKeys])]
    simp
  refine ⟨fun e he => by rw [hstate, c2 e he, hfp e he], fun h1 h2 => ?_⟩
  rw [h0] at h1
  cases hb : api2 0 (allowFilters a.params) with
  | error e2 => rw [hb] at h1; cases h1
  | ok io2 =>
    rw [hb] at h1
    simp only [sameInstances, decide_eq_true_eq] at h1
    have hstrip := stripServices_buildServices api api2 a.params io io2 h1 h2
    have hwf2 := ServicesWF_buildServices api2 a.params io2
    obtain ⟨d1, -, -⟩ := changeDetectorLoop_spec (buildServices api2 a.params io2)
      (updateServices api client a).2.state [] (ServicesWF_names hwf2)
    refine ⟨(changeDetectorLoop (buildServices api2 a.params io2)
      (updateServices api client a).2.state []).1, ?_, ?_, ?_⟩
    · simp only [discoveredServices, hparams, hb]
    · rw [d1, ← mapKeys_stripServices (buildServices api a.params io), ← hstrip,
        mapKeys_stripServices]
      simp only [List.nil_append, List.map_map, mapKeys]
      apply List.map_congr_left
      intro e he
      exact (hwf2.2 e he).1
    · intro s hs
      rw [d1] at hs
      simp only [List.nil_append, List.mem_map] at hs
      obtain ⟨e, he, rfl⟩ := hs
      simp only
      obtain ⟨e1, he1, hname, hlt⟩ := fingerprint_of_strip hstrip he
      exact serviceChanged_same_fingerprint _ e.2 (ServicesWF_ids hwf2 he)
        (by rw [hstate, ← hname, ← hlt]; exact c2 e1 he1)

/-- C19, at a new driver and an inventory that returns `instance1` in the first cycle and
`instance1` under another address in the second. -/
theorem fingerprint_replaced_witness :
    webInventory 0 (allowFilters (newAWSRegionInstance plainParams []).params) =
      .ok { Reservations := [{ Instances := [instance1] }] } ∧
    sameInstances (webInventory 0 (allowFilters (newAWSRegionInstance plainParams []).params))
      (movedInventory 0 (allowFilters (newAWSRegionInstance plainParams []).params)) = true ∧
    (∀ e ∈ buildServices webInventory (newAWSRegionInstance plainParams []).params
        { Reservations := [{ Instances := [instance1] }] },
      mapGet (updateServices webInventory okClient
          (newAWSRegionInstance plainParams [])).2.state e.2.name =
        some (e.2.instances.map (fun i => (i.2.InstanceId, i.2.LaunchTime)))) ∧
    ∃ svcs, discoveredServices movedInventory
        (updateServices webInventory okClient (newAWSRegionInstance plainParams [])).2 =
          some svcs ∧
      svcs.map awsService.name =
        mapKeys (buildServices webInventory (newAWSRegionInstance plainParams []).params
          { Reservations := [{ Instances := [instance1] }] }) ∧
      ∀ s ∈ svcs, s.changed = false :=
  ⟨by decide, by decide,
    (fingerprint_replaced webInventory movedInventory okClient
      (newAWSRegionInstance plainParams [])
      { Reservations := [{ Instances := [instance1] }] } (by decide)).1,
    (fingerprint_replaced webInventory movedInventory okClient
      (newAWSRegionInstance plainParams [])
      { Reservations := [{ Instances := [instance1] }] } (by decide)).2 (by decide)
      (fun h => absurd h (by decide))⟩

/-- C20: after a pass that returns without error and in which every `Delete` succeeded,
the names in the tracked map are exactly the names of the snapshots the
whitelist/blacklist policy includes, and every tracked entry has its pending-deletion
flag clear.  (A pass that returns has met no included snapshot that is untracked and
unchanged: that one panics.) -/
theorem UpdateServices_tracks_included (client : Client) (s : ServiceDiscoveryInstance)
    (services : List ServiceInstance)
    (h1 : passOutcome client s services = .returned none)
    (h2 : ∀ x ∈ passEvents client s services,
      x.deleteCall.isSome = true → x.deleted.isSome = true) :
    (∀ n, n ∈ mapKeys (passState client s services).services ↔
      n ∈ includedNames s services) ∧
    ∀ e ∈ (passState client s services).services, e.2.deleted = false := by
  obtain ⟨hK, hN⟩ := first_pass_tracked h1 h2
  refine ⟨fun n => ⟨fun hn => ?_, hN n⟩, fun e he => (hK e he).1⟩
  simp only [mapKeys, List.mem_map] at hn
  obtain ⟨e, he, rfl⟩ := hn
  exact (hK e he).2

/-- C20, at a store where every call succeeds, an engine that tracks `web-80` and the
snapshot `api-443`: `web-80` is deleted, `api-443` is tracked. -/
theorem UpdateServices_tracks_included_witness :
    passOutcome okClient trackedEngine [api443] = .returned none ∧
    (∀ x ∈ passEvents okClient trackedEngine [api443],
      x.deleteCall.isSome = true → x.deleted.isSome = true) ∧
    (∀ n, n ∈ mapKeys (passState okClient trackedEngine [api443]).services ↔
      n ∈ includedNames trackedEngine [api443]) ∧
    ∀ e ∈ (passState okClient trackedEngine [api443]).services, e.2.deleted = false :=
  ⟨by decide, by decide,
    UpdateServices_tracks_included okClient trackedEngine [api443] (by decide) (by decide)⟩

end Discovery
